import Mathlib

/-! The session control plane of browserbase-mini.

A shallow embedding of the session manager (`internal/session/manager.go`), the
region manager (`internal/region/manager.go`), the browser pool
(`internal/browser/pool.go`), the context manager with the disk it works on
(`internal/context/manager.go`), the rate limiter and the HTTP edge
(`internal/ratelimit`, `internal/api`), the WebSocket proxy (`internal/proxy`) and
the data model of `pkg/models`.

Conventions of the embedding:

* a Go `error` is an `Option String` (`none` is `nil`); a Go `(value, error)`
  pair is an `Except String value`;
* `sync.Map` and Go maps keyed by strings are association lists with at most one
  entry per key;
* pointers to sessions and contexts are replaced by whole-record replacement in
  the map that holds them;
* everything the program obtains from outside (the uuid generator, the clock, the
  file system, the container runtime, the sidecar process) is an explicit
  outcome record passed to the operation;
* a run-time panic is the outer `none` of an operation's result;
* every exported operation is given as one step; the two terminal transitions of
  a session (`DeleteSession`, `handleTimeout`) hold no lock between their status
  check and their status write, so they are also given in two halves (`guard`,
  `finish`), and an overlap of two of them is a run in which both guards precede
  both finishes;
* a symbolic link or any other node of the disk that is neither a directory nor a
  regular file is a `special` node: what the operating system does at it is an
  explicit outcome (`SpecialOutcome`).
-/

namespace BrowserbaseMini

/-- A Go `error` value: `none` is `nil`, `some msg` carries the message text. -/
abbrev GoError := Option String

/-- Two's-complement wrap of an integer into the range of Go's `int64`. -/
def wrapInt64 (x : Int) : Int :=
  (x + 9223372036854775808) % 18446744073709551616 - 9223372036854775808

/-! ## `time` -/

namespace time

/-- A `time.Duration`: a count of nanoseconds held in an `int64`. -/
abbrev Duration := Int

/-- A `time.Time`, as nanoseconds on the wall clock. -/
abbrev Time := Int

/-- The constant `time.Second`. -/
def Second : Duration := 1000000000

/-- The expression `time.Duration(n) * time.Second`: an `int64` product. -/
def secondsDuration (n : Int) : Duration := wrapInt64 (wrapInt64 n * Second)

/-- The method `Time.Add` on the wall clock. -/
def Add (t : Time) (d : Duration) : Time := t + d

end time

/-! ## String-keyed maps (`sync.Map`, `map[string]T`) -/

namespace gomap

/-- Map read: `m[k]` / `sync.Map.Load`. -/
def Load {α : Type} (l : List (String × α)) (k : String) : Option α :=
  List.lookup k l

/-- Map removal: `delete(m, k)` / `sync.Map.Delete`. -/
def Delete {α : Type} (l : List (String × α)) (k : String) : List (String × α) :=
  l.filter (fun kv => kv.1 != k)

/-- Map write: `m[k] = v` / `sync.Map.Store`; any earlier entry of `k` is replaced. -/
def Store {α : Type} (l : List (String × α)) (k : String) (v : α) : List (String × α) :=
  (k, v) :: Delete l k

end gomap

/-! ## `golang.org/x/sync/semaphore` -/

namespace semaphore

/-- The counters of a `semaphore.Weighted`: capacity `size` and permits held
`cur`.  The waiter queue is left out: the program only calls `TryAcquire`, which
never enqueues a waiter. -/
structure Weighted where
  size : Int
  cur : Int
deriving DecidableEq, Repr

/-- The constructor `semaphore.NewWeighted(n)`. -/
def NewWeighted (n : Int) : Weighted := ⟨n, 0⟩

/-- The method `TryAcquire(n)`: acquires when `size - cur >= n`, without blocking. -/
def Weighted.TryAcquire (s : Weighted) (n : Int) : Weighted × Bool :=
  if s.size - s.cur ≥ n then ({ s with cur := s.cur + n }, true) else (s, false)

/-- The method `Release(n)`: `cur -= n`, and a panic (`none`) when `cur` drops below zero. -/
def Weighted.Release (s : Weighted) (n : Int) : Option Weighted :=
  if s.cur - n < 0 then none else some { s with cur := s.cur - n }

end semaphore

/-! ## `pkg/models` -/

namespace models

/-- The string type `SessionStatus`. -/
abbrev SessionStatus := String

def StatusRunning : SessionStatus := "RUNNING"
def StatusCompleted : SessionStatus := "COMPLETED"
def StatusError : SessionStatus := "ERROR"
def StatusTimedOut : SessionStatus := "TIMED_OUT"

/-- The struct `models.Session`. -/
structure Session where
  ID : String
  ProjectID : String
  Status : SessionStatus
  Region : String
  StartedAt : time.Time
  ExpiresAt : time.Time
  Timeout : Int
  ConnectURL : String
  ContainerID : String
  ContextID : String
  UserDataDir : String
deriving DecidableEq, Repr

/-- The struct `models.CreateSessionRequest`; an absent JSON field is Go's zero value. -/
structure CreateSessionRequest where
  ProjectID : String
  Region : String
  Timeout : Int
  ContextID : String
deriving DecidableEq, Repr

/-- The struct `models.Context`. -/
structure Context where
  ID : String
  ProjectID : String
  CreatedAt : time.Time
  UpdatedAt : time.Time
  DataPath : String
deriving DecidableEq, Repr

end models

/-! ## `path/filepath` -/

namespace filepath

/-- A slash-separated path: whether it begins with the separator, and the
elements between separators.  The empty string has no element; `.` is the one
element `"."`; after `Clean` the path `.` is the relative path without elements. -/
structure Path where
  rooted : Bool
  elems : List String
deriving DecidableEq, Repr

/-- A name that a directory entry can have: not empty, not `.` or `..`, and
without a separator. -/
abbrev IsName (s : String) : Prop := s ≠ "" ∧ s ≠ "." ∧ s ≠ ".." ∧ '/' ∉ s.data

/-- The function `Clean` on the next element, after the rules of its
documentation: an empty element and `.` are dropped; `..` removes the element
before it, is dropped at the root, and is kept at the beginning of a relative
path. -/
def Clean.step (rooted : Bool) (out : List String) (e : String) : List String :=
  if e = "" ∨ e = "." then out
  else if e = ".." then
    match out.getLast? with
    | some x => if x = ".." then out ++ [".."] else out.dropLast
    | none => if rooted then out else out ++ [".."]
  else out ++ [e]

/-- The function `filepath.Clean`. -/
def Clean (p : Path) : Path :=
  { rooted := p.rooted, elems := p.elems.foldl (Clean.step p.rooted) [] }

/-- The function `filepath.Join` on two paths: an empty first path is ignored,
the rest is joined with a separator and cleaned. -/
def Join (a b : Path) : Path :=
  Clean { rooted := if a = { rooted := false, elems := [] } then b.rooted else a.rooted
          elems := a.elems ++ b.elems }

/-- The function `filepath.Dir`: all but the last element, cleaned. -/
def Dir (p : Path) : Path := Clean { p with elems := p.elems.dropLast }

/-- The text of a path. -/
def Path.text (p : Path) : String :=
  (if p.rooted then "/" else "") ++ String.intercalate "/" p.elems

/-- The two lists after their longest common beginning. -/
def stripCommon : List String → List String → List String × List String
  | a :: as, b :: bs => if a = b then stripCommon as bs else (a :: as, b :: bs)
  | as, bs => (as, bs)

/-- The function `filepath.Rel`, after its documentation: both paths are cleaned,
the common beginning is dropped, one `..` is written for each element left of
the base, then what is left of the target. -/
def Rel (basepath targpath : Path) : Except String Path :=
  let base := Clean basepath
  let targ := Clean targpath
  let failure : Except String Path :=
    .error ("Rel: can't make " ++ targpath.text ++ " relative to " ++ basepath.text)
  if base.rooted != targ.rooted then failure
  else
    let r := stripCommon base.elems targ.elems
    if r.1.head? = some ".." then failure
    else .ok { rooted := false, elems := r.1.map (fun _ => "..") ++ r.2 }

/-- The path that `filepath.Walk(root, fn)` hands to `fn` for the node under the
relative path `p`: the root as given, and below it `Join(path, name)` level by
level. -/
def walkPath (root : Path) (p : List String) : Path :=
  p.foldl (fun path name => Join path { rooted := false, elems := [name] }) root

/-- One path lies inside another: same kind of beginning, and the elements of the
outer one begin the elements of the inner one. -/
def Path.Inside (inner outer : Path) : Prop :=
  inner.rooted = outer.rooted ∧ outer.elems <+: inner.elems

end filepath

namespace filepath

/-- The elements of a path text, read character by character: a separator ends
the element being read, whose characters so far are `cur`. -/
def splitElems : List Char → List Char → List String
  | [], cur => [String.mk cur]
  | c :: cs, cur =>
    if c = '/' then String.mk cur :: splitElems cs [] else splitElems cs (cur ++ [c])

/-- The path that a text denotes. -/
def Path.parse (s : String) : Path :=
  { rooted := s.data.head? == some '/', elems := splitElems s.data [] }

/-- The text of a cleaned path: `/` for the root, `.` for the relative path
without elements. -/
def Path.render (p : Path) : String :=
  if p.elems = [] then (if p.rooted then "/" else ".") else p.text

/-- The function `filepath.Clean` on texts. -/
def CleanText (s : String) : String := (Clean (Path.parse s)).render

/-- The function `filepath.Join` on texts: leading empty arguments are ignored,
the rest is joined with separators and cleaned; without a non-empty argument the
result is empty. -/
def JoinText : List String → String
  | [] => ""
  | e :: rest =>
    if e = "" then JoinText rest else CleanText (String.intercalate "/" (e :: rest))

end filepath

/-! ## `internal/browser` -/

namespace browser

/-- The struct `BrowserInstance`. -/
structure BrowserInstance where
  ContainerID : String
  SessionID : String
  ConnectURL : String
  Region : String
  Port : String
  UserDataDir : String
deriving DecidableEq, Repr

/-- The struct `Pool`, without its container-runtime client handle. -/
structure Pool where
  region : String
  basePort : Int
deriving DecidableEq, Repr

/-- The struct `LaunchBrowserOptions`. -/
structure LaunchBrowserOptions where
  SessionID : String
  UserDataDir : String
deriving DecidableEq, Repr

/-- What the host and the container runtime answer during one launch: the
temporary directory, the result of creating the scratch directory, of
`ContainerCreate` (the container id), of `ContainerStart`, of `ContainerInspect`
(the published host port) and of `waitForBrowserReady`.  A successful inspection
carries the host port of the first binding of `3000/tcp`: the runtime is taken to
report the binding that the host configuration asks for, so an inspection without
any binding, at which the index expression of the source would stop the program,
is not among the outcomes. -/
structure LaunchOutcome where
  tempDir : String
  mkdirErr : GoError
  create : Except String String
  startErr : GoError
  inspect : Except String String
  readyErr : GoError

/-- The constructor `NewPool`; `clientErr` is the result of creating the runtime client. -/
def NewPool (clientErr : GoError) (region : String) (basePort : Int) : Except String Pool :=
  match clientErr with
  | some e => .error ("failed to create docker client: " ++ e)
  | none => .ok { region := region, basePort := basePort }

/-- The method `Pool.LaunchBrowserWithOptions`.  The scratch path is
`filepath.Join(os.TempDir(), "browser-data", SessionID)`. -/
def Pool.LaunchBrowserWithOptions (p : Pool) (opts : LaunchBrowserOptions)
    (o : LaunchOutcome) : Except String BrowserInstance :=
  let scratch := filepath.JoinText [o.tempDir, "browser-data", opts.SessionID]
  let prepared : Except String String :=
    if opts.UserDataDir == "" then
      match o.mkdirErr with
      | some e => .error ("failed to create user data directory: " ++ e)
      | none => .ok scratch
    else .ok opts.UserDataDir
  match prepared with
  | .error e => .error e
  | .ok userDataDir =>
    match o.create with
    | .error e => .error ("failed to create container: " ++ e)
    | .ok respID =>
      match o.startErr with
      | some e => .error ("failed to start container: " ++ e)
      | none =>
        match o.inspect with
        | .error e => .error ("failed to inspect container: " ++ e)
        | .ok port =>
          match o.readyErr with
          | some e => .error ("browser failed to become ready: " ++ e)
          | none =>
            .ok { ContainerID := respID
                  SessionID := opts.SessionID
                  ConnectURL := "ws://localhost:" ++ port
                  Region := p.region
                  Port := port
                  UserDataDir := userDataDir }

/-- The method `Pool.LaunchBrowser`. -/
def Pool.LaunchBrowser (p : Pool) (sessionID : String) (o : LaunchOutcome) :
    Except String BrowserInstance :=
  p.LaunchBrowserWithOptions { SessionID := sessionID, UserDataDir := "" } o

end browser

/-! ## `internal/region` -/

namespace region

/-- The string type `Region`. -/
abbrev Region := String

def RegionUSWest2 : Region := "us-west-2"
def RegionUSEast1 : Region := "us-east-1"
def RegionEUCentral1 : Region := "eu-central-1"

/-- The struct `RegionalPool`. -/
structure RegionalPool where
  Region : Region
  Pool : browser.Pool
  Port : Int
deriving DecidableEq, Repr

/-- The struct `region.Manager`: the map from region to pool. -/
structure Manager where
  pools : List (String × RegionalPool)
deriving DecidableEq, Repr

/-- The slice of regions and base ports that `NewManager` iterates over. -/
def regions : List (Region × Int) :=
  [(RegionUSWest2, 9222), (RegionUSEast1, 9322), (RegionEUCentral1, 9422)]

/-- The loop of `NewManager` over the remaining regions. -/
def NewManager.loop (clientErr : String → GoError) :
    List (Region × Int) → Manager → Except String Manager
  | [], manager => .ok manager
  | (r, port) :: rest, manager =>
    match browser.NewPool (clientErr r) r port with
    | .error e => .error ("failed to create pool for " ++ r ++ ": " ++ e)
    | .ok pool =>
      NewManager.loop clientErr rest
        { pools := gomap.Store manager.pools r { Region := r, Pool := pool, Port := port } }

/-- The constructor `region.NewManager`; `clientErr r` is the result of creating
the runtime client for region `r`. -/
def NewManager (clientErr : String → GoError) : Except String Manager :=
  NewManager.loop clientErr regions { pools := [] }

/-- The method `GetPool`. -/
def Manager.GetPool (m : Manager) (region : Region) : Except String browser.Pool :=
  match gomap.Load m.pools region with
  | none => .error ("unsupported region: " ++ region)
  | some regionalPool => .ok regionalPool.Pool

/-- The method `RouteSession`. -/
def Manager.RouteSession (m : Manager) (requestedRegion : String) : Region :=
  match gomap.Load m.pools requestedRegion with
  | some _ => requestedRegion
  | none => RegionUSWest2

/-- The method `region.Manager.LaunchBrowser`. -/
def Manager.LaunchBrowser (m : Manager) (region : Region) (sessionID : String)
    (o : browser.LaunchOutcome) : Except String browser.BrowserInstance :=
  match m.GetPool region with
  | .error e => .error e
  | .ok pool => pool.LaunchBrowser sessionID o

/-- The method `region.Manager.LaunchBrowserWithOptions`. -/
def Manager.LaunchBrowserWithOptions (m : Manager) (region : Region)
    (opts : browser.LaunchBrowserOptions) (o : browser.LaunchOutcome) :
    Except String browser.BrowserInstance :=
  match m.GetPool region with
  | .error e => .error e
  | .ok pool => pool.LaunchBrowserWithOptions opts o

/-- The loop of `region.Manager.StopBrowser`: the first pool whose runtime stops
the container ends the loop with `nil`, otherwise the last error is kept.
`stop r` is the result of `Pool.StopBrowser` in region `r`. -/
def StopBrowser.loop (stop : String → GoError) :
    List (String × RegionalPool) → GoError → GoError
  | [], lastErr => lastErr
  | (r, _) :: rest, _ =>
    match stop r with
    | none => none
    | some e => StopBrowser.loop stop rest (some e)

/-- The method `region.Manager.StopBrowser`. -/
def Manager.StopBrowser (m : Manager) (stop : String → GoError) : GoError :=
  StopBrowser.loop stop m.pools none

end region

/-! ## `internal/context` -/

namespace ctxmgr

/-- The struct `ctxmgr.Manager`: the context index and the archive directory. -/
structure Manager where
  contexts : List (String × models.Context)
  storePath : String
deriving DecidableEq, Repr

/-- The method `GetContext`. -/
def Manager.GetContext (m : Manager) (id : String) : Except String models.Context :=
  match gomap.Load m.contexts id with
  | none => .error "context not found"
  | some ctx => .ok ctx

/-- The method `UpdateContext`; `now` is the clock reading. -/
def Manager.UpdateContext (m : Manager) (id : String) (now : time.Time) : Manager × GoError :=
  match m.GetContext id with
  | .error e => (m, some e)
  | .ok ctx =>
    ({ m with contexts := gomap.Store m.contexts id { ctx with UpdatedAt := now } }, none)

/-- The method `SaveContextData`; `compressErr` is the result of
`compressDirectory`, `now` the clock reading.  The archive path is
`filepath.Join(storePath, contextID + ".tar.gz")`. -/
def Manager.SaveContextData (m : Manager) (contextID : String) (compressErr : GoError)
    (now : time.Time) : Manager × GoError :=
  match m.GetContext contextID with
  | .error e => (m, some e)
  | .ok ctx =>
    let archivePath := filepath.JoinText [m.storePath, contextID ++ ".tar.gz"]
    match compressErr with
    | some e => (m, some ("failed to compress context data: " ++ e))
    | none =>
        let ctx1 := { ctx with DataPath := archivePath, UpdatedAt := now }
      ({ m with contexts := gomap.Store m.contexts contextID ctx1 }, none)

/-- The method `LoadContextData`; `tempDir`, `mkdirErr` and `extractErr` are the
host's temporary directory and the results of `os.MkdirAll` and
`extractDirectory`. -/
def Manager.LoadContextData (m : Manager) (contextID : String) (tempDir : String)
    (mkdirErr extractErr : GoError) : Except String String :=
  match m.GetContext contextID with
  | .error e => .error e
  | .ok ctx =>
    if ctx.DataPath == "" then .error "context has no saved data"
    else
      let extractPath := filepath.JoinText [tempDir, "browser-context-" ++ contextID]
      match mkdirErr with
      | some e => .error ("failed to create temp directory: " ++ e)
      | none =>
        match extractErr with
        | some e => .error ("failed to extract context data: " ++ e)
        | none => .ok extractPath

end ctxmgr

/-! ## `internal/session` -/

namespace session

/-- The struct `PuppeteerConnection`, reduced to the session it belongs to. -/
structure PuppeteerConnection where
  SessionID : String
deriving DecidableEq, Repr

/-- An effect of the session manager on an external collaborator, in the order
the manager performs them. -/
inductive Event where
  | launchBrowser (region : String) (sessionID : String) (userDataDir : String)
  | startPuppeteer (sessionID : String)
  | closePuppeteer (sessionID : String)
  | saveContext (contextID : String) (userDataDir : String) (result : GoError)
  | stopContainer (containerID : String) (result : GoError)
deriving DecidableEq, Repr

/-- The struct `session.Manager`.  `effects` is not a field of the Go struct: it
records, oldest first, the calls made to the container runtime, the sidecar and
the context archive. -/
structure Manager where
  sessions : List (String × models.Session)
  concurrency : List (String × semaphore.Weighted)
  puppeteerConns : List (String × PuppeteerConnection)
  regionMgr : region.Manager
  contextMgr : ctxmgr.Manager
  effects : List Event
deriving DecidableEq, Repr

/-- The constructor `session.NewManager`. -/
def NewManager (regionMgr : region.Manager) (ctxMgr : ctxmgr.Manager) : Manager :=
  { sessions := [], concurrency := [], puppeteerConns := []
    regionMgr := regionMgr, contextMgr := ctxMgr, effects := [] }

/-- What the outside world answers during one `CreateSession`: the fresh uuid,
the clock, the temporary directory and the two file-system results inside
`LoadContextData`, the result of `os.MkdirAll` on the fresh context directory,
the launch, and the result of `startPuppeteerConnection`. -/
structure CreateOutcome where
  sessionID : String
  now : time.Time
  tempDir : String
  loadMkdirErr : GoError
  extractErr : GoError
  mkdirErr : GoError
  launch : browser.LaunchOutcome
  puppeteerErr : GoError

/-- What the outside world answers during one teardown: the result of
`compressDirectory`, the clock, and for each region the result of
`Pool.StopBrowser`. -/
structure TeardownOutcome where
  compressErr : GoError
  now : time.Time
  stop : String → GoError

/-- The body of `acquireSlot` on the semaphore map, the only field it touches:
the semaphore of the project is created with capacity 10 on first use, then one
permit is tried. -/
def acquireSlot.onMap (concurrency : List (String × semaphore.Weighted)) (projectID : String) :
    List (String × semaphore.Weighted) × GoError :=
  let entry : List (String × semaphore.Weighted) × semaphore.Weighted :=
    match gomap.Load concurrency projectID with
    | some sem => (concurrency, sem)
    | none =>
      (gomap.Store concurrency projectID (semaphore.NewWeighted 10), semaphore.NewWeighted 10)
  match entry.2.TryAcquire 1 with
  | (sem1, true) => (gomap.Store entry.1 projectID sem1, none)
  | (_, false) => (entry.1, some ("concurrency limit reached for project " ++ projectID))

/-- The method `acquireSlot`. -/
def Manager.acquireSlot (m : Manager) (projectID : String) : Manager × GoError :=
  let r := acquireSlot.onMap m.concurrency projectID
  ({ m with concurrency := r.1 }, r.2)

/-- The body of `releaseSlot` on the semaphore map; `none` is the panic of `Release`. -/
def releaseSlot.onMap (concurrency : List (String × semaphore.Weighted)) (projectID : String) :
    Option (List (String × semaphore.Weighted)) :=
  match gomap.Load concurrency projectID with
  | none => some concurrency
  | some sem =>
    match sem.Release 1 with
    | none => none
    | some sem1 => some (gomap.Store concurrency projectID sem1)

/-- The method `releaseSlot`; the outer `none` is the panic of `Release`. -/
def Manager.releaseSlot (m : Manager) (projectID : String) : Option Manager :=
  (releaseSlot.onMap m.concurrency projectID).map (fun c => { m with concurrency := c })

/-- The method `GetSession`. -/
def Manager.GetSession (m : Manager) (id : String) : Except String models.Session :=
  match gomap.Load m.sessions id with
  | none => .error "session not found"
  | some s => .ok s

/-- The method `GetPuppeteerConnection`. -/
def Manager.GetPuppeteerConnection (m : Manager) (sessionID : String) :
    Option PuppeteerConnection :=
  gomap.Load m.puppeteerConns sessionID

/-- The method `startPuppeteerConnection`, with the child process reduced to its
result: on success the connection is stored under the session id. -/
def Manager.startPuppeteerConnection (m : Manager) (s : models.Session)
    (puppeteerErr : GoError) : Manager × GoError :=
  match puppeteerErr with
  | some e => (m, some e)
  | none =>
    ({ m with puppeteerConns := gomap.Store m.puppeteerConns s.ID { SessionID := s.ID }
              effects := m.effects ++ [Event.startPuppeteer s.ID] }, none)

/-- The method `saveSessionContext`. -/
def Manager.saveSessionContext (m : Manager) (s : models.Session) (o : TeardownOutcome) :
    Manager × GoError :=
  match m.contextMgr.SaveContextData s.ContextID o.compressErr o.now with
  | (c, some e) => ({ m with contextMgr := c }, some e)
  | (c, none) =>
    match c.UpdateContext s.ContextID o.now with
    | (c1, err) => ({ m with contextMgr := c1 }, err)

/-- The shared middle of `DeleteSession` and `handleTimeout`: close and drop the
sidecar connection, save the context when the session uses one, stop the
container. -/
def Manager.teardown (m : Manager) (id : String) (s : models.Session)
    (o : TeardownOutcome) : Manager :=
  let m1 := match m.GetPuppeteerConnection id with
    | some _ =>
      { m with puppeteerConns := gomap.Delete m.puppeteerConns id
               effects := m.effects ++ [Event.closePuppeteer id] }
    | none => m
  let m2 :=
    if s.ContextID != "" && s.UserDataDir != "" then
      match m1.saveSessionContext s o with
      | (m11, err) =>
        { m11 with effects := m11.effects ++ [Event.saveContext s.ContextID s.UserDataDir err] }
    else m1
  if s.ContainerID != "" then
    let err := m2.regionMgr.StopBrowser o.stop
    { m2 with effects := m2.effects ++ [Event.stopContainer s.ContainerID err] }
  else m2

/-- The method `DeleteSession`, run from its first line to its last with no other
call on the manager in between.  The outer `none` is a panic; the inner value is
the returned error.  The source holds no lock across the body: the two halves
that another call can come between are `DeleteSession.guard` and
`DeleteSession.finish`. -/
def Manager.DeleteSession (m : Manager) (id : String) (o : TeardownOutcome) :
    Option (Manager × GoError) :=
  match m.GetSession id with
  | .error e => some (m, some e)
  | .ok s =>
    if s.Status != models.StatusRunning then some (m, some "session is not running")
    else
      let m1 := m.teardown id s o
      let s1 := { s with Status := models.StatusCompleted }
      let m2 := { m1 with sessions := gomap.Store m1.sessions id s1 }
      match m2.releaseSlot s1.ProjectID with
      | none => none
      | some m3 => some (m3, none)

/-- The method `handleTimeout`, from the moment its timer fires, run to its last
line with no other call on the manager in between.  The status is written through
the pointer held in the index under `session.ID`, and the record is then stored
under its own id.  The source holds no lock across the body: the two halves that
another call can come between are `handleTimeout.guard` and
`handleTimeout.finish`. -/
def Manager.handleTimeout (m : Manager) (s : models.Session) (o : TeardownOutcome) :
    Option Manager :=
  match m.GetSession s.ID with
  | .error _ => some m
  | .ok current =>
    if current.Status != models.StatusRunning then some m
    else
      let m1 := m.teardown current.ID current o
      let current1 := { current with Status := models.StatusTimedOut }
      let written := gomap.Store m1.sessions s.ID current1
      let m2 := { m1 with sessions := gomap.Store written current1.ID current1 }
      m2.releaseSlot current1.ProjectID

/-- Lines 55-69 of `CreateSession`: the project id is required, a zero timeout
becomes 3600, the timeout must lie in `[60, 21600]`, an empty region becomes
`us-west-2`.  The result is the request the rest of the method works on, or the
error returned. -/
def CreateSession.validate (req0 : models.CreateSessionRequest) :
    Except String models.CreateSessionRequest :=
  if req0.ProjectID == "" then .error "projectId is required"
  else
    let req1 := if req0.Timeout == 0 then { req0 with Timeout := 3600 } else req0
    if req1.Timeout < 60 || req1.Timeout > 21600 then
      .error "timeout must be between 60 and 21600 seconds"
    else if req1.Region == "" then .ok { req1 with Region := "us-west-2" }
    else .ok req1

/-- Lines 87-107 of `CreateSession`: the user data dir that the context branch
hands to the launch (empty when the request names no context), or the error
returned. -/
def CreateSession.prepare (contextMgr : ctxmgr.Manager) (req : models.CreateSessionRequest)
    (o : CreateOutcome) : Except String String :=
  if req.ContextID != "" then
    match contextMgr.GetContext req.ContextID with
    | .error e => .error ("context not found: " ++ e)
    | .ok _ =>
      match contextMgr.LoadContextData req.ContextID o.tempDir o.loadMkdirErr o.extractErr with
      | .ok userDataDir => .ok userDataDir
      | .error _ =>
        match o.mkdirErr with
        | some e => .error ("failed to create context directory: " ++ e)
        | none => .ok ("/tmp/browser-context-" ++ req.ContextID)
  else .ok ""

/-- Lines 110-119 of `CreateSession`: the launch with or without a user data dir. -/
def CreateSession.launch (regionMgr : region.Manager) (targetRegion : region.Region)
    (sessionID userDataDir : String) (o : browser.LaunchOutcome) :
    Except String browser.BrowserInstance :=
  if userDataDir != "" then
    regionMgr.LaunchBrowserWithOptions targetRegion
      { SessionID := sessionID, UserDataDir := userDataDir } o
  else regionMgr.LaunchBrowser targetRegion sessionID o

/-- Lines 127-139 of `CreateSession`: the session record. -/
def CreateSession.record (req : models.CreateSessionRequest) (sessionID : String)
    (now : time.Time) (targetRegion : region.Region)
    (browserInstance : browser.BrowserInstance) : models.Session :=
  { ID := sessionID
    ProjectID := req.ProjectID
    Region := targetRegion
    Status := models.StatusRunning
    StartedAt := now
    ExpiresAt := time.Add now (time.secondsDuration req.Timeout)
    Timeout := req.Timeout
    ConnectURL := browserInstance.ConnectURL
    ContainerID := browserInstance.ContainerID
    ContextID := req.ContextID
    UserDataDir := browserInstance.UserDataDir }

/-- Lines 71-153 of `CreateSession`, on the validated request. -/
def CreateSession.admit (m : Manager) (req : models.CreateSessionRequest)
    (o : CreateOutcome) : Option (Manager × Except String models.Session) :=
  match m.acquireSlot req.ProjectID with
  | (m1, some err) => some (m1, .error err)
  | (m1, none) =>
    let sessionID := o.sessionID
    let now := o.now
    let targetRegion := m1.regionMgr.RouteSession req.Region
    match CreateSession.prepare m1.contextMgr req o with
    | .error e => (m1.releaseSlot req.ProjectID).map (fun m2 => (m2, .error e))
    | .ok userDataDir =>
      let launchEvent := Event.launchBrowser targetRegion sessionID userDataDir
      let m2 := { m1 with effects := m1.effects ++ [launchEvent] }
      match CreateSession.launch m2.regionMgr targetRegion sessionID userDataDir o.launch with
      | .error e =>
        (m2.releaseSlot req.ProjectID).map
          (fun m3 => (m3, .error ("failed to launch browser: " ++ e)))
      | .ok browserInstance =>
        let s := CreateSession.record req sessionID now targetRegion browserInstance
        let m3 := { m2 with sessions := gomap.Store m2.sessions s.ID s }
        let m4 := (m3.startPuppeteerConnection s o.puppeteerErr).1
        some (m4, .ok s)

/-- The method `CreateSession`.  The outer `none` is a panic; the inner value is
the returned `(session, error)` pair. -/
def Manager.CreateSession (m : Manager) (req0 : models.CreateSessionRequest)
    (o : CreateOutcome) : Option (Manager × Except String models.Session) :=
  match CreateSession.validate req0 with
  | .error e => some (m, .error e)
  | .ok req => CreateSession.admit m req o

/-- The calls that drive the session manager. -/
inductive Op where
  | create (req : models.CreateSessionRequest) (o : CreateOutcome)
  | delete (id : String) (o : TeardownOutcome)
  | timeout (s : models.Session) (o : TeardownOutcome)

/-- One call applied to the manager; `none` is a panic. -/
def Manager.step (m : Manager) : Op → Option Manager
  | .create req o => (m.CreateSession req o).map (fun r => r.1)
  | .delete id o => (m.DeleteSession id o).map (fun r => r.1)
  | .timeout s o => m.handleTimeout s o

/-- A sequence of calls applied from left to right; `none` is a panic. -/
def Manager.run (m : Manager) : List Op → Option Manager
  | [] => some m
  | op :: ops =>
    match m.step op with
    | none => none
    | some m1 => Manager.run m1 ops

/-- The number of entries of a session index that belong to `projectID` and are RUNNING. -/
def running (sessions : List (String × models.Session)) (projectID : String) : Nat :=
  (sessions.filter
    (fun kv => kv.2.ProjectID == projectID && kv.2.Status == models.StatusRunning)).length

/-- The number of stored sessions of `projectID` whose status is RUNNING. -/
def Manager.runningCount (m : Manager) (projectID : String) : Nat :=
  running m.sessions projectID

/-- The permits of `projectID` still available in a semaphore map: capacity
minus permits held; a project whose semaphore does not exist yet has the 10
permits that `acquireSlot` would create it with. -/
def permits (concurrency : List (String × semaphore.Weighted)) (projectID : String) : Int :=
  match gomap.Load concurrency projectID with
  | none => 10
  | some sem => sem.size - sem.cur

/-- The number of permits of `projectID` still available. -/
def Manager.availablePermits (m : Manager) (projectID : String) : Int :=
  permits m.concurrency projectID

/-- Every semaphore of the map has capacity 10. -/
def SizesOk (concurrency : List (String × semaphore.Weighted)) : Prop :=
  ∀ Q sem, gomap.Load concurrency Q = some sem → sem.size = 10

/-- The admission invariant: every semaphore has capacity 10, and for each
project the available permits lie in `[0, 10]` and, added to the number of
RUNNING sessions, do not exceed 10. -/
def Manager.Inv (m : Manager) : Prop :=
  SizesOk m.concurrency ∧
  ∀ Q, 0 ≤ m.availablePermits Q ∧ (m.runningCount Q : Int) + m.availablePermits Q ≤ 10

/-- The session id a call acts on: the id given to `DeleteSession`, the id of the
session given to `handleTimeout`; `CreateSession` acts on no stored session. -/
def Op.target : Op → Option String
  | .create _ _ => none
  | .delete id _ => some id
  | .timeout s _ => some s.ID

/-! ### Concrete inputs -/

namespace demo

/-- A region manager with the three configured pools. -/
def regionMgr : region.Manager :=
  match region.NewManager (fun _ => none) with
  | .ok mgr => mgr
  | .error _ => { pools := [] }

/-- An empty context store. -/
def ctxMgr : ctxmgr.Manager := { contexts := [], storePath := "/var/contexts" }

/-- A launch in which every step succeeds. -/
def launchOk : browser.LaunchOutcome :=
  { tempDir := "/tmp", mkdirErr := none, create := .ok "c0ffee", startErr := none
    inspect := .ok "32768", readyErr := none }

/-- A launch whose container fails to start. -/
def launchFails : browser.LaunchOutcome :=
  { tempDir := "/tmp", mkdirErr := none, create := .ok "c0ffee"
    startErr := some "no such image", inspect := .ok "32768", readyErr := none }

/-- The outside world of a create that succeeds, without a sidecar. -/
def createOk (sessionID : String) : CreateOutcome :=
  { sessionID := sessionID, now := 1700000000000000000, tempDir := "/tmp"
    loadMkdirErr := none, extractErr := none, mkdirErr := none
    launch := launchOk, puppeteerErr := some "puppeteer script not found" }

/-- The outside world of a create whose launch fails. -/
def createLaunchFails (sessionID : String) : CreateOutcome :=
  { sessionID := sessionID, now := 1700000000000000000, tempDir := "/tmp"
    loadMkdirErr := none, extractErr := none, mkdirErr := none
    launch := launchFails, puppeteerErr := none }

/-- The outside world of a teardown in which everything succeeds. -/
def teardownOk : TeardownOutcome :=
  { compressErr := none, now := 1700000100000000000, stop := fun _ => none }

/-- A request that gives only the project id. -/
def request (projectID : String) : models.CreateSessionRequest :=
  { ProjectID := projectID, Region := "", Timeout := 0, ContextID := "" }

/-- The empty manager of the concrete inputs. -/
def empty : Manager := NewManager regionMgr ctxMgr

/-- Ten successful creates for project `P`, with ids `s0` to `s9`. -/
def tenCreates : List Op :=
  ["s0", "s1", "s2", "s3", "s4", "s5", "s6", "s7", "s8", "s9"].map
    (fun id => Op.create (request "P") (createOk id))

/-- A session record that carries only an id, as handed to `handleTimeout`. -/
def handle (sessionID : String) : models.Session :=
  { ID := sessionID, ProjectID := "", Status := "", Region := "", StartedAt := 0
    ExpiresAt := 0, Timeout := 60, ConnectURL := "", ContainerID := "", ContextID := ""
    UserDataDir := "" }

end demo

end session

namespace session

/-- Every session is stored under its own id. -/
def KeysOk (m : Manager) : Prop :=
  ∀ id s, gomap.Load m.sessions id = some s → s.ID = id

end session

namespace session

namespace demo

/-- A context store that holds the context `ctx1`, not yet saved. -/
def ctxMgrWith : ctxmgr.Manager :=
  { contexts := [("ctx1", { ID := "ctx1", ProjectID := "P", CreatedAt := 1600000000000000000
                            UpdatedAt := 1600000000000000000, DataPath := "" })]
    storePath := "/var/contexts" }

/-- A request for project `P` that uses the context `ctx1`. -/
def requestCtx : models.CreateSessionRequest :=
  { ProjectID := "P", Region := "", Timeout := 0, ContextID := "ctx1" }

/-- The outside world of a create that succeeds and starts the sidecar. -/
def createWithSidecar (sessionID : String) : CreateOutcome :=
  { sessionID := sessionID, now := 1700000000000000000, tempDir := "/tmp"
    loadMkdirErr := none, extractErr := none, mkdirErr := none
    launch := launchOk, puppeteerErr := none }

/-- The outside world of a teardown in which the archive cannot be written and no
region can stop the container. -/
def teardownFails : TeardownOutcome :=
  { compressErr := some "no space left on device", now := 1700000100000000000
    stop := fun _ => some "failed to stop container: no such container" }

/-- The manager after one create for `P` with context `ctx1` and a sidecar. -/
def withContextSession : Option Manager :=
  (NewManager regionMgr ctxMgrWith).run [Op.create requestCtx (createWithSidecar "s0")]

end demo

end session

/-! ## `golang.org/x/time/rate` -/

namespace rate

/-- The token bucket of a `rate.Limiter`, after the documentation of the package:
a bucket of size `burst`, initially full and refilled at `limit` tokens per
second.  Token counts are exact rationals here; the `float64` rounding of the
library is not modelled. -/
structure Limiter where
  limit : ℚ
  burst : Int
  tokens : ℚ
  last : time.Time
deriving DecidableEq

/-- The constructor `rate.NewLimiter(r, b)`: a full bucket. -/
def NewLimiter (r : ℚ) (b : Int) : Limiter :=
  { limit := r, burst := b, tokens := b, last := 0 }

/-- The tokens gained during `d` nanoseconds (`Limit.tokensFromDuration`): none
when the limit is not positive. -/
def tokensFromDuration (limit : ℚ) (d : time.Duration) : ℚ :=
  if limit ≤ 0 then 0 else (d : ℚ) / 1000000000 * limit

/-- The method `advance`: the token count at time `t`, capped at `burst`; the
bucket itself is not changed. -/
def Limiter.advance (lim : Limiter) (t : time.Time) : ℚ :=
  let last := if t < lim.last then t else lim.last
  let tokens := lim.tokens + tokensFromDuration lim.limit (t - last)
  if tokens > lim.burst then lim.burst else tokens

/-- The method `Allow` at time `t`: one token is taken when one is there. -/
def Limiter.Allow (lim : Limiter) (t : time.Time) : Limiter × Bool :=
  let tokens := lim.advance t - 1
  if 1 ≤ lim.burst ∧ 0 ≤ tokens then ({ lim with last := t, tokens := tokens }, true)
  else (lim, false)

/-- The method `Tokens` at time `t`. -/
def Limiter.Tokens (lim : Limiter) (t : time.Time) : ℚ := lim.advance t

end rate

/-! ## `internal/ratelimit` -/

namespace ratelimit

/-- The struct `ratelimit.Limiter`. -/
structure Limiter where
  limiters : List (String × rate.Limiter)
  rate : ℚ
  burst : Int
deriving DecidableEq

/-- The constructor `NewLimiter`: the rate is `requestsPerHour / 3600.0`. -/
def NewLimiter (requestsPerHour : Int) (burst : Int) : Limiter :=
  { limiters := [], rate := (requestsPerHour : ℚ) / 3600, burst := burst }

/-- The method `GetLimiter`: the bucket of the project, created on first use. -/
def Limiter.GetLimiter (l : Limiter) (projectID : String) : Limiter × rate.Limiter :=
  match gomap.Load l.limiters projectID with
  | some limiter => (l, limiter)
  | none =>
    let limiter := rate.NewLimiter l.rate l.burst
    ({ l with limiters := gomap.Store l.limiters projectID limiter }, limiter)

/-- The method `Allow`, called at time `now`. -/
def Limiter.Allow (l : Limiter) (projectID : String) (now : time.Time) : Limiter × Bool :=
  let r := l.GetLimiter projectID
  let a := r.2.Allow now
  ({ r.1 with limiters := gomap.Store r.1.limiters projectID a.1 }, a.2)

/-- The method `Tokens`, called at time `now`. -/
def Limiter.Tokens (l : Limiter) (projectID : String) (now : time.Time) : Limiter × ℚ :=
  let r := l.GetLimiter projectID
  (r.1, r.2.Tokens now)

/-- The results of `n` successive calls of `Allow` for one project, all at time `now`. -/
def Limiter.allowTimes (l : Limiter) (projectID : String) (now : time.Time) :
    Nat → Limiter × List Bool
  | 0 => (l, [])
  | n + 1 =>
    let a := l.Allow projectID now
    let rest := Limiter.allowTimes a.1 projectID now n
    (rest.1, a.2 :: rest.2)

end ratelimit

namespace ratelimit

/-- The limiter after a sequence of `Allow` calls, each with its project and its time. -/
def Limiter.allowAll (l : Limiter) : List (String × time.Time) → Limiter
  | [] => l
  | (projectID, now) :: calls => Limiter.allowAll (l.Allow projectID now).1 calls

end ratelimit

/-! ## `net/http` -/

namespace http

def StatusOK : Nat := 200
def StatusNoContent : Nat := 204
def StatusBadRequest : Nat := 400
def StatusNotFound : Nat := 404
def StatusTooManyRequests : Nat := 429

/-- The header key in canonical form (`textproto.CanonicalMIMEHeaderKey`): the
first letter and every letter after a hyphen in upper case, the others in lower case. -/
def canonicalKey.chars : Bool → List Char → List Char
  | _, [] => []
  | upper, c :: cs =>
    (if upper then c.toUpper else c.toLower) :: canonicalKey.chars (c == '-') cs

/-- The function `http.CanonicalHeaderKey`. -/
def canonicalKey (k : String) : String := String.mk (canonicalKey.chars true k.data)

/-- A `http.Header`, with one value per canonical key. -/
abbrev Header := List (String × String)

/-- The method `Header.Get`: the value of the key, or the empty string. -/
def Header.Get (h : Header) (key : String) : String :=
  (gomap.Load h (canonicalKey key)).getD ""

/-- The method `Header.Set`. -/
def Header.Set (h : Header) (key value : String) : Header :=
  gomap.Store h (canonicalKey key) value

/-- What a handler has done to its `http.ResponseWriter`: the headers, the status
written (`none` until the first `WriteHeader` or `Write`) and the body. -/
structure ResponseWriter where
  header : Header
  status : Option Nat
  body : String
deriving DecidableEq, Repr

/-- A response writer nothing has been written to. -/
def ResponseWriter.fresh : ResponseWriter := { header := [], status := none, body := "" }

/-- The method `WriteHeader`: the first status written stays. -/
def ResponseWriter.WriteHeader (w : ResponseWriter) (code : Nat) : ResponseWriter :=
  match w.status with
  | some _ => w
  | none => { w with status := some code }

/-- The method `Write`: a body written before any status implies status 200. -/
def ResponseWriter.Write (w : ResponseWriter) (data : String) : ResponseWriter :=
  let w1 := w.WriteHeader StatusOK
  { w1 with body := w1.body ++ data }

/-- The function `http.Error`: plain-text content type, the status, the message
and a newline. -/
def Error (w : ResponseWriter) (error : String) (code : Nat) : ResponseWriter :=
  let h1 := gomap.Delete w.header (canonicalKey "Content-Length")
  let h2 := Header.Set h1 "Content-Type" "text/plain; charset=utf-8"
  let h3 := Header.Set h2 "X-Content-Type-Options" "nosniff"
  ({ w with header := h3 }.WriteHeader code).Write (error ++ "\n")

/-- The parts of a `http.Request` that the middleware and the handlers read: the
method, the query parameters and headers (first value of each key), the route
variable `id`, and the field `projectId` of the JSON body (empty when absent). -/
structure Request where
  Method : String
  Query : List (String × String)
  Header : Header
  id : String
  bodyProjectID : String
deriving DecidableEq, Repr

end http

/-- The function `strconv.Itoa`. -/
def strconv.Itoa (n : Int) : String := toString n

/-- The conversion `int(f)` of a number to an integer: truncation toward zero. -/
def truncate (q : ℚ) : Int := if 0 ≤ q then Rat.floor q else - Rat.floor (- q)

/-! ## `internal/api` -/

namespace api

/-- The function `getProjectID`: the query parameter `projectId`, else the header
`X-Project-ID`, else the empty string. -/
def getProjectID (r : http.Request) : String :=
  let projectID := (gomap.Load r.Query "projectId").getD ""
  if projectID != "" then projectID
  else
    let projectID := r.Header.Get "X-Project-ID"
    if projectID != "" then projectID else ""

/-- What one request through the rate-limit middleware leaves behind: the
limiter, the response, the result of `limiter.Allow` when the limiter was
consulted, and how many times the next handler was called. -/
structure Served where
  limiter : ratelimit.Limiter
  w : http.ResponseWriter
  allowed : Option Bool
  nextCalls : Nat

/-- The body written with a rejected request. -/
def rateLimitBody : String :=
  "\x7b\"error\":\"Rate limit exceeded. Maximum 100 requests per hour per project.\"\x7d\n"

/-- The handler returned by `RateLimitMiddleware(limiter, requestsPerHour)(next)`;
`allowAt` and `tokensAt` are the clock readings of `Allow` and of `Tokens`. -/
def RateLimitMiddleware (limiter : ratelimit.Limiter) (requestsPerHour : Int)
    (next : http.ResponseWriter → http.Request → http.ResponseWriter)
    (allowAt tokensAt : time.Time) (w : http.ResponseWriter) (r : http.Request) : Served :=
  let projectID := getProjectID r
  if projectID == "" then
    { limiter := limiter, w := next w r, allowed := none, nextCalls := 1 }
  else
    let a := limiter.Allow projectID allowAt
    if !a.2 then
      let h1 := http.Header.Set w.header "Content-Type" "application/json"
      let h2 := http.Header.Set h1 "X-RateLimit-Limit" (strconv.Itoa requestsPerHour)
      let h3 := http.Header.Set h2 "X-RateLimit-Remaining" "0"
      let w1 := ({ w with header := h3 }.WriteHeader http.StatusTooManyRequests).Write
        rateLimitBody
      { limiter := a.1, w := w1, allowed := some false, nextCalls := 0 }
    else
      let t := a.1.Tokens projectID tokensAt
      let h1 := http.Header.Set w.header "X-RateLimit-Limit" (strconv.Itoa requestsPerHour)
      let h2 := http.Header.Set h1 "X-RateLimit-Remaining" (strconv.Itoa (truncate t.2))
      { limiter := t.1, w := next { w with header := h2 } r, allowed := some true
        nextCalls := 1 }

/-- The handler `Handler.DeleteSession` of `DELETE /v1/sessions/{id}`; the outer
`none` is a panic of the session manager. -/
def Handler.DeleteSession (sessionMgr : session.Manager) (o : session.TeardownOutcome)
    (w : http.ResponseWriter) (r : http.Request) :
    Option (session.Manager × http.ResponseWriter) :=
  let id := r.id
  match sessionMgr.DeleteSession id o with
  | none => none
  | some (m1, some err) => some (m1, http.Error w err http.StatusBadRequest)
  | some (m1, none) => some (m1, w.WriteHeader http.StatusNoContent)

/-- The handler `Handler.GetSession` of `GET /v1/sessions/{id}`, without the JSON
encoding of the session it writes on success. -/
def Handler.GetSession (sessionMgr : session.Manager) (w : http.ResponseWriter)
    (r : http.Request) : http.ResponseWriter :=
  let id := r.id
  match sessionMgr.GetSession id with
  | .error err => http.Error w err http.StatusNotFound
  | .ok _ => { w with header := http.Header.Set w.header "Content-Type" "application/json" }

end api

namespace api.demo

/-- A `POST /v1/sessions` whose JSON body names project `P`, without query
parameter and without `X-Project-ID` header. -/
def postWithBody : http.Request :=
  { Method := "POST", Query := [], Header := [("Content-Type", "application/json")], id := ""
    bodyProjectID := "P" }

/-- A `DELETE /v1/sessions/{id}` for an id that names no session. -/
def deleteUnknown : http.Request :=
  { Method := "DELETE", Query := [], Header := [], id := "no-such-session", bodyProjectID := "" }

/-- A `POST /v1/sessions` that carries `X-Project-ID: P2`. -/
def postWithHeader : http.Request :=
  { Method := "POST", Query := [], Header := [("X-Project-Id", "P2")], id := ""
    bodyProjectID := "P2" }

/-- A next handler that answers 201. -/
def created (w : http.ResponseWriter) (_ : http.Request) : http.ResponseWriter :=
  w.WriteHeader 201

end api.demo

/-! ## The sidecar channel (`internal/session`) -/

namespace session

/-- A line that the sidecar writes on its standard output and the reader
goroutine decodes.  `forCmd` is not on the wire: it is the position, in the order
of writing, of the command the sidecar was answering. -/
structure Response where
  forCmd : Nat
  status : String
  message : String
deriving DecidableEq, Repr

/-- The moving parts of a `PuppeteerConnection` once the sidecar has reported
ready: the buffered channel `responses` (oldest first), the positions of the
commands written to `Stdin` and not yet answered, and the number of commands
written so far. -/
structure Stream where
  responses : List Response
  pending : List Nat
  written : Nat
deriving DecidableEq, Repr

/-- The capacity of the channel `responses` (`make(chan ..., 10)`). -/
def responsesCap : Nat := 10

/-- The stream of a connection that has just reported ready. -/
def Stream.ready : Stream := { responses := [], pending := [], written := 0 }

/-- The stdout reader (manager.go:195-219) on the next line of the sidecar, which
answers its oldest unanswered command with the status and message `answer` gives
it: the line is pushed on the channel, or dropped when the channel is full. -/
def Stream.emit (st : Stream) (answer : Nat → String × String) : Stream :=
  match st.pending with
  | [] => st
  | n :: rest =>
    let line : Response := { forCmd := n, status := (answer n).1, message := (answer n).2 }
    if st.responses.length < responsesCap then
      { st with responses := st.responses ++ [line], pending := rest }
    else { st with pending := rest }

/-- The method `PuppeteerConnection.SendCommand`, one call under the connection's
lock.  `writeErr` is the result of the write to `Stdin`; `inTime` tells whether
the sidecar writes its next line before the timeout when the channel is empty. -/
def PuppeteerConnection.SendCommand (st : Stream) (answer : Nat → String × String)
    (writeErr : GoError) (inTime : Bool) : Stream × Except String Response :=
  match writeErr with
  | some e => (st, .error ("failed to send command: " ++ e))
  | none =>
    let st1 := { st with pending := st.pending ++ [st.written], written := st.written + 1 }
    -- the select: a buffered response is taken at once, else the wait begins
    let st2 := match st1.responses with
      | [] => if inTime then st1.emit answer else st1
      | _ :: _ => st1
    match st2.responses with
    | response :: rest =>
      let st3 := { st2 with responses := rest }
      if response.status == "error" then
        (st3, .error ("puppeteer error: " ++ response.message))
      else (st3, .ok response)
    | [] => (st2, .error "command timeout")

namespace demo

/-- A sidecar that answers every command with success. -/
def answerOk (_ : Nat) : String × String := ("success", "")

/-- A first command (position 0) whose answer comes after the timeout. -/
def afterTimeout : Stream × Except String Response :=
  PuppeteerConnection.SendCommand Stream.ready answerOk none false

/-- The late answer to the first command arrives, then a second command
(position 1) is sent. -/
def secondCall : Stream × Except String Response :=
  PuppeteerConnection.SendCommand (afterTimeout.1.emit answerOk) answerOk none true

/-- Two commands time out in a row, then both answers arrive. -/
def twoLate : Stream :=
  (((PuppeteerConnection.SendCommand afterTimeout.1 answerOk none false).1.emit
    answerOk).emit answerOk)

end demo

end session

/-! ## The disk of the context store (`internal/context`) -/

namespace ctxmgr

/-- A path relative to a directory, as the list of its names; the directory
itself (`.`) is the empty list. -/
abbrev RelPath := List String

/-- The content of a file, byte by byte. -/
abbrev Bytes := List Nat

/-- What a directory holds under a relative path: a directory, a regular file
with its bytes, or anything else (symbolic link, socket, device). -/
inductive Node where
  | dir
  | file (data : Bytes)
  | special
deriving DecidableEq, Repr

/-- The content of a directory: the node under each relative path below it. -/
abbrev Dir := List (RelPath × Node)

/-- The node under a relative path. -/
def Dir.get (d : Dir) (p : RelPath) : Option Node := List.lookup p d

/-- The directory with the node under `p` replaced or added. -/
def Dir.set (d : Dir) (p : RelPath) (n : Node) : Dir :=
  (p, n) :: d.filter (fun e => e.1 != p)

/-- The type flag of a tar header, as far as `extractDirectory` tells them apart. -/
inductive Typeflag where
  | reg
  | dir
  | other
deriving DecidableEq, Repr

/-- An entry of a tar archive: header name, type flag and content. -/
structure TarEntry where
  Name : RelPath
  Typeflag : Typeflag
  Data : Bytes
deriving DecidableEq, Repr

/-- A `.tar.gz` file, decoded: its entries in order, and whether the writers were
closed after the last entry without error (a truncated archive is not). -/
structure Archive where
  entries : List TarEntry
  complete : Bool
deriving DecidableEq, Repr

/-- The part of the file system the context manager works on: the regular files of
the archive directory and the directories that are archived or extracted into,
each under its path. -/
structure Disk where
  files : List (String × Archive)
  dirs : List (String × Dir)
deriving DecidableEq, Repr

/-- The order of Go strings on the characters of two names: the first differing
character decides, and a proper beginning comes first. -/
def charsLt : List Char → List Char → Bool
  | [], [] => false
  | [], _ :: _ => true
  | _ :: _, [] => false
  | a :: as, b :: bs =>
    if a.toNat < b.toNat then true else if b.toNat < a.toNat then false else charsLt as bs

/-- The order of `sort.Strings` on names, lifted to relative paths: the order in
which `filepath.Walk` visits a tree. -/
def pathLe : RelPath → RelPath → Bool
  | [], _ => true
  | _ :: _, [] => false
  | a :: as, b :: bs =>
    if charsLt a.data b.data then true
    else if charsLt b.data a.data then false else pathLe as bs

/-- The entries of a directory in the order `filepath.Walk` visits them, after the
root itself. -/
def walkOrder (d : Dir) : List (RelPath × Node) :=
  d.insertionSort (fun x y => pathLe x.1 y.1 = true)

/-- The tar entry that the walk callback writes for a node: the header name is the
path relative to the source, and only a regular file has content. -/
def toEntry (x : RelPath × Node) : TarEntry :=
  match x.2 with
  | .dir => { Name := x.1, Typeflag := .dir, Data := [] }
  | .file data => { Name := x.1, Typeflag := .reg, Data := data }
  | .special => { Name := x.1, Typeflag := .other, Data := [] }

/-- What the file system answers during `compressDirectory`: the result of
`os.Create` on the archive, and for each visited path the error, if any, of
reading its metadata or content and writing them to the archive. -/
structure CompressOutcome where
  createErr : GoError
  walkErr : RelPath → GoError

/-- The callback of `filepath.Walk` over the visited nodes: entries are appended
until a node fails. -/
def compressDirectory.walk (walkErr : RelPath → GoError) :
    List (RelPath × Node) → List TarEntry → List TarEntry × GoError
  | [], written => (written, none)
  | x :: rest, written =>
    match walkErr x.1 with
    | some e => (written, some e)
    | none => compressDirectory.walk walkErr rest (written ++ [toEntry x])

/-- The method `compressDirectory(source, target)`.  Once `os.Create` has
succeeded the archive file exists, whatever happens next; after an error it is
left incomplete. -/
def compressDirectory (disk : Disk) (source target : String) (o : CompressOutcome) :
    Disk × GoError :=
  match o.createErr with
  | some e => (disk, some e)
  | none =>
    match gomap.Load disk.dirs source with
    | none =>
      let empty : Archive := { entries := [], complete := false }
      ({ disk with files := gomap.Store disk.files target empty },
       some ("lstat " ++ source ++ ": no such file or directory"))
    | some d =>
      let r := compressDirectory.walk o.walkErr (([], Node.dir) :: walkOrder d) []
      let archive : Archive := { entries := r.1, complete := r.2.isNone }
      ({ disk with files := gomap.Store disk.files target archive }, r.2)

/-- The nonempty prefixes of a relative path, shortest first. -/
def prefixes (p : RelPath) : List RelPath := (List.inits p).tail

/-- What the file system does when `os.MkdirAll` or `os.Create` meets, under the
path it works on, a node that is neither a directory nor a regular file.  Both
calls follow a symbolic link, so the outcome depends on what the link points to
(a write through a link changes the file it points to); it is given here as the
directory afterwards and the error, if any. -/
structure SpecialOutcome where
  mkdir : RelPath → Dir → Dir × GoError
  create : RelPath → Bytes → Dir → Dir × GoError

/-- A directory that holds directories and regular files only. -/
def Dir.Plain (d : Dir) : Prop := ∀ q, d.get q ≠ some Node.special

/-- The loop of `os.MkdirAll` below the root of a directory: each prefix must be a
directory or is created as one; a regular file in the way is an error. -/
def Dir.mkdirs (sp : SpecialOutcome) (d : Dir) : List RelPath → Dir × GoError
  | [] => (d, none)
  | p :: ps =>
    match d.get p with
    | some Node.dir => Dir.mkdirs sp d ps
    | none => Dir.mkdirs sp (d.set p Node.dir) ps
    | some (Node.file _) => (d, some "mkdir: not a directory")
    | some Node.special =>
      match sp.mkdir p d with
      | (d1, none) => Dir.mkdirs sp d1 ps
      | (d1, some e) => (d1, some e)

/-- The call `os.MkdirAll` on a path below the root of a directory. -/
def Dir.MkdirAll (sp : SpecialOutcome) (d : Dir) (p : RelPath) : Dir × GoError :=
  Dir.mkdirs sp d (prefixes p)

/-- The calls `os.Create` and `io.Copy` on a path below the root of a directory
whose parent exists: an existing regular file is overwritten, a directory in the
way is an error. -/
def Dir.Create (sp : SpecialOutcome) (d : Dir) (p : RelPath) (data : Bytes) : Dir × GoError :=
  match p with
  | [] => (d, some "open: is a directory")
  | _ :: _ =>
    match d.get p with
    | some Node.dir => (d, some "open: is a directory")
    | some Node.special => sp.create p data d
    | _ => (d.set p (Node.file data), none)

/-- The loop of `extractDirectory` over the entries of the archive; `entryErr` is
the error, if any, that the file system or the reader raises at an entry. -/
def extractDirectory.loop (entryErr : RelPath → GoError) (sp : SpecialOutcome) :
    List TarEntry → Dir → Dir × GoError
  | [], d => (d, none)
  | header :: rest, d =>
    match entryErr header.Name with
    | some e => (d, some e)
    | none =>
      match header.Typeflag with
      | .dir =>
        match Dir.MkdirAll sp d header.Name with
        | (d1, some e) => (d1, some e)
        | (d1, none) => extractDirectory.loop entryErr sp rest d1
      | .reg =>
        match Dir.MkdirAll sp d header.Name.dropLast with
        | (d1, some e) => (d1, some e)
        | (d1, none) =>
          match Dir.Create sp d1 header.Name header.Data with
          | (d2, some e) => (d2, some e)
          | (d2, none) => extractDirectory.loop entryErr sp rest d2
      | .other => extractDirectory.loop entryErr sp rest d

/-- What the file system answers during `LoadContextData`: the temporary
directory, the result of `os.MkdirAll` on the extraction directory, of opening
the archive, the error, if any, raised at an entry, and what happens at a special
node of the extraction directory. -/
structure LoadOutcome where
  tempDir : String
  mkdirErr : GoError
  openErr : GoError
  entryErr : RelPath → GoError
  special : SpecialOutcome

/-- The method `extractDirectory(source, target)`, into a target directory that
exists. -/
def extractDirectory (disk : Disk) (source target : String) (o : LoadOutcome) :
    Disk × GoError :=
  match o.openErr with
  | some e => (disk, some e)
  | none =>
    match gomap.Load disk.files source with
    | none => (disk, some ("open " ++ source ++ ": no such file or directory"))
    | some archive =>
      let before := (gomap.Load disk.dirs target).getD []
      let r := extractDirectory.loop o.entryErr o.special archive.entries before
      let disk1 := { disk with dirs := gomap.Store disk.dirs target r.1 }
      match r.2 with
      | some e => (disk1, some e)
      | none => if archive.complete then (disk1, none) else (disk1, some "unexpected EOF")

/-- The context manager together with the disk it works on and the last reading
of the clock; every `time.Now()` reads the clock a delay later, never earlier. -/
structure World where
  mgr : Manager
  disk : Disk
  clock : time.Time
deriving DecidableEq, Repr

/-- The path of the archive of a context: `filepath.Join(storePath, id + ".tar.gz")`. -/
def archivePath (storePath contextID : String) : String :=
  filepath.JoinText [storePath, contextID ++ ".tar.gz"]

/-- The constructor `ctxmgr.NewManager(storePath)` on a disk, when the storage
directory can be created. -/
def World.new (storePath : String) (disk : Disk) (clock : time.Time) : World :=
  { mgr := { contexts := [], storePath := storePath }, disk := disk, clock := clock }

/-- What the outside world answers during `CreateContext`: the fresh uuid and the
delays of the two clock readings. -/
structure CreateContextOutcome where
  id : String
  delay1 : Nat
  delay2 : Nat

/-- The method `CreateContext`. -/
def World.CreateContext (w : World) (projectID : String) (o : CreateContextOutcome) :
    World × Except String models.Context :=
  if projectID == "" then (w, .error "projectId is required")
  else
    let createdAt := w.clock + o.delay1
    let updatedAt := createdAt + o.delay2
    let ctx : models.Context :=
      { ID := o.id, ProjectID := projectID, CreatedAt := createdAt, UpdatedAt := updatedAt
        DataPath := "" }
    let mgr1 := { w.mgr with contexts := gomap.Store w.mgr.contexts ctx.ID ctx }
    ({ w with mgr := mgr1, clock := updatedAt }, .ok ctx)

/-- The method `UpdateContext`, with the clock read a delay later. -/
def World.UpdateContext (w : World) (id : String) (delay : Nat) : World × GoError :=
  let now := w.clock + delay
  let r := w.mgr.UpdateContext id now
  ({ w with mgr := r.1, clock := now }, r.2)

/-- What the outside world answers during `SaveContextData`. -/
structure SaveOutcome where
  compress : CompressOutcome
  delay : Nat

/-- The method `SaveContextData` on the disk: the archive is written by
`compressDirectory`, whose result decides whether the context is updated. -/
def World.SaveContextData (w : World) (contextID userDataDir : String) (o : SaveOutcome) :
    World × GoError :=
  match w.mgr.GetContext contextID with
  | .error e => (w, some e)
  | .ok _ =>
    let r := compressDirectory w.disk userDataDir (archivePath w.mgr.storePath contextID)
      o.compress
    let now := w.clock + o.delay
    let s := w.mgr.SaveContextData contextID r.2 now
    ({ mgr := s.1, disk := r.1, clock := now }, s.2)

/-- The method `LoadContextData` on the disk: the extraction directory is created
when it does not exist and the archive is extracted into it. -/
def World.LoadContextData (w : World) (contextID : String) (o : LoadOutcome) :
    World × Except String String :=
  match w.mgr.GetContext contextID with
  | .error e => (w, .error e)
  | .ok ctx =>
    if ctx.DataPath == "" then (w, .error "context has no saved data")
    else
      let extractPath := filepath.JoinText [o.tempDir, "browser-context-" ++ contextID]
      match o.mkdirErr with
      | some e => (w, .error ("failed to create temp directory: " ++ e))
      | none =>
        let dirs1 := match gomap.Load w.disk.dirs extractPath with
          | some _ => w.disk.dirs
          | none => gomap.Store w.disk.dirs extractPath []
        let r := extractDirectory { w.disk with dirs := dirs1 } ctx.DataPath extractPath o
        match r.2 with
        | some e => ({ w with disk := r.1 }, .error ("failed to extract context data: " ++ e))
        | none => ({ w with disk := r.1 }, .ok extractPath)

/-- The result of `os.Remove`. -/
inductive RemoveResult where
  | removed
  | notExist
  | failed (e : String)
deriving DecidableEq, Repr

/-- The call `os.Remove` on a file of the archive directory; `failure` is an
error other than the file being absent. -/
def Disk.Remove (disk : Disk) (path : String) (failure : GoError) : Disk × RemoveResult :=
  match failure with
  | some e => (disk, .failed e)
  | none =>
    match gomap.Load disk.files path with
    | some _ => ({ disk with files := gomap.Delete disk.files path }, .removed)
    | none => (disk, .notExist)

/-- The method `DeleteContext`; `removeErr` is a failure of `os.Remove` other than
the archive being absent. -/
def World.DeleteContext (w : World) (id : String) (removeErr : GoError) : World × GoError :=
  match w.mgr.GetContext id with
  | .error e => (w, some e)
  | .ok ctx =>
    let removed : Disk × GoError :=
      if ctx.DataPath != "" then
        match w.disk.Remove ctx.DataPath removeErr with
        | (disk1, .failed e) => (disk1, some ("failed to delete context data: " ++ e))
        | (disk1, _) => (disk1, none)
      else (w.disk, none)
    match removed.2 with
    | some e => (w, some e)
    | none =>
      ({ w with mgr := { w.mgr with contexts := gomap.Delete w.mgr.contexts id }
                disk := removed.1 }, none)

/-- The calls that drive the context manager. -/
inductive Call where
  | create (projectID : String) (o : CreateContextOutcome)
  | save (contextID userDataDir : String) (o : SaveOutcome)
  | update (id : String) (delay : Nat)
  | delete (id : String) (removeErr : GoError)

/-- The id that `uuid.New().String()` hands to `CreateContext` holds no path
separator (it is made of hexadecimal digits and hyphens). -/
def Call.idOk : Call → Prop
  | .create _ o => '/' ∉ o.id.data
  | _ => True

/-- One call applied to the world. -/
def World.step (w : World) : Call → World
  | .create projectID o => (w.CreateContext projectID o).1
  | .save contextID userDataDir o => (w.SaveContextData contextID userDataDir o).1
  | .update id delay => (w.UpdateContext id delay).1
  | .delete id removeErr => (w.DeleteContext id removeErr).1

/-- A sequence of calls applied from left to right. -/
def World.run (w : World) : List Call → World
  | [] => w
  | c :: cs => World.run (w.step c) cs

/-- The invariant of the context store: each context stored under `id` has an
empty data path or the path of its own archive, which exists on the disk, and was
created no later than it was last updated, which is no later than the clock. -/
def World.Inv (w : World) : Prop :=
  ∀ id ctx, gomap.Load w.mgr.contexts id = some ctx →
    (ctx.DataPath = "" ∨
      (ctx.DataPath = archivePath w.mgr.storePath id ∧
        (gomap.Load w.disk.files ctx.DataPath).isSome = true)) ∧
    ctx.CreatedAt ≤ ctx.UpdatedAt ∧ ctx.UpdatedAt ≤ w.clock

/-- No id of a stored context holds a path separator. -/
def World.IdsOk (w : World) : Prop :=
  ∀ id ctx, gomap.Load w.mgr.contexts id = some ctx → '/' ∉ id.data

end ctxmgr

namespace ctxmgr

/-- A directory tree: no relative path is listed twice, the root is not listed,
and every nonempty proper beginning of a listed path is listed as a directory. -/
def Dir.WellFormed (d : Dir) : Prop :=
  (d.map Prod.fst).Nodup ∧
  ∀ x ∈ d, x.1 ≠ [] ∧ ∀ q ∈ prefixes x.1.dropLast, (q, Node.dir) ∈ d

namespace demo

/-- A disk with two source directories and nothing else. -/
def disk0 : Disk :=
  { files := []
    dirs := [("/src1", [(["a.txt"], Node.file [1, 2])]),
             ("/src2", [(["b.txt"], Node.file [3])])] }

/-- A save during which the file system raises no error. -/
def saveOk : SaveOutcome :=
  { compress := { createErr := none, walkErr := fun _ => none }, delay := 1 }

/-- A load during which the file system raises no error, with `/tmp` as the
temporary directory. -/
def loadOk : LoadOutcome :=
  { tempDir := "/tmp", mkdirErr := none, openErr := none, entryErr := fun _ => none
    special := { mkdir := fun _ d => (d, none), create := fun _ _ d => (d, none) } }

/-- A fresh manager on `disk0` after `CreateContext` has stored the context `c1`. -/
def stored : World :=
  ((World.new "/store" disk0 0).CreateContext "p1" { id := "c1", delay1 := 0, delay2 := 0 }).1

/-- The world after `/src1` was saved to the context `c1`. -/
def savedOnce : World := (stored.SaveContextData "c1" "/src1" saveOk).1

/-- A fresh manager with the store path of the server, `./storage/contexts`, after
`CreateContext` has stored the context `c1`. -/
def dotStore : World :=
  ((World.new "./storage/contexts" disk0 0).CreateContext "p1"
    { id := "c1", delay1 := 0, delay2 := 0 }).1

/-- The world after that archive was loaded. -/
def loadedOnce : World := (savedOnce.LoadContextData "c1" loadOk).1

/-- The world after `/src2` was then saved to the same context. -/
def savedTwice : World := (loadedOnce.SaveContextData "c1" "/src2" saveOk).1

end demo

end ctxmgr

/-! ## `internal/browser`: stopping a container and the readiness probe -/

namespace browser

/-- A call that `StopBrowser` makes to the container runtime. -/
inductive RuntimeCall where
  | ContainerStop (containerID : String) (timeoutSec : Int)
  | ContainerRemove (containerID : String)
deriving DecidableEq, Repr

/-- What the container runtime answers to `ContainerStop` and, when it is called,
to `ContainerRemove`. -/
structure StopOutcome where
  stopErr : GoError
  removeErr : GoError

/-- The method `Pool.StopBrowser`: the calls made to the runtime, oldest first,
and the returned error. -/
def Pool.StopBrowser (_p : Pool) (containerID : String) (o : StopOutcome) :
    List RuntimeCall × GoError :=
  let timeout : Int := 10
  match o.stopErr with
  | some err =>
    ([RuntimeCall.ContainerStop containerID timeout],
     some ("failed to stop container: " ++ err))
  | none =>
    match o.removeErr with
    | some err =>
      ([RuntimeCall.ContainerStop containerID timeout, RuntimeCall.ContainerRemove containerID],
       some ("failed to remove container: " ++ err))
    | none =>
      ([RuntimeCall.ContainerStop containerID timeout, RuntimeCall.ContainerRemove containerID],
       none)

/-- The loop of `waitForBrowserReady` with `remaining` iterations left before
iteration `i`.  `get i` is the answer to the probe of iteration `i`: a transport
error or the status code of the response.  The result is the number of probes
made and the returned error. -/
def waitForBrowserReady.loop (get : Nat → Except String Int) (maxRetries : Nat) :
    Nat → Nat → Nat × GoError
  | 0, i =>
    (i, some ("browser did not become ready after " ++ strconv.Itoa maxRetries ++ " retries"))
  | remaining + 1, i =>
    match get i with
    | .ok statusCode =>
      if statusCode == 200 then (i + 1, none)
      else waitForBrowserReady.loop get maxRetries remaining (i + 1)
    | .error _ => waitForBrowserReady.loop get maxRetries remaining (i + 1)

/-- The address that `waitForBrowserReady` probes. -/
def readyURL (port : String) : String := "http://localhost:" ++ port ++ "/json/version"

/-- The method `Pool.waitForBrowserReady`; `get url i` is the answer to the
`i`-th call of `http.Get(url)`, counted from zero. -/
def Pool.waitForBrowserReady (_p : Pool) (port : String)
    (get : String → Nat → Except String Int) : Nat × GoError :=
  let url := readyURL port
  let maxRetries := 20
  waitForBrowserReady.loop (get url) maxRetries maxRetries 0

namespace demo

/-- A runtime in which the container is unknown: the stop fails, and a remove
would fail too. -/
def stopFails : StopOutcome :=
  { stopErr := some "No such container: c0ffee"
    removeErr := some "No such container: c0ffee" }

/-- A browser that refuses the first probe, answers 503 to the second and 200 from
the third on. -/
def readyAtThird (_url : String) (i : Nat) : Except String Int :=
  if i = 0 then .error "connection refused" else if i = 1 then .ok 503 else .ok 200

end demo

end browser

/-! ## `internal/proxy` -/

namespace proxy

/-- The struct `proxy.Server`. -/
structure Server where
  sessionMgr : session.Manager

/-- The constant `websocket.TextMessage`. -/
def TextMessage : Int := 1

/-- The constant `websocket.BinaryMessage`. -/
def BinaryMessage : Int := 2

/-- A WebSocket data message as `ReadMessage` returns it and `WriteMessage` takes
it: the message type and the payload. -/
structure Message where
  messageType : Int
  data : List Nat
deriving DecidableEq, Repr

/-- What a source connection yields: its messages in order, then the error of the
read that follows the last of them (the close of the connection). -/
structure Source where
  messages : List Message
  readErr : String

/-- The loop of `proxyMessages` over the messages still to be read; `k` counts the
calls of `WriteMessage` made so far, `writeErr k` is the result of the next one,
and `written` holds the messages that reached the sink, oldest first. -/
def proxyMessages.loop (readErr : String) (writeErr : Nat → GoError) :
    List Message → Nat → List Message → List Message × String
  | [], _, written => (written, readErr)
  | message :: rest, k, written =>
    match writeErr k with
    | some err => (written, err)
    | none => proxyMessages.loop readErr writeErr rest (k + 1) (written ++ [message])

/-- The method `Server.proxyMessages`: the messages written to the sink and the
error returned. -/
def Server.proxyMessages (_s : Server) (src : Source) (writeErr : Nat → GoError) :
    List Message × String :=
  proxyMessages.loop src.readErr writeErr src.messages 0 []

namespace demo

/-- A source that yields a text message, a binary message and a text message, and
is then closed. -/
def mixed : Source :=
  { messages := [{ messageType := TextMessage, data := [123, 125] },
                 { messageType := BinaryMessage, data := [0, 255, 16] },
                 { messageType := TextMessage, data := [] }]
    readErr := "websocket: close 1000 (normal)" }

/-- A sink that takes two messages and fails on the third write. -/
def thirdWriteFails (k : Nat) : GoError := if k = 2 then some "write: broken pipe" else none

end demo

end proxy

/-! ## Calls on one project -/

namespace session

/-- The project a call acts on in the state it is applied to: the project of the
create request, or the project of the stored session that `DeleteSession` or
`handleTimeout` names; `none` when the call names no stored session. -/
def Op.project (m : Manager) : Op → Option String
  | .create req _ => some req.ProjectID
  | .delete id _ => (gomap.Load m.sessions id).map (fun s => s.ProjectID)
  | .timeout s _ => (gomap.Load m.sessions s.ID).map (fun c => c.ProjectID)

/-- Every call of the sequence, applied from left to right, acts on project `A`
or on no stored session. -/
def Manager.onProject (A : String) (m : Manager) : List Op → Bool
  | [] => true
  | op :: ops =>
    (match op.project m with
      | some P => P == A
      | none => true) &&
    (match m.step op with
      | some m1 => Manager.onProject A m1 ops
      | none => true)

namespace demo

/-- Ten creates for project `P`, then the first of the sessions is deleted and the
second times out. -/
def busyP : List Op :=
  tenCreates ++ [Op.delete "s0" teardownOk, Op.timeout (handle "s1") teardownOk]

end demo

end session

namespace ctxmgr

/-- The header name that the walk callback of `compressDirectory` computes for
the node under the relative path `p`: `filepath.Rel(source, path)`. -/
def compressDirectory.headerName (source : filepath.Path) (p : RelPath) :
    Except String filepath.Path :=
  filepath.Rel source (filepath.walkPath source p)

/-- The path that `extractDirectory` works on for a header:
`filepath.Join(target, header.Name)`. -/
def extractDirectory.targetPath (target name : filepath.Path) : filepath.Path :=
  filepath.Join target name

end ctxmgr

/-! ## The two halves of a terminal transition -/

namespace session

/-- Lines 313-321 of `DeleteSession`: the lookup and the RUNNING check.  The
result is the session the rest of the call works on, or the error returned. -/
def DeleteSession.guard (m : Manager) (id : String) : Except String models.Session :=
  match m.GetSession id with
  | .error e => .error e
  | .ok s =>
    if s.Status != models.StatusRunning then .error "session is not running" else .ok s

/-- Lines 323-355 of `DeleteSession`, on the session that passed the check:
teardown, status COMPLETED, store, release.  No lock is held between the check
and these lines, so the manager they run on need not be the one the check saw. -/
def DeleteSession.finish (m : Manager) (id : String) (s : models.Session)
    (o : TeardownOutcome) : Option Manager :=
  let m1 := m.teardown id s o
  let s1 := { s with Status := models.StatusCompleted }
  let m2 := { m1 with sessions := gomap.Store m1.sessions id s1 }
  m2.releaseSlot s1.ProjectID

/-- Lines 403-411 of `handleTimeout`, from the moment the timer fires: the lookup
and the RUNNING check.  `none` is the early return. -/
def handleTimeout.guard (m : Manager) (s : models.Session) : Option models.Session :=
  match m.GetSession s.ID with
  | .error _ => none
  | .ok current => if current.Status != models.StatusRunning then none else some current

/-- Lines 413-441 of `handleTimeout`, on the session that passed the check:
teardown, status TIMED_OUT, store, release. -/
def handleTimeout.finish (m : Manager) (s current : models.Session)
    (o : TeardownOutcome) : Option Manager :=
  let m1 := m.teardown current.ID current o
  let current1 := { current with Status := models.StatusTimedOut }
  let written := gomap.Store m1.sessions s.ID current1
  let m2 := { m1 with sessions := gomap.Store written current1.ID current1 }
  m2.releaseSlot current1.ProjectID

namespace demo

/-- Two creates for project `P`, with ids `s0` and `s1`. -/
def twoCreates : List Op :=
  [Op.create (request "P") (createOk "s0"), Op.create (request "P") (createOk "s1")]

/-- Ten more creates for project `P`, with ids `t0` to `t9`. -/
def tenMore : List Op :=
  ["t0", "t1", "t2", "t3", "t4", "t5", "t6", "t7", "t8", "t9"].map
    (fun id => Op.create (request "P") (createOk id))

end demo

end session

/-! ## Maps -/

namespace gomap

theorem Load_nil {α : Type} (q : String) : Load ([] : List (String × α)) q = none := rfl

theorem Load_cons {α : Type} (a : String) (b : α) (tl : List (String × α)) (q : String) :
    Load ((a, b) :: tl) q = if q = a then some b else Load tl q := by
  unfold Load
  rw [List.lookup_cons]
  by_cases h : q = a
  · have hb : (q == a) = true := by simp [h]
    rw [hb]; simp [h]
  · have hb : (q == a) = false := by simp [h]
    rw [hb]; simp [h]

theorem Delete_cons {α : Type} (a : String) (b : α) (tl : List (String × α)) (k : String) :
    Delete ((a, b) :: tl) k = if a = k then Delete tl k else (a, b) :: Delete tl k := by
  unfold Delete
  by_cases h : a = k
  · simp [List.filter_cons, h]
  · simp [List.filter_cons, h]

theorem Load_Delete {α : Type} (l : List (String × α)) (k q : String) :
    Load (Delete l k) q = if q = k then none else Load l q := by
  induction l with
  | nil => simp [Delete, Load_nil]
  | cons hd tl ih =>
    obtain ⟨a, b⟩ := hd
    rw [Delete_cons]
    by_cases hak : a = k
    · subst hak
      rw [if_pos rfl, ih, Load_cons]
      by_cases hq : q = a <;> simp [hq]
    · rw [if_neg hak, Load_cons, Load_cons, ih]
      by_cases hq : q = a
      · subst hq; simp [hak]
      · simp [hq]

theorem Load_Store {α : Type} (l : List (String × α)) (k q : String) (v : α) :
    Load (Store l k v) q = if q = k then some v else Load l q := by
  unfold Store
  rw [Load_cons, Load_Delete]
  by_cases hq : q = k <;> simp [hq]

end gomap

/-! ## Paths -/

namespace filepath

theorem step_name (r : Bool) (out : List String) (e : String)
    (h1 : e ≠ "") (h2 : e ≠ ".") (h3 : e ≠ "..") : Clean.step r out e = out ++ [e] := by
  unfold Clean.step
  simp [h1, h2, h3]

theorem foldl_names (r : Bool) (p : List String) :
    ∀ (out : List String), (∀ s ∈ p, IsName s) →
      p.foldl (Clean.step r) out = out ++ p := by
  induction p with
  | nil => intro out _; simp
  | cons e p ih =>
    intro out h
    have he := h e (List.mem_cons_self _ _)
    rw [List.foldl_cons, step_name r out e he.1 he.2.1 he.2.2.1,
      ih _ (fun s hs => h s (List.mem_cons_of_mem _ hs))]
    simp

/-- Cleaning an element keeps the output clean: cleaning it again changes
nothing, and it holds no empty element and no `.`. -/
theorem step_clean (r : Bool) (out : List String) (e : String)
    (h1 : out.foldl (Clean.step r) [] = out) (h2 : ∀ x ∈ out, x ≠ "" ∧ x ≠ ".") :
    (Clean.step r out e).foldl (Clean.step r) [] = Clean.step r out e ∧
    ∀ x ∈ Clean.step r out e, x ≠ "" ∧ x ≠ "." := by
  have happ : ∀ x, x ≠ "" → x ≠ "." → Clean.step r out x = out ++ [x] →
      (out ++ [x]).foldl (Clean.step r) [] = out ++ [x] ∧
      ∀ y ∈ out ++ [x], y ≠ "" ∧ y ≠ "." := by
    intro x hx1 hx2 hstep
    refine ⟨by rw [List.foldl_append, h1, List.foldl_cons, List.foldl_nil, hstep], ?_⟩
    intro y hy
    rcases List.mem_append.1 hy with hy | hy
    · exact h2 y hy
    · simp only [List.mem_singleton] at hy
      rw [hy]; exact ⟨hx1, hx2⟩
  by_cases hskip : e = "" ∨ e = "."
  · have hs : Clean.step r out e = out := by unfold Clean.step; simp [hskip]
    rw [hs]; exact ⟨h1, h2⟩
  · have hn1 : e ≠ "" := fun h => hskip (Or.inl h)
    have hn2 : e ≠ "." := fun h => hskip (Or.inr h)
    by_cases hdd : e = ".."
    · subst hdd
      cases hl : out.getLast? with
      | none =>
        have hout : out = [] := List.getLast?_eq_none_iff.1 hl
        subst hout
        cases r with
        | true =>
          have hs : Clean.step true [] ".." = [] := by decide
          rw [hs]; exact ⟨rfl, fun x hx => by cases hx⟩
        | false =>
          have hs : Clean.step false [] ".." = [".."] := by decide
          rw [hs]
          refine ⟨by decide, ?_⟩
          intro x hx
          simp only [List.mem_singleton] at hx
          rw [hx]; exact ⟨by decide, by decide⟩
      | some x =>
        by_cases hx : x = ".."
        · have hs : Clean.step r out ".." = out ++ [".."] := by
            unfold Clean.step
            simp [hl, hx]
          rw [hs]
          exact happ ".." (by decide) (by decide) hs
        · have hs : Clean.step r out ".." = out.dropLast := by
            unfold Clean.step
            simp [hl, hx]
          rw [hs]
          have hne : out ≠ [] := by
            intro h0; rw [h0] at hl; simp at hl
          have hlast : out.getLast hne = x := by
            have := List.getLast?_eq_getLast out hne
            rw [this] at hl
            exact Option.some.inj hl
          have hsplit : out.dropLast ++ [x] = out := by
            rw [← hlast]; exact List.dropLast_append_getLast hne
          have hxin : x ∈ out := by rw [← hsplit]; simp
          have hx12 := h2 x hxin
          constructor
          · have h3 := h1
            rw [← hsplit, List.foldl_append, List.foldl_cons, List.foldl_nil,
              step_name r _ x hx12.1 hx12.2 hx] at h3
            exact List.append_cancel_right h3
          · intro y hy
            exact h2 y (List.mem_of_mem_dropLast hy)
    · have hs := step_name r out e hn1 hn2 hdd
      rw [hs]
      exact happ e hn1 hn2 hs

theorem foldl_clean (r : Bool) (l : List String) :
    ∀ (out : List String), out.foldl (Clean.step r) [] = out → (∀ x ∈ out, x ≠ "" ∧ x ≠ ".") →
    (l.foldl (Clean.step r) out).foldl (Clean.step r) [] = l.foldl (Clean.step r) out ∧
    ∀ x ∈ l.foldl (Clean.step r) out, x ≠ "" ∧ x ≠ "." := by
  induction l with
  | nil => intro out h1 h2; exact ⟨h1, h2⟩
  | cons e l ih =>
    intro out h1 h2
    obtain ⟨a, b⟩ := step_clean r out e h1 h2
    exact ih _ a b

/-- Cleaning a clean path changes nothing. -/
theorem Clean_idem (p : Path) : Clean (Clean p) = Clean p := by
  unfold Clean
  simp only []
  rw [(foldl_clean p.rooted p.elems [] rfl (fun x hx => by cases hx)).1]

/-- Names appended to a path stay as they are when the path is cleaned. -/
theorem Clean_append_names (r : Bool) (s p : List String) (hp : ∀ x ∈ p, IsName x) :
    Clean { rooted := r, elems := s ++ p }
      = { rooted := r, elems := (Clean { rooted := r, elems := s }).elems ++ p } := by
  unfold Clean
  simp only []
  rw [List.foldl_append, foldl_names r p _ hp]

theorem Join_rooted (a : Path) (p : List String) :
    (if a = { rooted := false, elems := [] } then
      ({ rooted := false, elems := p } : Path).rooted else a.rooted) = a.rooted := by
  by_cases h : a = { rooted := false, elems := [] }
  · simp only [h, if_true]
  · simp only [h, if_false]

/-- Joining names to a path appends them to the cleaned path. -/
theorem Join_names (a : Path) (p : List String) (hp : ∀ x ∈ p, IsName x) :
    Join a { rooted := false, elems := p }
      = { rooted := a.rooted, elems := (Clean a).elems ++ p } := by
  unfold Join
  rw [Join_rooted a p]
  exact Clean_append_names a.rooted a.elems p hp

/-- The walk hands out, for the node under `p`, a path that cleans to the cleaned
root followed by `p`. -/
theorem Clean_walkPath (root : Path) (p : List String) (hp : ∀ x ∈ p, IsName x) :
    Clean (walkPath root p) = { rooted := root.rooted, elems := (Clean root).elems ++ p } := by
  unfold walkPath
  have key : ∀ (l : List String) (x : Path) (q : List String), (∀ s ∈ l, IsName s) →
      (∀ s ∈ q, IsName s) →
      Clean x = { rooted := root.rooted, elems := (Clean root).elems ++ q } →
      Clean (l.foldl (fun path name => Join path { rooted := false, elems := [name] }) x)
        = { rooted := root.rooted, elems := (Clean root).elems ++ (q ++ l) } := by
    intro l
    induction l with
    | nil => intro x q _ _ hx; simpa using hx
    | cons n l ih =>
      intro x q hl hq hx
      have hn : ∀ s ∈ [n], IsName s := by
        intro s hs
        simp only [List.mem_singleton] at hs
        rw [hs]; exact hl n (List.mem_cons_self _ _)
      have hxr : x.rooted = root.rooted := by
        have := congrArg Path.rooted hx
        exact this
      have hj : Join x { rooted := false, elems := [n] }
          = { rooted := root.rooted, elems := (Clean root).elems ++ (q ++ [n]) } := by
        rw [Join_names x [n] hn, hx, hxr]
        simp
      have hc : Clean (Join x { rooted := false, elems := [n] })
          = { rooted := root.rooted, elems := (Clean root).elems ++ (q ++ [n]) } := by
        rw [hj]
        have h1 := Clean_append_names root.rooted (Clean root).elems (q ++ [n]) ?_
        · rw [h1]
          have h2 : Clean { rooted := root.rooted, elems := (Clean root).elems } = Clean root :=
            Clean_idem root
          rw [h2]
        · intro s hs
          rcases List.mem_append.1 hs with hs | hs
          · exact hq s hs
          · exact hn s hs
      rw [List.foldl_cons]
      have hq1 : ∀ s ∈ q ++ [n], IsName s := by
        intro s hs
        rcases List.mem_append.1 hs with hs | hs
        · exact hq s hs
        · exact hn s hs
      have := ih _ (q ++ [n]) (fun s hs => hl s (List.mem_cons_of_mem _ hs)) hq1 hc
      rw [this]
      simp
  have := key p root [] hp (fun s hs => by cases hs) (by simp [Clean])
  simpa using this

end filepath

namespace filepath

theorem stripCommon_append (c p : List String) : stripCommon c (c ++ p) = ([], p) := by
  induction c with
  | nil => cases p <;> rfl
  | cons a c ih => simp [stripCommon, ih]

/-- The header name of the node under `p` is `p` itself, a relative path. -/
theorem Rel_walkPath (root : Path) (p : List String) (hp : ∀ x ∈ p, IsName x) :
    Rel root (walkPath root p) = .ok { rooted := false, elems := p } := by
  unfold Rel
  simp only [Clean_walkPath root p hp]
  have hr : (Clean root).rooted = root.rooted := rfl
  simp only [hr, bne_self_eq_false, Bool.false_eq_true, if_false, stripCommon_append,
    List.head?_nil, List.map_nil, List.nil_append]
  simp

/-- The parent of a path that ends in names is the path without the last name. -/
theorem Dir_names (a : Path) (p : List String) (hp : ∀ x ∈ p, IsName x) (hne : p ≠ []) :
    Dir { rooted := a.rooted, elems := (Clean a).elems ++ p }
      = { rooted := a.rooted, elems := (Clean a).elems ++ p.dropLast } := by
  unfold Dir
  simp only []
  rw [List.dropLast_append_of_ne_nil _ hne,
    Clean_append_names a.rooted (Clean a).elems p.dropLast
      (fun x hx => hp x (List.mem_of_mem_dropLast hx))]
  have h2 : Clean { rooted := a.rooted, elems := (Clean a).elems } = Clean a := Clean_idem a
  rw [h2]

end filepath


namespace filepath

theorem splitElems_append (xs ys : List Char) : ∀ (cur : List Char),
    splitElems (xs ++ '/' :: ys) cur = splitElems xs cur ++ splitElems ys [] := by
  induction xs with
  | nil => intro cur; simp [splitElems]
  | cons c cs ih =>
    intro cur
    by_cases hc : c = '/'
    · simp [splitElems, hc, ih]
    · simp [splitElems, hc, ih]

theorem splitElems_name (n : List Char) (h : '/' ∉ n) : ∀ (cur : List Char),
    splitElems n cur = [String.mk (cur ++ n)] := by
  induction n with
  | nil => intro cur; simp [splitElems]
  | cons c cs ih =>
    intro cur
    have hc : c ≠ '/' := fun e => h (by rw [e]; exact List.mem_cons_self _ _)
    have hcs : '/' ∉ cs := fun e => h (List.mem_cons_of_mem _ e)
    simp [splitElems, hc, ih hcs]

/-- The text of a name denotes the relative path of that one element. -/
theorem parse_name (b : String) (hb : IsName b) :
    Path.parse b = { rooted := false, elems := [b] } := by
  unfold Path.parse
  have h1 : splitElems b.data [] = [b] := by
    rw [splitElems_name b.data hb.2.2.2 []]
    simp
  have h2 : (b.data.head? == some '/') = false := by
    cases hd : b.data with
    | nil => simp
    | cons c cs =>
      have hc : c ≠ '/' := fun e => hb.2.2.2 (by rw [hd, e]; exact List.mem_cons_self _ _)
      simp [hc]
  rw [h1, h2]

/-- A text followed by a separator and a name denotes the path of the text
followed by the name. -/
theorem parse_slash_name (a b : String) (ha : a ≠ "") (hb : IsName b) :
    Path.parse (a ++ "/" ++ b)
      = { rooted := (Path.parse a).rooted, elems := (Path.parse a).elems ++ [b] } := by
  unfold Path.parse
  have hdata : (a ++ "/" ++ b).data = a.data ++ '/' :: b.data := by
    simp [String.data_append]
  have hne : a.data ≠ [] := by
    intro h
    apply ha
    exact String.ext h
  rw [hdata, splitElems_append, splitElems_name b.data hb.2.2.2 []]
  have hh : (a.data ++ '/' :: b.data).head? = a.data.head? := by
    cases hd : a.data with
    | nil => exact absurd hd hne
    | cons c cs => rfl
  rw [hh]
  simp

theorem intercalate_go_append (s : String) (l : List String) : ∀ (acc x : String),
    String.intercalate.go acc s (l ++ [x]) = String.intercalate.go acc s l ++ s ++ x := by
  induction l with
  | nil => intro acc x; simp [String.intercalate.go]
  | cons a l ih => intro acc x; simp [String.intercalate.go, ih]

theorem intercalate_snoc (s : String) (l : List String) (x : String) (hl : l ≠ []) :
    String.intercalate s (l ++ [x]) = String.intercalate s l ++ s ++ x := by
  cases l with
  | nil => exact absurd rfl hl
  | cons a l => simp [String.intercalate, intercalate_go_append]

theorem intercalate_go_length (s : String) (l : List String) : ∀ (acc : String),
    acc.length ≤ (String.intercalate.go acc s l).length := by
  induction l with
  | nil => intro acc; simp [String.intercalate.go]
  | cons a l ih =>
    intro acc
    simp only [String.intercalate.go]
    have := ih (acc ++ s ++ a)
    simp only [String.length_append] at this
    omega

/-- The text of a cleaned path is not empty. -/
theorem render_Clean_ne_empty (p : Path) : (Clean p).render ≠ "" := by
  unfold Path.render
  by_cases he : (Clean p).elems = []
  · simp only [he, if_true]
    cases (Clean p).rooted <;> decide
  · simp only [he, if_false]
    unfold Path.text
    intro h
    have hlen := congrArg String.length h
    simp only [String.length_append] at hlen
    have hz : "".length = 0 := by decide
    rw [hz] at hlen
    cases hl : (Clean p).elems with
    | nil => exact he hl
    | cons e es =>
      rw [hl] at hlen
      have hmem : e ∈ (Clean p).elems := by rw [hl]; exact List.mem_cons_self _ _
      have hclean := (foldl_clean p.rooted p.elems [] rfl (fun x hx => by cases hx)).2 e hmem
      have hpos : 0 < e.length := by
        rcases Nat.eq_zero_or_pos e.length with h0 | h0
        · exact absurd (String.ext (List.length_eq_zero.1 h0)) hclean.1
        · exact h0
      have hgo := intercalate_go_length "/" es e
      simp only [String.intercalate] at hlen
      omega

theorem CleanText_ne_empty (s : String) : CleanText s ≠ "" :=
  render_Clean_ne_empty _

/-- Joining a text and a non-empty text never gives the empty text. -/
theorem JoinText_ne_empty (a b : String) (hb : b ≠ "") : JoinText [a, b] ≠ "" := by
  unfold JoinText
  by_cases ha : a = ""
  · simp only [ha, if_true]
    unfold JoinText
    simp only [hb, if_false]
    exact CleanText_ne_empty _
  · simp only [ha, if_false]
    exact CleanText_ne_empty _

/-- What `Join` puts in front of a name joined to the text `a`. -/
theorem JoinText_name (a b : String) (hb : IsName b) :
    JoinText [a, b]
      = if a = "" then b
        else (if (Clean (Path.parse a)).rooted then "/" else "") ++
          (if (Clean (Path.parse a)).elems = [] then ""
           else String.intercalate "/" (Clean (Path.parse a)).elems ++ "/") ++ b := by
  unfold JoinText
  by_cases ha : a = ""
  · simp only [ha, if_true]
    unfold JoinText
    simp only [hb.1, if_false]
    unfold CleanText
    have h1 : String.intercalate "/" [b] = b := rfl
    rw [h1, parse_name b hb]
    have h2 := Clean_append_names false [] [b] (by
      intro x hx
      simp only [List.mem_singleton] at hx
      rw [hx]; exact hb)
    simp only [List.nil_append] at h2
    rw [h2]
    simp [Clean, Path.render, Path.text, String.intercalate, String.intercalate.go]
  · simp only [ha, if_false]
    unfold CleanText
    have h1 : String.intercalate "/" [a, b] = a ++ "/" ++ b := rfl
    rw [h1, parse_slash_name a b ha hb]
    have h2 := Clean_append_names (Path.parse a).rooted (Path.parse a).elems [b] (by
      intro x hx
      simp only [List.mem_singleton] at hx
      rw [hx]; exact hb)
    rw [h2]
    have h3 : (Clean { rooted := (Path.parse a).rooted, elems := (Path.parse a).elems })
        = Clean (Path.parse a) := rfl
    rw [h3]
    unfold Path.render Path.text
    have hr : (Clean (Path.parse a)).rooted = (Path.parse a).rooted := rfl
    simp only [List.append_eq_nil, List.cons_ne_self, and_false, if_false, hr]
    by_cases he : (Clean (Path.parse a)).elems = []
    · simp [he, String.intercalate, String.intercalate.go]
    · simp only [he, if_false]
      rw [intercalate_snoc _ _ _ he]
      simp [String.append_assoc]

/-- Joining two different names to one text gives two different texts. -/
theorem JoinText_name_inj (a b c : String) (hb : IsName b) (hc : IsName c)
    (h : JoinText [a, b] = JoinText [a, c]) : b = c := by
  rw [JoinText_name a b hb, JoinText_name a c hc] at h
  by_cases ha : a = ""
  · simpa [ha] using h
  · simp only [ha, if_false] at h
    have h1 := congrArg String.data h
    simp only [String.data_append] at h1
    exact String.ext (List.append_cancel_left h1)

end filepath

/-! ## Permits and RUNNING counts -/

namespace session

open models semaphore

theorem permits_Store (c : List (String × Weighted)) (P Q : String) (sem : Weighted) :
    permits (gomap.Store c P sem) Q = if Q = P then sem.size - sem.cur else permits c Q := by
  unfold permits
  rw [gomap.Load_Store]
  by_cases h : Q = P <;> simp [h]

theorem SizesOk_Store (c : List (String × Weighted)) (P : String) (sem : Weighted)
    (hc : SizesOk c) (hs : sem.size = 10) : SizesOk (gomap.Store c P sem) := by
  intro Q sem1 h
  rw [gomap.Load_Store] at h
  by_cases hq : Q = P
  · simp [hq] at h; rw [← h]; exact hs
  · simp [hq] at h; exact hc Q sem1 h

/-- Admission on the semaphore map: either a permit was available and exactly one
is taken from the project, or none was and the map is returned as it was. -/
theorem acquire_cases (c : List (String × Weighted)) (P : String) :
    (1 ≤ permits c P ∧ (acquireSlot.onMap c P).2 = none ∧
      (∀ Q, permits (acquireSlot.onMap c P).1 Q
        = if Q = P then permits c P - 1 else permits c Q) ∧
      (SizesOk c → SizesOk (acquireSlot.onMap c P).1)) ∨
    (permits c P < 1 ∧
      acquireSlot.onMap c P = (c, some ("concurrency limit reached for project " ++ P))) := by
  unfold acquireSlot.onMap
  cases hl : gomap.Load c P with
  | none =>
    left
    have hp : permits c P = 10 := by simp [permits, hl]
    refine ⟨by omega, ?_, ?_, ?_⟩
    · simp [Weighted.TryAcquire, NewWeighted]
    · intro Q
      simp only [Weighted.TryAcquire, NewWeighted]
      simp only [show (10 : Int) - 0 ≥ 1 by decide, if_true]
      rw [permits_Store, permits_Store, hp]
      by_cases h : Q = P <;> simp [h]
    · intro hc
      simp only [Weighted.TryAcquire, NewWeighted]
      simp only [show (10 : Int) - 0 ≥ 1 by decide, if_true]
      exact SizesOk_Store _ _ _ (SizesOk_Store _ _ _ hc rfl) rfl
  | some sem =>
    have hp : permits c P = sem.size - sem.cur := by simp [permits, hl]
    by_cases hge : sem.size - sem.cur ≥ 1
    · left
      refine ⟨by omega, ?_, ?_, ?_⟩
      · simp [Weighted.TryAcquire, hge]
      · intro Q
        simp only [Weighted.TryAcquire, hge, if_true]
        rw [permits_Store, hp]
        by_cases h : Q = P
        · simp [h]; omega
        · simp [h]
      · intro hc
        simp only [Weighted.TryAcquire, hge, if_true]
        exact SizesOk_Store _ _ _ hc (hc P sem hl)
    · right
      refine ⟨by omega, ?_⟩
      simp [Weighted.TryAcquire, hge]

/-- Release on the semaphore map: with capacity-10 semaphores and at most 9
permits available, `Release` does not panic and gives the project one permit back. -/
theorem release_spec (c : List (String × Weighted)) (P : String) (hc : SizesOk c)
    (h9 : permits c P ≤ 9) :
    ∃ c1, releaseSlot.onMap c P = some c1 ∧ SizesOk c1 ∧
      ∀ Q, permits c1 Q = if Q = P then permits c P + 1 else permits c Q := by
  unfold releaseSlot.onMap
  cases hl : gomap.Load c P with
  | none => simp [permits, hl] at h9
  | some sem =>
    have hp : permits c P = sem.size - sem.cur := by simp [permits, hl]
    have hs := hc P sem hl
    have hcur : ¬ sem.cur - 1 < 0 := by omega
    refine ⟨gomap.Store c P { sem with cur := sem.cur - 1 }, ?_, ?_, ?_⟩
    · simp [Weighted.Release, hcur]
    · exact SizesOk_Store _ _ _ hc hs
    · intro Q
      rw [permits_Store, hp]
      by_cases h : Q = P
      · simp [h]; omega
      · simp [h]

theorem running_nil (P : String) : running [] P = 0 := rfl

theorem running_cons (a : String) (v : Session) (tl : List (String × Session)) (P : String) :
    running ((a, v) :: tl) P
      = (if v.ProjectID = P ∧ v.Status = StatusRunning then 1 else 0) + running tl P := by
  unfold running
  by_cases h : v.ProjectID = P ∧ v.Status = StatusRunning
  · have hb : (v.ProjectID == P && v.Status == StatusRunning) = true := by simp [h.1, h.2]
    simp [List.filter_cons, hb, h]; omega
  · have hb : (v.ProjectID == P && v.Status == StatusRunning) = false := by
      rw [Bool.eq_false_iff]; intro hh; apply h; simpa using hh
    simp only [List.filter_cons, hb, if_neg h]; simp

theorem running_Delete_le (l : List (String × Session)) (k P : String) :
    running (gomap.Delete l k) P ≤ running l P := by
  induction l with
  | nil => simp [gomap.Delete, running]
  | cons hd tl ih =>
    obtain ⟨a, v⟩ := hd
    rw [gomap.Delete_cons]
    by_cases h : a = k
    · rw [if_pos h, running_cons]; omega
    · rw [if_neg h, running_cons, running_cons]; omega

theorem running_Delete_lt (l : List (String × Session)) (k P : String) (s : Session)
    (hl : gomap.Load l k = some s) (hp : s.ProjectID = P) (hr : s.Status = StatusRunning) :
    running (gomap.Delete l k) P + 1 ≤ running l P := by
  induction l with
  | nil => simp [gomap.Load_nil] at hl
  | cons hd tl ih =>
    obtain ⟨a, v⟩ := hd
    rw [gomap.Load_cons] at hl
    rw [gomap.Delete_cons]
    by_cases h : a = k
    · have hk : k = a := h.symm
      rw [if_pos hk] at hl
      have hv : v = s := by simpa using hl
      subst hv
      rw [if_pos h, running_cons, if_pos ⟨hp, hr⟩]
      have := running_Delete_le tl k P
      omega
    · have hk : ¬ k = a := fun e => h e.symm
      rw [if_neg hk] at hl
      rw [if_neg h, running_cons, running_cons]
      have := ih hl
      omega

theorem running_Store (l : List (String × Session)) (k P : String) (v : Session) :
    running (gomap.Store l k v) P
      = (if v.ProjectID = P ∧ v.Status = StatusRunning then 1 else 0)
        + running (gomap.Delete l k) P := by
  unfold gomap.Store
  rw [running_cons]

/-! ## The operations of the session manager -/

theorem saveSessionContext_frame (m : Manager) (s : Session) (o : TeardownOutcome) :
    (m.saveSessionContext s o).1.sessions = m.sessions ∧
    (m.saveSessionContext s o).1.concurrency = m.concurrency ∧
    (m.saveSessionContext s o).1.puppeteerConns = m.puppeteerConns ∧
    (m.saveSessionContext s o).1.effects = m.effects ∧
    (m.saveSessionContext s o).1.regionMgr = m.regionMgr := by
  unfold Manager.saveSessionContext
  split
  · simp
  · split; simp

theorem teardown_frame (m : Manager) (id : String) (s : Session) (o : TeardownOutcome) :
    (m.teardown id s o).sessions = m.sessions ∧
    (m.teardown id s o).concurrency = m.concurrency := by
  unfold Manager.teardown
  have h1 : ∀ m1 : Manager, m1.sessions = m.sessions ∧ m1.concurrency = m.concurrency →
      ((if s.ContextID != "" && s.UserDataDir != "" then
        match m1.saveSessionContext s o with
        | (m11, err) =>
          { m11 with effects := m11.effects ++ [Event.saveContext s.ContextID s.UserDataDir err] }
        else m1).sessions = m.sessions ∧
       (if s.ContextID != "" && s.UserDataDir != "" then
        match m1.saveSessionContext s o with
        | (m11, err) =>
          { m11 with effects := m11.effects ++ [Event.saveContext s.ContextID s.UserDataDir err] }
        else m1).concurrency = m.concurrency) := by
    intro m1 hm1
    have hf := saveSessionContext_frame m1 s o
    split
    · simp only []
      exact ⟨hf.1.trans hm1.1, hf.2.1.trans hm1.2⟩
    · exact hm1
  have h0 : (match m.GetPuppeteerConnection id with
      | some _ =>
        { m with puppeteerConns := gomap.Delete m.puppeteerConns id
                 effects := m.effects ++ [Event.closePuppeteer id] }
      | none => m).sessions = m.sessions ∧
      (match m.GetPuppeteerConnection id with
      | some _ =>
        { m with puppeteerConns := gomap.Delete m.puppeteerConns id
                 effects := m.effects ++ [Event.closePuppeteer id] }
      | none => m).concurrency = m.concurrency := by
    split <;> simp
  have h2 := h1 _ h0
  simp only []
  split
  · exact h2
  · exact h2

theorem GetSession_ok (m : Manager) (id : String) (s : Session) :
    m.GetSession id = .ok s ↔ gomap.Load m.sessions id = some s := by
  unfold Manager.GetSession
  cases h : gomap.Load m.sessions id <;> simp

theorem running_pos (m : Manager) (id : String) (s : Session)
    (hl : gomap.Load m.sessions id = some s) (hr : s.Status = StatusRunning) :
    1 ≤ m.runningCount s.ProjectID := by
  have := running_Delete_lt m.sessions id s.ProjectID s hl rfl hr
  unfold Manager.runningCount
  omega

theorem releaseSlot_spec (m : Manager) (P : String) (hc : SizesOk m.concurrency)
    (h9 : m.availablePermits P ≤ 9) :
    ∃ c1, m.releaseSlot P = some { m with concurrency := c1 } ∧ SizesOk c1 ∧
      ∀ Q, permits c1 Q = if Q = P then m.availablePermits P + 1 else m.availablePermits Q := by
  obtain ⟨c1, h1, h2, h3⟩ := release_spec m.concurrency P hc h9
  exact ⟨c1, by simp [Manager.releaseSlot, h1], h2, h3⟩

/-- Storing a session that is not RUNNING over an entry that is RUNNING lowers the
count of the entry's project and raises no count. -/
theorem running_Store_terminal (l : List (String × Session)) (k : String) (v : Session)
    (hv : v.Status ≠ StatusRunning) (Q : String) :
    running (gomap.Store l k v) Q ≤ running l Q ∧
    (∀ s, gomap.Load l k = some s → s.ProjectID = Q → s.Status = StatusRunning →
      running (gomap.Store l k v) Q + 1 ≤ running l Q) := by
  rw [running_Store]
  have hn : ¬ (v.ProjectID = Q ∧ v.Status = StatusRunning) := fun h => hv h.2
  rw [if_neg hn]
  refine ⟨?_, ?_⟩
  · have := running_Delete_le l k Q; omega
  · intro s hl hp hr
    have := running_Delete_lt l k Q s hl hp hr
    omega

/-- A terminal transition from a state that satisfies the invariant: the new
session index `l1` has one RUNNING session of the project fewer, and the permit
is released without a panic. -/
theorem terminal_Inv (m m2 : Manager) (s : Session)
    (hinv : m.Inv) (hc : m2.concurrency = m.concurrency)
    (hle : ∀ Q, m2.runningCount Q ≤ m.runningCount Q)
    (hlt : m2.runningCount s.ProjectID + 1 ≤ m.runningCount s.ProjectID) :
    ∃ c1, m2.releaseSlot s.ProjectID = some { m2 with concurrency := c1 } ∧
      ({ m2 with concurrency := c1 } : Manager).Inv ∧
      ∀ Q, permits c1 Q
        = if Q = s.ProjectID then m.availablePermits s.ProjectID + 1
          else m.availablePermits Q := by
  obtain ⟨hsz, hq⟩ := hinv
  have hP := hq s.ProjectID
  have hav : ∀ Q, m2.availablePermits Q = m.availablePermits Q := by
    intro Q; simp [Manager.availablePermits, hc]
  have h9 : m2.availablePermits s.ProjectID ≤ 9 := by rw [hav]; omega
  obtain ⟨c1, h1, h2, h3⟩ := releaseSlot_spec m2 s.ProjectID (by rw [hc]; exact hsz) h9
  refine ⟨c1, h1, ⟨h2, ?_⟩, ?_⟩
  · intro Q
    have hQ := hq Q
    have hleQ := hle Q
    simp only [Manager.availablePermits, Manager.runningCount] at *
    rw [h3 Q]
    by_cases h : Q = s.ProjectID
    · subst h; simp only [if_true]; rw [hc]; omega
    · simp only [if_neg h]; rw [hc]; omega
  · intro Q
    rw [h3 Q, hav, hav]

/-- The method `DeleteSession` on a RUNNING session, from a state that satisfies
the invariant. -/
theorem DeleteSession_running (m : Manager) (id : String) (s : Session) (o : TeardownOutcome)
    (hinv : m.Inv) (hl : gomap.Load m.sessions id = some s) (hr : s.Status = StatusRunning) :
    ∃ m1, m.DeleteSession id o = some (m1, none) ∧ m1.Inv ∧
      m1.sessions = gomap.Store m.sessions id { s with Status := StatusCompleted } ∧
      ∀ Q, m1.availablePermits Q
        = if Q = s.ProjectID then m.availablePermits s.ProjectID + 1
          else m.availablePermits Q := by
  have hg : m.GetSession id = .ok s := (GetSession_ok m id s).2 hl
  obtain ⟨hts, htc⟩ := teardown_frame m id s o
  have hterm : ({ s with Status := StatusCompleted } : Session).Status ≠ StatusRunning := by
    simp [StatusCompleted, StatusRunning]
  obtain ⟨c1, h1, h2, h3⟩ := terminal_Inv m
    { m.teardown id s o with
      sessions := gomap.Store (m.teardown id s o).sessions id { s with Status := StatusCompleted } }
    s hinv htc
    (by
      intro Q
      simp only [Manager.runningCount, hts]
      exact (running_Store_terminal m.sessions id _ hterm Q).1)
    (by
      simp only [Manager.runningCount, hts]
      exact (running_Store_terminal m.sessions id _ hterm s.ProjectID).2 s hl rfl hr)
  refine ⟨_, ?_, h2, ?_, h3⟩
  · unfold Manager.DeleteSession
    simp only [hg, hr, bne_self_eq_false, Bool.false_eq_true, if_false]
    rw [h1]
  · simp [hts]

/-- The method `handleTimeout` on a RUNNING session, from a state that satisfies
the invariant. -/
theorem handleTimeout_running (m : Manager) (sess current : Session) (o : TeardownOutcome)
    (hinv : m.Inv) (hl : gomap.Load m.sessions sess.ID = some current)
    (hr : current.Status = StatusRunning) :
    ∃ m1, m.handleTimeout sess o = some m1 ∧ m1.Inv ∧
      m1.sessions = gomap.Store
        (gomap.Store m.sessions sess.ID { current with Status := StatusTimedOut })
        current.ID { current with Status := StatusTimedOut } ∧
      ∀ Q, m1.availablePermits Q
        = if Q = current.ProjectID then m.availablePermits current.ProjectID + 1
          else m.availablePermits Q := by
  have hg : m.GetSession sess.ID = .ok current := (GetSession_ok m sess.ID current).2 hl
  obtain ⟨hts, htc⟩ := teardown_frame m current.ID current o
  have hterm : ({ current with Status := StatusTimedOut } : Session).Status ≠ StatusRunning := by
    simp [StatusTimedOut, StatusRunning]
  obtain ⟨c1, h1, h2, h3⟩ := terminal_Inv m
    { m.teardown current.ID current o with
      sessions := gomap.Store
        (gomap.Store (m.teardown current.ID current o).sessions sess.ID
          { current with Status := StatusTimedOut })
        current.ID { current with Status := StatusTimedOut } }
    current hinv htc
    (by
      intro Q
      simp only [Manager.runningCount, hts]
      have a := (running_Store_terminal
        (gomap.Store m.sessions sess.ID { current with Status := StatusTimedOut })
        current.ID _ hterm Q).1
      have b := (running_Store_terminal m.sessions sess.ID _ hterm Q).1
      omega)
    (by
      simp only [Manager.runningCount, hts]
      have a := (running_Store_terminal
        (gomap.Store m.sessions sess.ID { current with Status := StatusTimedOut })
        current.ID _ hterm current.ProjectID).1
      have b := (running_Store_terminal m.sessions sess.ID _ hterm current.ProjectID).2
        current hl rfl hr
      omega)
  refine ⟨_, ?_, h2, ?_, h3⟩
  · unfold Manager.handleTimeout
    simp only [hg, hr, bne_self_eq_false, Bool.false_eq_true, if_false]
    rw [h1]
  · simp [hts]

/-- The method `DeleteSession` on a session that is missing or not RUNNING: the
manager is returned as it was, with an error. -/
theorem DeleteSession_not_running (m : Manager) (id : String) (o : TeardownOutcome)
    (h : ∀ s, gomap.Load m.sessions id = some s → s.Status ≠ StatusRunning) :
    ∃ e, m.DeleteSession id o = some (m, some e) := by
  unfold Manager.DeleteSession Manager.GetSession
  cases hl : gomap.Load m.sessions id with
  | none => exact ⟨_, rfl⟩
  | some s =>
    have hs := h s hl
    have hb : (s.Status != StatusRunning) = true := by simpa using hs
    simp only [hb, if_true]
    exact ⟨_, rfl⟩

/-- The method `handleTimeout` on a session that is missing or not RUNNING: the
manager is returned as it was. -/
theorem handleTimeout_not_running (m : Manager) (sess : Session) (o : TeardownOutcome)
    (h : ∀ s, gomap.Load m.sessions sess.ID = some s → s.Status ≠ StatusRunning) :
    m.handleTimeout sess o = some m := by
  unfold Manager.handleTimeout Manager.GetSession
  cases hl : gomap.Load m.sessions sess.ID with
  | none => rfl
  | some s =>
    have hs := h s hl
    have hb : (s.Status != StatusRunning) = true := by simpa using hs
    simp only [hb, if_true]

/-- Admission on the manager: either a permit was available and exactly one is
taken from the project, or none was and the manager is returned as it was. -/
theorem acquireSlot_cases (m : Manager) (P : String) :
    (1 ≤ m.availablePermits P ∧ ∃ c1, m.acquireSlot P = ({ m with concurrency := c1 }, none) ∧
      (∀ Q, permits c1 Q = if Q = P then m.availablePermits P - 1 else m.availablePermits Q) ∧
      (SizesOk m.concurrency → SizesOk c1)) ∨
    (m.availablePermits P < 1 ∧
      m.acquireSlot P = (m, some ("concurrency limit reached for project " ++ P))) := by
  rcases acquire_cases m.concurrency P with ⟨h1, h2, h3, h4⟩ | ⟨h1, h2⟩
  · left
    refine ⟨h1, (acquireSlot.onMap m.concurrency P).1, ?_, h3, h4⟩
    simp [Manager.acquireSlot, h2]
  · right
    refine ⟨h1, ?_⟩
    simp [Manager.acquireSlot, h2]

/-- What `validate` returns on success. -/
theorem validate_ok (req0 req : CreateSessionRequest) (h : CreateSession.validate req0 = .ok req) :
    req0.ProjectID ≠ "" ∧ req.ProjectID = req0.ProjectID ∧ req.ContextID = req0.ContextID ∧
    req.Timeout = (if req0.Timeout = 0 then 3600 else req0.Timeout) ∧
    req.Region = (if req0.Region = "" then "us-west-2" else req0.Region) ∧
    60 ≤ req.Timeout ∧ req.Timeout ≤ 21600 := by
  unfold CreateSession.validate at h
  by_cases hp : req0.ProjectID = ""
  · simp [hp] at h
  · have hpb : (req0.ProjectID == "") = false := by simpa using hp
    simp only [hpb, Bool.false_eq_true, if_false] at h
    by_cases ht : req0.Timeout = 0
    · have htb : (req0.Timeout == 0) = true := by simp [ht]
      simp only [htb, if_true] at h
      by_cases hr : req0.Region = ""
      · simp [hr] at h
        subst h; simp [ht, hr, hp]
      · simp [hr] at h
        subst h; simp [ht, hr, hp]
    · have htb : (req0.Timeout == 0) = false := by simpa using ht
      simp only [htb, Bool.false_eq_true, if_false] at h
      by_cases hb : req0.Timeout < 60 ∨ req0.Timeout > 21600
      · have : (decide (req0.Timeout < 60) || decide (req0.Timeout > 21600)) = true := by
          simpa using hb
        simp [this] at h
      · have : (decide (req0.Timeout < 60) || decide (req0.Timeout > 21600)) = false := by
          rw [Bool.eq_false_iff]; intro hh; apply hb; simpa using hh
        simp only [this, Bool.false_eq_true, if_false] at h
        by_cases hr : req0.Region = ""
        · simp [hr] at h
          subst h; simp [ht, hr, hp]; omega
        · simp [hr] at h
          subst h; simp [ht, hr, hp]; omega

theorem startPuppeteerConnection_frame (m : Manager) (s : Session) (e : GoError) :
    (m.startPuppeteerConnection s e).1.sessions = m.sessions ∧
    (m.startPuppeteerConnection s e).1.concurrency = m.concurrency := by
  unfold Manager.startPuppeteerConnection
  cases e <;> simp

/-- The admitted part of `CreateSession`, from a state that satisfies the
invariant: it does not panic, it keeps the invariant, an error leaves the session
index and every project's permits as they were, and a success stores one RUNNING
session and takes one permit of the project. -/
theorem admit_spec (m : Manager) (req : CreateSessionRequest) (o : CreateOutcome)
    (hinv : m.Inv) :
    ∃ m1 r, CreateSession.admit m req o = some (m1, r) ∧ m1.Inv ∧
      match r with
      | .error _ =>
        m1.sessions = m.sessions ∧ ∀ Q, m1.availablePermits Q = m.availablePermits Q
      | .ok s =>
        m1.sessions = gomap.Store m.sessions s.ID s ∧ s.Status = StatusRunning ∧
        s.ProjectID = req.ProjectID ∧ 1 ≤ m.availablePermits req.ProjectID ∧
        ∀ Q, m1.availablePermits Q
          = if Q = req.ProjectID then m.availablePermits Q - 1 else m.availablePermits Q := by
  obtain ⟨hsz, hq⟩ := hinv
  unfold CreateSession.admit
  rcases acquireSlot_cases m req.ProjectID with ⟨h1, c1, hacq, hperm, hsizes⟩ | ⟨h1, hacq⟩
  · rw [hacq]
    simp only []
    have hsz1 := hsizes hsz
    have hback : ∀ (m2 : Manager), m2.concurrency = c1 → m2.sessions = m.sessions →
        ∃ c2, m2.releaseSlot req.ProjectID = some { m2 with concurrency := c2 } ∧
          ({ m2 with concurrency := c2 } : Manager).Inv ∧
          ∀ Q, ({ m2 with concurrency := c2 } : Manager).availablePermits Q
            = m.availablePermits Q := by
      intro m2 hc2 hs2
      have h9 : m2.availablePermits req.ProjectID ≤ 9 := by
        have := (hq req.ProjectID).2
        simp only [Manager.availablePermits, hc2] at this ⊢
        rw [hperm]; simp only [if_true, Manager.availablePermits]; omega
      obtain ⟨c2, hrel, hsz2, hperm2⟩ := releaseSlot_spec m2 req.ProjectID
        (by rw [hc2]; exact hsz1) h9
      have hav : ∀ Q, permits c2 Q = m.availablePermits Q := by
        intro Q
        rw [hperm2]
        simp only [Manager.availablePermits, hc2]
        rw [hperm, hperm]
        by_cases h : Q = req.ProjectID
        · subst h; simp [Manager.availablePermits]
        · simp [h, Manager.availablePermits]
      refine ⟨c2, hrel, ⟨hsz2, ?_⟩, hav⟩
      intro Q
      have := hq Q
      simp only [Manager.availablePermits, Manager.runningCount, hs2] at this ⊢
      rw [hav Q]
      simpa [Manager.availablePermits] using this
    cases hprep : CreateSession.prepare m.contextMgr req o with
    | error e =>
      simp only []
      obtain ⟨c2, hrel, hinv2, hav⟩ := hback { m with concurrency := c1 } rfl rfl
      rw [hrel]
      exact ⟨_, _, rfl, hinv2, rfl, hav⟩
    | ok userDataDir =>
      simp only []
      cases hlaunch : CreateSession.launch m.regionMgr
          (m.regionMgr.RouteSession req.Region) o.sessionID userDataDir o.launch with
      | error e =>
        simp only []
        obtain ⟨c2, hrel, hinv2, hav⟩ := hback
          { m with concurrency := c1
                   effects := m.effects ++ [Event.launchBrowser
                     (m.regionMgr.RouteSession req.Region) o.sessionID userDataDir] } rfl rfl
        rw [hrel]
        exact ⟨_, _, rfl, hinv2, rfl, hav⟩
      | ok inst =>
        simp only []
        obtain ⟨hfs, hfc⟩ := startPuppeteerConnection_frame
          { m with
            sessions := gomap.Store m.sessions
              (CreateSession.record req o.sessionID o.now
                (m.regionMgr.RouteSession req.Region) inst).ID
              (CreateSession.record req o.sessionID o.now
                (m.regionMgr.RouteSession req.Region) inst)
            concurrency := c1
            effects := m.effects ++ [Event.launchBrowser
              (m.regionMgr.RouteSession req.Region) o.sessionID userDataDir] }
          (CreateSession.record req o.sessionID o.now (m.regionMgr.RouteSession req.Region) inst)
          o.puppeteerErr
        simp only [] at hfs hfc
        have hav : ∀ Q, permits c1 Q
            = if Q = req.ProjectID then m.availablePermits Q - 1 else m.availablePermits Q := by
          intro Q
          rw [hperm]
          by_cases h : Q = req.ProjectID
          · subst h; simp
          · simp [h]
        refine ⟨_, _, rfl, ⟨?_, ?_⟩, ?_⟩
        · rw [hfc]; exact hsz1
        · intro Q
          have hQ := hq Q
          have hd := running_Delete_le m.sessions o.sessionID Q
          simp only [Manager.availablePermits, Manager.runningCount, hfs, hfc] at hQ h1 ⊢
          rw [running_Store, hav Q]
          simp only [CreateSession.record, Manager.availablePermits]
          by_cases h : Q = req.ProjectID
          · subst h; simp only [if_true]
            split <;> omega
          · rw [if_neg h]
            split
            · rename_i hh; exact absurd hh.1.symm h
            · omega
        · refine ⟨hfs, rfl, rfl, h1, ?_⟩
          intro Q
          simp only [Manager.availablePermits, hfc]
          exact hav Q
  · rw [hacq]
    exact ⟨m, _, rfl, ⟨hsz, hq⟩, by simp⟩

/-- The method `CreateSession`, from a state that satisfies the invariant. -/
theorem CreateSession_spec (m : Manager) (req : CreateSessionRequest) (o : CreateOutcome)
    (hinv : m.Inv) :
    ∃ m1 r, m.CreateSession req o = some (m1, r) ∧ m1.Inv ∧
      match r with
      | .error _ =>
        m1.sessions = m.sessions ∧ ∀ Q, m1.availablePermits Q = m.availablePermits Q
      | .ok s =>
        m1.sessions = gomap.Store m.sessions s.ID s ∧ s.Status = StatusRunning ∧
        s.ProjectID = req.ProjectID ∧ 1 ≤ m.availablePermits req.ProjectID ∧
        ∀ Q, m1.availablePermits Q
          = if Q = req.ProjectID then m.availablePermits Q - 1 else m.availablePermits Q := by
  unfold Manager.CreateSession
  cases hv : CreateSession.validate req with
  | error e => exact ⟨m, _, rfl, hinv, rfl, fun _ => rfl⟩
  | ok req1 =>
    have hp := (validate_ok req req1 hv).2.1
    simp only []
    rw [← hp]
    exact admit_spec m req1 o hinv

theorem NewManager_Inv (regionMgr : region.Manager) (ctxMgr : ctxmgr.Manager) :
    (NewManager regionMgr ctxMgr).Inv := by
  refine ⟨?_, ?_⟩
  · intro Q sem h
    simp [NewManager, gomap.Load] at h
  · intro Q
    simp [NewManager, Manager.availablePermits, Manager.runningCount, permits, running,
      gomap.Load]

/-- No call panics from a state that satisfies the invariant, and the invariant
is kept. -/
theorem step_Inv (m : Manager) (op : Op) (hinv : m.Inv) :
    ∃ m1, m.step op = some m1 ∧ m1.Inv := by
  cases op with
  | create req o =>
    obtain ⟨m1, r, h, hi, _⟩ := CreateSession_spec m req o hinv
    exact ⟨m1, by simp [Manager.step, h], hi⟩
  | delete id o =>
    by_cases hr : ∃ s, gomap.Load m.sessions id = some s ∧ s.Status = StatusRunning
    · obtain ⟨s, hl, hs⟩ := hr
      obtain ⟨m1, h, hi, _⟩ := DeleteSession_running m id s o hinv hl hs
      exact ⟨m1, by simp [Manager.step, h], hi⟩
    · obtain ⟨e, h⟩ := DeleteSession_not_running m id o
        (fun s hl hs => hr ⟨s, hl, hs⟩)
      exact ⟨m, by simp [Manager.step, h], hinv⟩
  | timeout sess o =>
    by_cases hr : ∃ s, gomap.Load m.sessions sess.ID = some s ∧ s.Status = StatusRunning
    · obtain ⟨s, hl, hs⟩ := hr
      obtain ⟨m1, h, hi, _⟩ := handleTimeout_running m sess s o hinv hl hs
      exact ⟨m1, by simp [Manager.step, h], hi⟩
    · have h := handleTimeout_not_running m sess o (fun s hl hs => hr ⟨s, hl, hs⟩)
      exact ⟨m, by simp [Manager.step, h], hinv⟩

theorem run_Inv (ops : List Op) : ∀ (m : Manager), m.Inv →
    ∃ m1, m.run ops = some m1 ∧ m1.Inv := by
  induction ops with
  | nil => intro m hinv; exact ⟨m, rfl, hinv⟩
  | cons op rest ih =>
    intro m hinv
    obtain ⟨m1, h1, hi1⟩ := step_Inv m op hinv
    obtain ⟨m2, h2, hi2⟩ := ih m1 hi1
    exact ⟨m2, by simp [Manager.run, h1, h2], hi2⟩

/-- Every state reached from the empty manager satisfies the invariant. -/
theorem reachable_Inv (regionMgr : region.Manager) (ctxMgr : ctxmgr.Manager) (ops : List Op)
    (m : Manager) (h : (NewManager regionMgr ctxMgr).run ops = some m) : m.Inv := by
  obtain ⟨m1, h1, hi1⟩ := run_Inv ops _ (NewManager_Inv regionMgr ctxMgr)
  rw [h1] at h
  cases h
  exact hi1

/-- Two concatenations whose left parts differ within their first `n` characters
are different strings. -/
theorem append_ne_append (a b c d : String) (n : Nat) (ha : n ≤ a.data.length)
    (hc : n ≤ c.data.length) (h : a.data.take n ≠ c.data.take n) : a ++ b ≠ c ++ d := by
  intro e
  have e1 : (a ++ b).data = (c ++ d).data := by rw [e]
  rw [String.data_append, String.data_append] at e1
  have e2 := congrArg (List.take n) e1
  rw [List.take_append_of_le_length ha, List.take_append_of_le_length hc] at e2
  exact h e2

theorem append_ne_literal (a b t : String) (n : Nat) (ha : n ≤ a.data.length)
    (ht : n ≤ t.data.length) (h : a.data.take n ≠ t.data.take n) : a ++ b ≠ t := by
  have := append_ne_append a b t "" n ha ht h
  simpa using this


/-- The errors that the admitted part of `CreateSession` can return. -/
theorem admit_error_form (m : Manager) (req : CreateSessionRequest) (o : CreateOutcome)
    (m1 : Manager) (e : String) (h : CreateSession.admit m req o = some (m1, .error e)) :
    (m.availablePermits req.ProjectID < 1 ∧
      e = "concurrency limit reached for project " ++ req.ProjectID) ∨
    (∃ x, e = "context not found: " ++ x) ∨
    (∃ x, e = "failed to create context directory: " ++ x) ∨
    (∃ x, e = "failed to launch browser: " ++ x) := by
  unfold CreateSession.admit at h
  rcases acquireSlot_cases m req.ProjectID with ⟨h1, c1, hacq, -, -⟩ | ⟨h1, hacq⟩
  · rw [hacq] at h
    simp only [] at h
    cases hprep : CreateSession.prepare m.contextMgr req o with
    | error e1 =>
      rw [hprep] at h
      simp only [Option.map_eq_some'] at h
      obtain ⟨m2, -, h2⟩ := h
      have he : e1 = e := by simpa using (congrArg Prod.snd h2)
      subst he
      unfold CreateSession.prepare at hprep
      split at hprep
      · split at hprep
        · right; left
          exact ⟨_, (Except.error.inj hprep).symm⟩
        · split at hprep
          · cases hprep
          · split at hprep
            · right; right; left
              exact ⟨_, (Except.error.inj hprep).symm⟩
            · cases hprep
      · cases hprep
    | ok userDataDir =>
      rw [hprep] at h
      simp only [] at h
      cases hlaunch : CreateSession.launch m.regionMgr
          (m.regionMgr.RouteSession req.Region) o.sessionID userDataDir o.launch with
      | error e1 =>
        rw [hlaunch] at h
        simp only [Option.map_eq_some'] at h
        obtain ⟨m2, -, h2⟩ := h
        right; right; right
        refine ⟨e1, ?_⟩
        simpa using (congrArg Prod.snd h2).symm
      | ok inst =>
        rw [hlaunch] at h
        simp at h
  · rw [hacq] at h
    left
    refine ⟨h1, ?_⟩
    simpa using (congrArg Prod.snd (Option.some.inj h)).symm

/-- A valid request passes validation and keeps its project id. -/
theorem validate_valid (req : CreateSessionRequest) (hne : req.ProjectID ≠ "")
    (ht : req.Timeout = 0 ∨ (60 ≤ req.Timeout ∧ req.Timeout ≤ 21600)) :
    ∃ req1, CreateSession.validate req = .ok req1 ∧ req1.ProjectID = req.ProjectID := by
  unfold CreateSession.validate
  have hpb : (req.ProjectID == "") = false := by simpa using hne
  simp only [hpb, Bool.false_eq_true, if_false]
  rcases ht with ht | ht
  · have htb : (req.Timeout == 0) = true := by simp [ht]
    simp only [htb, if_true]
    by_cases hr : req.Region = "" <;> simp [hr]
  · have htb : (req.Timeout == 0) = false := by
      have : req.Timeout ≠ 0 := by omega
      simpa using this
    have hb : (decide (req.Timeout < 60) || decide (req.Timeout > 21600)) = false := by
      rw [Bool.eq_false_iff]; intro hh
      have : req.Timeout < 60 ∨ req.Timeout > 21600 := by simpa using hh
      omega
    simp only [htb, Bool.false_eq_true, if_false, hb]
    by_cases hr : req.Region = "" <;> simp [hr]

/-- Once the session stored under `id` is not RUNNING, calls that act on `id`
leave the whole manager as it is. -/
theorem run_frozen (id : String) (ops : List Op) : ∀ (m : Manager),
    (∀ s, gomap.Load m.sessions id = some s → s.Status ≠ StatusRunning) →
    (∀ op ∈ ops, op.target = some id) → m.run ops = some m := by
  induction ops with
  | nil => intro m _ _; rfl
  | cons op rest ih =>
    intro m hs hon
    have hop := hon op (List.mem_cons_self _ _)
    have hstep : m.step op = some m := by
      cases op with
      | create req o => simp [Op.target] at hop
      | delete id1 o =>
        have : id1 = id := by simpa [Op.target] using hop
        subst this
        obtain ⟨e, h⟩ := DeleteSession_not_running m id1 o hs
        simp [Manager.step, h]
      | timeout sess o =>
        have : sess.ID = id := by simpa [Op.target] using hop
        subst this
        simp [Manager.step, handleTimeout_not_running m sess o hs]
    simp only [Manager.run, hstep]
    exact ih m hs (fun op1 h1 => hon op1 (List.mem_cons_of_mem _ h1))

theorem releaseSlot_sessions (m m1 : Manager) (P : String) (h : m.releaseSlot P = some m1) :
    m1.sessions = m.sessions := by
  unfold Manager.releaseSlot at h
  simp only [Option.map_eq_some'] at h
  obtain ⟨c, -, hc⟩ := h
  rw [← hc]

/-- A `DeleteSession` that returns no error found the session RUNNING and stored
it as COMPLETED. -/
theorem DeleteSession_ok_form (m m1 : Manager) (id : String) (o : TeardownOutcome)
    (h : m.DeleteSession id o = some (m1, none)) :
    ∃ s, gomap.Load m.sessions id = some s ∧ s.Status = StatusRunning ∧
      m1.sessions = gomap.Store m.sessions id { s with Status := StatusCompleted } := by
  unfold Manager.DeleteSession Manager.GetSession at h
  cases hl : gomap.Load m.sessions id with
  | none => rw [hl] at h; simp at h
  | some s =>
    rw [hl] at h
    simp only [] at h
    by_cases hr : s.Status = StatusRunning
    · have hb : (s.Status != StatusRunning) = false := by simp [hr]
      simp only [hb, Bool.false_eq_true, if_false] at h
      refine ⟨s, rfl, hr, ?_⟩
      split at h
      · cases h
      · rename_i m3 hrel
        have h3 := releaseSlot_sessions _ _ _ hrel
        have : m3 = m1 := by simpa using congrArg Prod.fst (Option.some.inj h)
        subst this
        rw [h3]
        simp only []
        rw [(teardown_frame m id s o).1]
    · have hb : (s.Status != StatusRunning) = true := by simpa using hr
      simp [hb] at h

/-- The admitted part of `CreateSession` when a permit is available, the context
branch yields a user data dir and the launch succeeds. -/
theorem admit_success (m : Manager) (req : CreateSessionRequest) (o : CreateOutcome)
    (userDataDir : String) (inst : browser.BrowserInstance)
    (hadm : 1 ≤ m.availablePermits req.ProjectID)
    (hprep : CreateSession.prepare m.contextMgr req o = .ok userDataDir)
    (hlaunch : CreateSession.launch m.regionMgr (m.regionMgr.RouteSession req.Region)
      o.sessionID userDataDir o.launch = .ok inst) :
    ∃ m1, CreateSession.admit m req o
        = some (m1, .ok (CreateSession.record req o.sessionID o.now
            (m.regionMgr.RouteSession req.Region) inst)) ∧
      m1.sessions = gomap.Store m.sessions o.sessionID
        (CreateSession.record req o.sessionID o.now
          (m.regionMgr.RouteSession req.Region) inst) := by
  unfold CreateSession.admit
  rcases acquireSlot_cases m req.ProjectID with ⟨-, c1, hacq, -, -⟩ | ⟨hlt, -⟩
  · rw [hacq]
    simp only [hprep, hlaunch]
    refine ⟨_, rfl, ?_⟩
    rw [(startPuppeteerConnection_frame _ _ _).1]
    rfl
  · omega

/-- A session returned by the admitted part of `CreateSession` is the record
built from the request, the fresh id, the clock and a launched instance. -/
theorem admit_ok_form (m : Manager) (req : CreateSessionRequest) (o : CreateOutcome)
    (m1 : Manager) (s : Session) (h : CreateSession.admit m req o = some (m1, .ok s)) :
    ∃ inst, s = CreateSession.record req o.sessionID o.now
      (m.regionMgr.RouteSession req.Region) inst := by
  unfold CreateSession.admit at h
  rcases acquireSlot_cases m req.ProjectID with ⟨-, c1, hacq, -, -⟩ | ⟨-, hacq⟩
  · rw [hacq] at h
    simp only [] at h
    cases hprep : CreateSession.prepare m.contextMgr req o with
    | error e1 =>
      rw [hprep] at h
      simp only [Option.map_eq_some'] at h
      obtain ⟨m2, -, h2⟩ := h
      simp at h2
    | ok userDataDir =>
      rw [hprep] at h
      simp only [] at h
      cases hlaunch : CreateSession.launch m.regionMgr
          (m.regionMgr.RouteSession req.Region) o.sessionID userDataDir o.launch with
      | error e1 =>
        rw [hlaunch] at h
        simp only [Option.map_eq_some'] at h
        obtain ⟨m2, -, h2⟩ := h
        simp at h2
      | ok inst =>
        rw [hlaunch] at h
        simp only [Option.some.injEq, Prod.mk.injEq, Except.ok.injEq] at h
        exact ⟨inst, h.2.symm⟩
  · rw [hacq] at h
    simp at h

theorem secondsDuration_exact (n : Int) (h1 : 60 ≤ n) (h2 : n ≤ 21600) :
    time.secondsDuration n = n * 1000000000 := by
  have hw : ∀ x : Int, -9223372036854775808 ≤ x → x < 9223372036854775808 →
      wrapInt64 x = x := by
    intro x hx1 hx2
    unfold wrapInt64
    omega
  unfold time.secondsDuration time.Second
  rw [hw n (by omega) (by omega), hw (n * 1000000000) (by omega) (by omega)]

theorem RouteSession_default (mgr : region.Manager) :
    mgr.RouteSession "us-west-2" = "us-west-2" := by
  unfold region.Manager.RouteSession
  cases gomap.Load mgr.pools "us-west-2" <;> rfl

/-- The message of the timeout validation. -/
theorem validate_timeout_error (req : CreateSessionRequest) (hne : req.ProjectID ≠ "")
    (h0 : req.Timeout ≠ 0) (hout : req.Timeout < 60 ∨ 21600 < req.Timeout) :
    CreateSession.validate req = .error "timeout must be between 60 and 21600 seconds" := by
  unfold CreateSession.validate
  have hpb : (req.ProjectID == "") = false := by simpa using hne
  have htb : (req.Timeout == 0) = false := by simpa using h0
  have hb : (decide (req.Timeout < 60) || decide (req.Timeout > 21600)) = true := by
    simpa using hout
  simp only [hpb, Bool.false_eq_true, if_false, htb, hb, if_true]

/-! ## The claims -/

/-- When no two calls overlap: in every state reached from the empty manager by a
sequence of complete calls of `CreateSession`, `DeleteSession` and the timeout
handler, every project has at most 10 stored sessions with status RUNNING. -/
theorem sequential_running_at_most_ten (regionMgr : region.Manager)
    (ctxMgr : ctxmgr.Manager) (ops : List Op) :
    ∃ m, (NewManager regionMgr ctxMgr).run ops = some m ∧
      ∀ P, m.runningCount P ≤ 10 := by
  obtain ⟨m, hm, hsz, hq⟩ := run_Inv ops _ (NewManager_Inv regionMgr ctxMgr)
  refine ⟨m, hm, fun P => ?_⟩
  have := hq P
  omega

/-- C2. In a reachable state in which project `P` has ten RUNNING sessions, a
`CreateSession` for `P` with a valid request returns the concurrency error and
leaves the manager as it was (no browser is launched, no permit is taken); and
after `DeleteSession` or the timeout handler has terminated any one of those
sessions, `acquireSlot` for `P` succeeds and `CreateSession` with that request no
longer returns the concurrency error. -/
theorem C2_eleventh_create_is_rejected (regionMgr : region.Manager) (ctxMgr : ctxmgr.Manager)
    (ops : List Op) (m : Manager) (P : String) (req : CreateSessionRequest)
    (hreach : (NewManager regionMgr ctxMgr).run ops = some m)
    (hten : m.runningCount P = 10)
    (hP : req.ProjectID = P) (hne : P ≠ "")
    (ht : req.Timeout = 0 ∨ (60 ≤ req.Timeout ∧ req.Timeout ≤ 21600)) :
    (∀ o, m.CreateSession req o
      = some (m, .error ("concurrency limit reached for project " ++ P))) ∧
    (∀ id s, gomap.Load m.sessions id = some s → s.ProjectID = P →
      s.Status = StatusRunning →
      (∀ o, ∃ m1, m.DeleteSession id o = some (m1, none) ∧ (m1.acquireSlot P).2 = none ∧
        ∀ o1 m2 e, m1.CreateSession req o1 = some (m2, .error e) →
          e ≠ "concurrency limit reached for project " ++ P) ∧
      (∀ sess o, sess.ID = id →
        ∃ m1, m.handleTimeout sess o = some m1 ∧ (m1.acquireSlot P).2 = none ∧
          ∀ o1 m2 e, m1.CreateSession req o1 = some (m2, .error e) →
            e ≠ "concurrency limit reached for project " ++ P)) := by
  have hinv := reachable_Inv regionMgr ctxMgr ops m hreach
  obtain ⟨req1, hv, hp1⟩ := validate_valid req (by rw [hP]; exact hne) ht
  have hPq := hinv.2 P
  have hav0 : m.availablePermits P = 0 := by rw [hten] at hPq; omega
  -- after a terminal transition one permit is available
  have hafter : ∀ m1 : Manager, m1.availablePermits P = 1 →
      (m1.acquireSlot P).2 = none ∧
      ∀ o1 m2 e, m1.CreateSession req o1 = some (m2, .error e) →
        e ≠ "concurrency limit reached for project " ++ P := by
    intro m1 h1
    refine ⟨?_, ?_⟩
    · rcases acquireSlot_cases m1 P with ⟨-, c1, hacq, -, -⟩ | ⟨hlt, -⟩
      · rw [hacq]
      · omega
    · intro o1 m2 e hc
      unfold Manager.CreateSession at hc
      rw [hv] at hc
      simp only [] at hc
      rcases admit_error_form m1 req1 o1 m2 e hc with ⟨hlt, -⟩ | ⟨x, hx⟩ | ⟨x, hx⟩ | ⟨x, hx⟩
      · rw [hp1, hP] at hlt; omega
      · rw [hx]; exact append_ne_append _ _ _ _ 4 (by decide) (by decide) (by decide)
      · rw [hx]; exact append_ne_append _ _ _ _ 1 (by decide) (by decide) (by decide)
      · rw [hx]; exact append_ne_append _ _ _ _ 1 (by decide) (by decide) (by decide)
  refine ⟨?_, ?_⟩
  · intro o
    unfold Manager.CreateSession
    rw [hv]
    simp only []
    unfold CreateSession.admit
    rcases acquireSlot_cases m req1.ProjectID with ⟨h1, -⟩ | ⟨-, hacq⟩
    · rw [hp1, hP] at h1; omega
    · rw [hacq, hp1, hP]
  · intro id s hl hsP hsR
    refine ⟨?_, ?_⟩
    · intro o
      obtain ⟨m1, hd, -, -, hperm⟩ := DeleteSession_running m id s o hinv hl hsR
      refine ⟨m1, hd, hafter m1 ?_⟩
      rw [hperm P, hsP]; simp [hav0]
    · intro sess o hid
      subst hid
      obtain ⟨m1, hd, -, -, hperm⟩ := handleTimeout_running m sess s o hinv hl hsR
      refine ⟨m1, hd, hafter m1 ?_⟩
      rw [hperm P, hsP]; simp [hav0]

theorem C2_witness :
    ∃ m, demo.empty.run demo.tenCreates = some m ∧ m.runningCount "P" = 10 ∧
      (∀ o, m.CreateSession (demo.request "P") o
        = some (m, .error ("concurrency limit reached for project " ++ "P"))) :=
  ⟨_, rfl, by decide,
    (C2_eleventh_create_is_rejected demo.regionMgr demo.ctxMgr demo.tenCreates _ "P"
      (demo.request "P") rfl (by decide) rfl (by decide) (Or.inl rfl)).1⟩

/-- C3. For a RUNNING session of a reachable state, `DeleteSession` (to
COMPLETED) and the timeout handler (to TIMED_OUT) do not panic, store the terminal
status, raise the available permits of the session's project by exactly one and
leave the available permits of every other project as they were. -/
theorem C3_terminal_transition_releases_one_permit (regionMgr : region.Manager)
    (ctxMgr : ctxmgr.Manager) (ops : List Op) (m : Manager) (id : String) (s : Session)
    (hreach : (NewManager regionMgr ctxMgr).run ops = some m)
    (hl : m.GetSession id = .ok s) (hr : s.Status = StatusRunning) :
    (∀ o, ∃ m1, m.DeleteSession id o = some (m1, none) ∧
      m1.GetSession id = .ok { s with Status := StatusCompleted } ∧
      m1.availablePermits s.ProjectID = m.availablePermits s.ProjectID + 1 ∧
      ∀ Q, Q ≠ s.ProjectID → m1.availablePermits Q = m.availablePermits Q) ∧
    (∀ sess o, sess.ID = id → ∃ m1, m.handleTimeout sess o = some m1 ∧
      m1.GetSession id = .ok { s with Status := StatusTimedOut } ∧
      m1.availablePermits s.ProjectID = m.availablePermits s.ProjectID + 1 ∧
      ∀ Q, Q ≠ s.ProjectID → m1.availablePermits Q = m.availablePermits Q) := by
  have hinv := reachable_Inv regionMgr ctxMgr ops m hreach
  have hl1 := (GetSession_ok m id s).1 hl
  refine ⟨?_, ?_⟩
  · intro o
    obtain ⟨m1, hd, -, hs, hperm⟩ := DeleteSession_running m id s o hinv hl1 hr
    refine ⟨m1, hd, ?_, ?_, ?_⟩
    · rw [GetSession_ok, hs, gomap.Load_Store]; simp
    · rw [hperm]; simp
    · intro Q hQ; rw [hperm]; simp [hQ]
  · intro sess o hid
    subst hid
    obtain ⟨m1, hd, -, hs, hperm⟩ := handleTimeout_running m sess s o hinv hl1 hr
    refine ⟨m1, hd, ?_, ?_, ?_⟩
    · rw [GetSession_ok, hs, gomap.Load_Store, gomap.Load_Store]; simp
    · rw [hperm]; simp
    · intro Q hQ; rw [hperm]; simp [hQ]

theorem C3_witness :
    ∃ m s, demo.empty.run [Op.create (demo.request "P") (demo.createOk "s0")] = some m ∧
      m.GetSession "s0" = .ok s ∧ s.Status = StatusRunning ∧
      ∃ m1, m.DeleteSession "s0" demo.teardownOk = some (m1, none) ∧
        m1.availablePermits s.ProjectID = m.availablePermits s.ProjectID + 1 :=
  ⟨_, _, rfl, rfl, rfl,
    (((C3_terminal_transition_releases_one_permit demo.regionMgr demo.ctxMgr
      [Op.create (demo.request "P") (demo.createOk "s0")] _ "s0" _ rfl rfl rfl).1
        demo.teardownOk).imp fun _ h => ⟨h.1, h.2.2.1⟩)⟩

/-- C4. From a reachable state `CreateSession` always returns (it does not
panic), and whenever it returns an error, whatever the cause, the session index
is the one before the call and every project has as many available permits as
before the call. -/
theorem C4_failed_create_consumes_no_permit (regionMgr : region.Manager)
    (ctxMgr : ctxmgr.Manager) (ops : List Op) (m : Manager)
    (hreach : (NewManager regionMgr ctxMgr).run ops = some m)
    (req : CreateSessionRequest) (o : CreateOutcome) :
    (∃ m1 r, m.CreateSession req o = some (m1, r)) ∧
    ∀ m1 e, m.CreateSession req o = some (m1, .error e) →
      m1.sessions = m.sessions ∧ ∀ Q, m1.availablePermits Q = m.availablePermits Q := by
  have hinv := reachable_Inv regionMgr ctxMgr ops m hreach
  obtain ⟨m1, r, h, -, hr⟩ := CreateSession_spec m req o hinv
  refine ⟨⟨m1, r, h⟩, ?_⟩
  intro m2 e h2
  rw [h] at h2
  obtain ⟨rfl, rfl⟩ := Prod.mk.inj (Option.some.inj h2)
  exact hr

theorem C4_witness :
    ∃ m m1 e, demo.empty.run [Op.create (demo.request "P") (demo.createOk "s0")] = some m ∧
      m.CreateSession (demo.request "P") (demo.createLaunchFails "s1") = some (m1, .error e) ∧
      m1.sessions = m.sessions ∧ ∀ Q, m1.availablePermits Q = m.availablePermits Q :=
  ⟨_, _, _, rfl, rfl,
    (C4_failed_create_consumes_no_permit demo.regionMgr demo.ctxMgr
      [Op.create (demo.request "P") (demo.createOk "s0")] _ rfl
      (demo.request "P") (demo.createLaunchFails "s1")).2 _ _ rfl⟩

/-- C5. When the session stored under `id` is not RUNNING, `DeleteSession`
returns the error `session is not running` and returns the manager as it was
(statuses, sidecar index, semaphores and effects included); and the manager left
by a `DeleteSession` of `id` that returned no error answers a further
`DeleteSession` of `id` with that error. -/
theorem C5_delete_of_terminated_session (m : Manager) (id : String) (o : TeardownOutcome) :
    (∀ s, m.GetSession id = .ok s → s.Status ≠ StatusRunning →
      m.DeleteSession id o = some (m, some "session is not running")) ∧
    (∀ (m0 : Manager) (o0 : TeardownOutcome), m0.DeleteSession id o0 = some (m, none) →
      m.DeleteSession id o = some (m, some "session is not running")) := by
  have h1 : ∀ s, m.GetSession id = .ok s → s.Status ≠ StatusRunning →
      m.DeleteSession id o = some (m, some "session is not running") := by
    intro s hl hs
    unfold Manager.DeleteSession
    rw [hl]
    have hb : (s.Status != StatusRunning) = true := by simpa using hs
    simp only [hb, if_true]
  refine ⟨h1, ?_⟩
  intro m0 o0 h0
  obtain ⟨s, -, -, hs⟩ := DeleteSession_ok_form m0 m id o0 h0
  refine h1 { s with Status := StatusCompleted } ?_ (by simp [StatusCompleted, StatusRunning])
  rw [GetSession_ok, hs, gomap.Load_Store]
  simp

theorem C5_witness :
    ∃ m1 m2 s, demo.empty.run [Op.create (demo.request "P") (demo.createOk "s0")] = some m1 ∧
      m1.DeleteSession "s0" demo.teardownOk = some (m2, none) ∧
      m2.GetSession "s0" = .ok s ∧ s.Status ≠ StatusRunning ∧
      m2.DeleteSession "s0" demo.teardownOk = some (m2, some "session is not running") :=
  ⟨_, _, _, rfl, rfl, rfl, by decide,
    (C5_delete_of_terminated_session _ "s0" demo.teardownOk).1 _ rfl (by decide)⟩

/-- When no two calls overlap: in a reachable state, take any sequence of complete
`DeleteSession` calls and timeout firings that all act on the stored session `id`.  If the session is not
RUNNING, the sequence and any single timeout firing return the manager as it was
(no container stopped, no context saved, no status changed, no permit released).
If it is RUNNING, the first call of the sequence stores COMPLETED or TIMED_OUT and
the state after the whole sequence is the state after that first call. -/
theorem sequential_single_terminal_transition (regionMgr : region.Manager) (ctxMgr : ctxmgr.Manager)
    (ops0 : List Op) (m : Manager) (id : String) (s : Session) (ops : List Op)
    (hreach : (NewManager regionMgr ctxMgr).run ops0 = some m)
    (hl : m.GetSession id = .ok s) (hon : ∀ op ∈ ops, op.target = some id) :
    (s.Status ≠ StatusRunning →
      m.run ops = some m ∧ ∀ sess o, sess.ID = id → m.handleTimeout sess o = some m) ∧
    (s.Status = StatusRunning → ∀ op rest, ops = op :: rest →
      ∃ m1 s1, m.step op = some m1 ∧ m.run ops = some m1 ∧
        m1.GetSession id = .ok s1 ∧
        (s1.Status = StatusCompleted ∨ s1.Status = StatusTimedOut)) := by
  have hinv := reachable_Inv regionMgr ctxMgr ops0 m hreach
  have hl1 := (GetSession_ok m id s).1 hl
  refine ⟨?_, ?_⟩
  · intro hs
    have hfrozen : ∀ s1, gomap.Load m.sessions id = some s1 → s1.Status ≠ StatusRunning := by
      intro s1 h1
      rw [hl1] at h1
      cases h1
      exact hs
    refine ⟨run_frozen id ops m hfrozen hon, ?_⟩
    intro sess o hid
    subst hid
    exact handleTimeout_not_running m sess o hfrozen
  · intro hs op rest hops
    subst hops
    have hop := hon op (List.mem_cons_self _ _)
    have hrest : ∀ op1 ∈ rest, op1.target = some id :=
      fun op1 h1 => hon op1 (List.mem_cons_of_mem _ h1)
    have key : ∀ m1 s1, m.step op = some m1 → gomap.Load m1.sessions id = some s1 →
        (s1.Status = StatusCompleted ∨ s1.Status = StatusTimedOut) →
        ∃ m1 s1, m.step op = some m1 ∧ m.run (op :: rest) = some m1 ∧
          m1.GetSession id = .ok s1 ∧
          (s1.Status = StatusCompleted ∨ s1.Status = StatusTimedOut) := by
      intro m1 s1 hstep hload hterm
      refine ⟨m1, s1, hstep, ?_, (GetSession_ok m1 id s1).2 hload, hterm⟩
      simp only [Manager.run, hstep]
      apply run_frozen id rest m1 _ hrest
      intro s2 h2
      rw [hload] at h2
      cases h2
      rcases hterm with h | h <;> rw [h] <;> decide
    cases op with
    | create req o => simp [Op.target] at hop
    | delete id1 o =>
      have : id1 = id := by simpa [Op.target] using hop
      subst this
      obtain ⟨m1, hd, -, hsess, -⟩ := DeleteSession_running m id1 s o hinv hl1 hs
      refine key m1 { s with Status := StatusCompleted } (by simp [Manager.step, hd]) ?_
        (Or.inl rfl)
      rw [hsess, gomap.Load_Store]; simp
    | timeout sess o =>
      have : sess.ID = id := by simpa [Op.target] using hop
      subst this
      obtain ⟨m1, hd, -, hsess, -⟩ := handleTimeout_running m sess s o hinv hl1 hs
      refine key m1 { s with Status := StatusTimedOut } (by simp [Manager.step, hd]) ?_
        (Or.inr rfl)
      rw [hsess, gomap.Load_Store, gomap.Load_Store]; simp

theorem sequential_single_terminal_transition_example :
    ∃ m, demo.empty.run [Op.create (demo.request "P") (demo.createOk "s0")] = some m ∧
      ∃ m1 s1, m.step (Op.delete "s0" demo.teardownOk) = some m1 ∧
        m.run [Op.delete "s0" demo.teardownOk, Op.timeout (demo.handle "s0") demo.teardownOk,
          Op.delete "s0" demo.teardownOk] = some m1 ∧
        m1.GetSession "s0" = .ok s1 ∧
        (s1.Status = StatusCompleted ∨ s1.Status = StatusTimedOut) :=
  ⟨_, rfl,
    (sequential_single_terminal_transition demo.regionMgr demo.ctxMgr
      [Op.create (demo.request "P") (demo.createOk "s0")] _ "s0" _
      [Op.delete "s0" demo.teardownOk, Op.timeout (demo.handle "s0") demo.teardownOk,
        Op.delete "s0" demo.teardownOk] rfl rfl (by decide)).2 rfl _ _ rfl⟩

/-- C7, counterexample to the claim as stated: a request with project id `P` and
timeout 0, which is outside `[60, 21600]`, is not rejected; the session is
created with timeout 3600. -/
theorem C7_counterexample :
    (demo.request "P").ProjectID ≠ "" ∧
    ¬ (60 ≤ (demo.request "P").Timeout ∧ (demo.request "P").Timeout ≤ 21600) ∧
    ∃ m1 s, demo.empty.CreateSession (demo.request "P") (demo.createOk "s0")
        = some (m1, .ok s) ∧ s.Timeout = 3600 :=
  ⟨by decide, by decide, _, _, rfl, rfl⟩

/-- C7, amended. For a request with a non-empty project id: a timeout that is
not zero and lies outside `[60, 21600]` is rejected with the error
`timeout must be between 60 and 21600 seconds`, and the manager is returned as it
was; a timeout of zero (the value of an absent field) or inside `[60, 21600]`
never yields that error.  A timeout of zero is replaced by the default 3600: the
request passes validation with timeout 3600 and every session created from it has
timeout 3600; a timeout inside `[60, 21600]` is kept as it is. -/
theorem C7_timeout_validation (m : Manager) (req : CreateSessionRequest) (o : CreateOutcome)
    (hne : req.ProjectID ≠ "") :
    (req.Timeout ≠ 0 → (req.Timeout < 60 ∨ 21600 < req.Timeout) →
      m.CreateSession req o
        = some (m, .error "timeout must be between 60 and 21600 seconds")) ∧
    ((req.Timeout = 0 ∨ (60 ≤ req.Timeout ∧ req.Timeout ≤ 21600)) →
      ∀ m1, m.CreateSession req o
        ≠ some (m1, .error "timeout must be between 60 and 21600 seconds")) ∧
    (req.Timeout = 0 →
      (∃ req1, CreateSession.validate req = .ok req1 ∧ req1.Timeout = 3600) ∧
      ∀ m1 s, m.CreateSession req o = some (m1, .ok s) → s.Timeout = 3600) ∧
    ((60 ≤ req.Timeout ∧ req.Timeout ≤ 21600) →
      (∃ req1, CreateSession.validate req = .ok req1 ∧ req1.Timeout = req.Timeout) ∧
      ∀ m1 s, m.CreateSession req o = some (m1, .ok s) → s.Timeout = req.Timeout) := by
  have hcreated : ∀ (ht : req.Timeout = 0 ∨ (60 ≤ req.Timeout ∧ req.Timeout ≤ 21600)),
      (∃ req1, CreateSession.validate req = .ok req1 ∧
        req1.Timeout = (if req.Timeout = 0 then 3600 else req.Timeout)) ∧
      ∀ m1 s, m.CreateSession req o = some (m1, .ok s) →
        s.Timeout = (if req.Timeout = 0 then 3600 else req.Timeout) := by
    intro ht
    obtain ⟨req1, hv, -⟩ := validate_valid req hne ht
    have hform := validate_ok req req1 hv
    refine ⟨⟨req1, hv, hform.2.2.2.1⟩, ?_⟩
    intro m1 s hc
    unfold Manager.CreateSession at hc
    rw [hv] at hc
    simp only [] at hc
    obtain ⟨inst, hs⟩ := admit_ok_form m req1 o m1 s hc
    rw [hs]
    exact hform.2.2.2.1
  refine ⟨?_, ?_, ?_, ?_⟩
  · intro h0 hout
    unfold Manager.CreateSession
    rw [validate_timeout_error req hne h0 hout]
  · intro ht m1 hc
    obtain ⟨req1, hv, -⟩ := validate_valid req hne ht
    unfold Manager.CreateSession at hc
    rw [hv] at hc
    simp only [] at hc
    rcases admit_error_form m req1 o m1 _ hc with ⟨-, hx⟩ | ⟨x, hx⟩ | ⟨x, hx⟩ | ⟨x, hx⟩
    · exact append_ne_literal _ _ _ 1 (by decide) (by decide) (by decide) hx.symm
    · exact append_ne_literal _ _ _ 1 (by decide) (by decide) (by decide) hx.symm
    · exact append_ne_literal _ _ _ 1 (by decide) (by decide) (by decide) hx.symm
    · exact append_ne_literal _ _ _ 1 (by decide) (by decide) (by decide) hx.symm
  · intro h0
    have := hcreated (Or.inl h0)
    simpa [h0] using this
  · intro hin
    have h0 : req.Timeout ≠ 0 := by omega
    have := hcreated (Or.inr hin)
    simpa [h0] using this

theorem C7_witness :
    demo.empty.CreateSession { ProjectID := "P", Region := "", Timeout := 30, ContextID := "" }
        (demo.createOk "s0")
      = some (demo.empty, .error "timeout must be between 60 and 21600 seconds") :=
  (C7_timeout_validation demo.empty
    { ProjectID := "P", Region := "", Timeout := 30, ContextID := "" } (demo.createOk "s0")
    (by decide)).1 (by decide) (by decide)

/-- C8. For a request that gives only a non-empty project id, when admission
grants a permit and the launch in `us-west-2` succeeds, `CreateSession` returns a
session with status RUNNING, region `us-west-2`, timeout 3600 and the request's
project id, and `GetSession` on the returned id returns that same session. -/
theorem C8_create_with_defaults (m : Manager) (P : String) (o : CreateOutcome)
    (inst : browser.BrowserInstance) (hP : P ≠ "")
    (hadm : (m.acquireSlot P).2 = none)
    (hlaunch : m.regionMgr.LaunchBrowser region.RegionUSWest2 o.sessionID o.launch = .ok inst) :
    ∃ m1 s,
      m.CreateSession { ProjectID := P, Region := "", Timeout := 0, ContextID := "" } o
        = some (m1, .ok s) ∧
      s.Status = StatusRunning ∧ s.Region = "us-west-2" ∧ s.Timeout = 3600 ∧
      s.ProjectID = P ∧ m1.GetSession s.ID = .ok s := by
  have hv : CreateSession.validate { ProjectID := P, Region := "", Timeout := 0, ContextID := "" }
      = .ok { ProjectID := P, Region := "us-west-2", Timeout := 3600, ContextID := "" } := by
    unfold CreateSession.validate
    have hpb : (P == "") = false := by simpa using hP
    simp [hpb]
  have hperm : 1 ≤ m.availablePermits P := by
    rcases acquireSlot_cases m P with ⟨h1, -⟩ | ⟨-, hacq⟩
    · exact h1
    · rw [hacq] at hadm; simp at hadm
  have hroute := RouteSession_default m.regionMgr
  obtain ⟨m1, h1, h2⟩ := admit_success m
    { ProjectID := P, Region := "us-west-2", Timeout := 3600, ContextID := "" } o ""
    inst hperm (by simp [CreateSession.prepare])
    (by
      simp only [hroute]
      simpa [CreateSession.launch] using hlaunch)
  refine ⟨m1, CreateSession.record
    { ProjectID := P, Region := "us-west-2", Timeout := 3600, ContextID := "" }
    o.sessionID o.now (m.regionMgr.RouteSession "us-west-2") inst, ?_, ?_, ?_, ?_, ?_, ?_⟩
  · unfold Manager.CreateSession
    rw [hv]
    exact h1
  · rfl
  · simp only [CreateSession.record, hroute]
  · rfl
  · rfl
  · rw [GetSession_ok, h2]
    simp only [CreateSession.record]
    rw [gomap.Load_Store]
    simp

theorem C8_witness :
    ∃ m1 s, demo.empty.CreateSession
        { ProjectID := "P", Region := "", Timeout := 0, ContextID := "" } (demo.createOk "s0")
        = some (m1, .ok s) ∧
      s.Status = StatusRunning ∧ s.Region = "us-west-2" ∧ s.Timeout = 3600 ∧
      s.ProjectID = "P" ∧ m1.GetSession s.ID = .ok s :=
  C8_create_with_defaults demo.empty "P" (demo.createOk "s0") _ (by decide) rfl rfl

/-- C9. Every session returned by `CreateSession` has `ExpiresAt` equal to
`StartedAt` plus its recorded timeout in seconds (the `int64` nanosecond product
does not wrap, the timeout lying in `[60, 21600]`), and `StartedAt` is the clock
reading of the call. -/
theorem C9_expires_at (m m1 : Manager) (req : CreateSessionRequest) (o : CreateOutcome)
    (s : Session) (h : m.CreateSession req o = some (m1, .ok s)) :
    s.ExpiresAt = s.StartedAt + s.Timeout * 1000000000 ∧
    s.StartedAt = o.now ∧ 60 ≤ s.Timeout ∧ s.Timeout ≤ 21600 := by
  unfold Manager.CreateSession at h
  cases hv : CreateSession.validate req with
  | error e => rw [hv] at h; simp at h
  | ok req1 =>
    rw [hv] at h
    simp only [] at h
    obtain ⟨-, -, -, -, -, hlo, hhi⟩ := validate_ok req req1 hv
    obtain ⟨inst, hs⟩ := admit_ok_form m req1 o m1 s h
    subst hs
    refine ⟨?_, rfl, hlo, hhi⟩
    show time.Add o.now (time.secondsDuration req1.Timeout)
      = o.now + req1.Timeout * 1000000000
    rw [secondsDuration_exact req1.Timeout hlo hhi]
    rfl

theorem C9_witness :
    ∃ m1 s, demo.empty.CreateSession (demo.request "P") (demo.createOk "s0")
        = some (m1, .ok s) ∧
      s.ExpiresAt = s.StartedAt + s.Timeout * 1000000000 :=
  ⟨_, _, rfl,
    (C9_expires_at demo.empty _ (demo.request "P") (demo.createOk "s0") _ rfl).1⟩

end session

namespace region

/-- C10. On a region manager built by `NewManager`, `RouteSession` returns the
requested region when it is `us-west-2`, `us-east-1` or `eu-central-1` and
`us-west-2` otherwise, and `GetPool` on the returned region returns a pool, not
the unsupported-region error. -/
theorem C10_route_session (clientErr : String → GoError) (mgr : Manager)
    (h : NewManager clientErr = .ok mgr) (requested : String) :
    mgr.RouteSession requested
      = (if requested = "us-west-2" ∨ requested = "us-east-1" ∨ requested = "eu-central-1"
          then requested else "us-west-2") ∧
    ∃ pool, mgr.GetPool (mgr.RouteSession requested) = .ok pool := by
  unfold NewManager at h
  simp only [regions, NewManager.loop, browser.NewPool] at h
  cases h1 : clientErr RegionUSWest2 with
  | some e => rw [h1] at h; simp at h
  | none =>
    rw [h1] at h
    simp only [] at h
    cases h2 : clientErr RegionUSEast1 with
    | some e => rw [h2] at h; simp at h
    | none =>
      rw [h2] at h
      simp only [] at h
      cases h3 : clientErr RegionEUCentral1 with
      | some e => rw [h3] at h; simp at h
      | none =>
        rw [h3] at h
        simp only [Except.ok.injEq] at h
        subst h
        simp only [Manager.RouteSession, Manager.GetPool, gomap.Load_Store, gomap.Load_nil,
          RegionUSWest2, RegionUSEast1, RegionEUCentral1]
        by_cases ha : requested = "eu-central-1"
        · subst ha; simp
        · by_cases hb : requested = "us-east-1"
          · subst hb; simp
          · by_cases hc : requested = "us-west-2"
            · subst hc; simp
            · simp [ha, hb, hc]

theorem C10_witness :
    session.demo.regionMgr.RouteSession "mars-1" = "us-west-2" ∧
    ∃ pool, session.demo.regionMgr.GetPool (session.demo.regionMgr.RouteSession "mars-1") = .ok pool :=
  C10_route_session (fun _ => none) session.demo.regionMgr rfl "mars-1"

end region

/-! ## Teardown -/

namespace session

open models semaphore

/-- A failed archive makes `saveSessionContext` return an error. -/
theorem saveSessionContext_error (m : Manager) (s : Session) (o : TeardownOutcome) (e : String)
    (he : o.compressErr = some e) : ∃ err, (m.saveSessionContext s o).2 = some err := by
  unfold Manager.saveSessionContext ctxmgr.Manager.SaveContextData
  cases hg : m.contextMgr.GetContext s.ContextID with
  | error e1 => exact ⟨e1, rfl⟩
  | ok ctx => simp only [he]; exact ⟨_, rfl⟩

/-- The effects of the teardown, in the order they are performed, and the sidecar
index it leaves. -/
theorem teardown_effects (m : Manager) (id : String) (s : Session) (o : TeardownOutcome) :
    ∃ saved : GoError,
      (m.teardown id s o).effects = m.effects
        ++ (match m.GetPuppeteerConnection id with
            | some _ => [Event.closePuppeteer id]
            | none => [])
        ++ (if s.ContextID != "" && s.UserDataDir != "" then
              [Event.saveContext s.ContextID s.UserDataDir saved] else [])
        ++ (if s.ContainerID != "" then
              [Event.stopContainer s.ContainerID (m.regionMgr.StopBrowser o.stop)] else []) ∧
      (∀ e, o.compressErr = some e → ∃ err, saved = some err) ∧
      (m.teardown id s o).puppeteerConns
        = (match m.GetPuppeteerConnection id with
            | some _ => gomap.Delete m.puppeteerConns id
            | none => m.puppeteerConns) := by
  -- the state after the sidecar step
  obtain ⟨m1, hm1, he1, hp1, hr1⟩ : ∃ m1 : Manager,
      m1 = (match m.GetPuppeteerConnection id with
        | some _ =>
          { m with puppeteerConns := gomap.Delete m.puppeteerConns id
                   effects := m.effects ++ [Event.closePuppeteer id] }
        | none => m) ∧
      m1.effects = m.effects ++ (match m.GetPuppeteerConnection id with
            | some _ => [Event.closePuppeteer id]
            | none => []) ∧
      m1.puppeteerConns = (match m.GetPuppeteerConnection id with
            | some _ => gomap.Delete m.puppeteerConns id
            | none => m.puppeteerConns) ∧
      m1.regionMgr = m.regionMgr := by
    refine ⟨_, rfl, ?_, ?_, ?_⟩ <;> cases m.GetPuppeteerConnection id <;> simp
  refine ⟨(m1.saveSessionContext s o).2, ?_, ?_, ?_⟩
  · unfold Manager.teardown
    simp only [← hm1]
    have hf := saveSessionContext_frame m1 s o
    by_cases hc : (s.ContextID != "" && s.UserDataDir != "") = true
    · by_cases hk : (s.ContainerID != "") = true
      · simp only [hc, hk, if_true, hf.2.2.2.1, hf.2.2.2.2, he1, hr1, List.append_assoc]
      · simp only [hc, hk, if_true, hf.2.2.2.1, he1, List.append_assoc]
        simp
    · by_cases hk : (s.ContainerID != "") = true
      · simp only [hc, hk, if_true]
        simp [he1, hr1]
      · simp only [hc, hk]
        simp [he1]
  · intro e he
    exact saveSessionContext_error m1 s o e he
  · unfold Manager.teardown
    simp only [← hm1]
    have hf := saveSessionContext_frame m1 s o
    by_cases hc : (s.ContextID != "" && s.UserDataDir != "") = true
    · by_cases hk : (s.ContainerID != "") = true
      · simp only [hc, hk, if_true, hf.2.2.1, hp1]
      · simp only [hc, hk, if_true, hf.2.2.1, hp1]
        simp [hf.2.2.1, hp1]
    · by_cases hk : (s.ContainerID != "") = true
      · simp only [hc, hk, if_true, hp1]
        simp [hp1]
      · simp only [hc, hk, hp1]
        simp [hp1]

/-- The state left by `DeleteSession` on a RUNNING session: the state after the
teardown, with the terminal status stored and one permit released. -/
theorem DeleteSession_running_state (m : Manager) (id : String) (s : Session)
    (o : TeardownOutcome) (hinv : m.Inv) (hl : gomap.Load m.sessions id = some s)
    (hr : s.Status = StatusRunning) :
    ∃ c1, m.DeleteSession id o
        = some ({ m.teardown id s o with
                  sessions := gomap.Store m.sessions id { s with Status := StatusCompleted }
                  concurrency := c1 }, none) ∧
      ∀ Q, permits c1 Q
        = if Q = s.ProjectID then m.availablePermits s.ProjectID + 1
          else m.availablePermits Q := by
  have hg : m.GetSession id = .ok s := (GetSession_ok m id s).2 hl
  obtain ⟨hts, htc⟩ := teardown_frame m id s o
  have hterm : ({ s with Status := StatusCompleted } : Session).Status ≠ StatusRunning := by
    simp [StatusCompleted, StatusRunning]
  obtain ⟨c1, h1, -, h3⟩ := terminal_Inv m
    { m.teardown id s o with
      sessions := gomap.Store (m.teardown id s o).sessions id { s with Status := StatusCompleted } }
    s hinv htc
    (by
      intro Q
      simp only [Manager.runningCount, hts]
      exact (running_Store_terminal m.sessions id _ hterm Q).1)
    (by
      simp only [Manager.runningCount, hts]
      exact (running_Store_terminal m.sessions id _ hterm s.ProjectID).2 s hl rfl hr)
  refine ⟨c1, ?_, h3⟩
  unfold Manager.DeleteSession
  simp only [hg, hr, bne_self_eq_false, Bool.false_eq_true, if_false]
  rw [h1, hts]

/-- The state left by `handleTimeout` on a RUNNING session. -/
theorem handleTimeout_running_state (m : Manager) (sess current : Session)
    (o : TeardownOutcome) (hinv : m.Inv)
    (hl : gomap.Load m.sessions sess.ID = some current)
    (hr : current.Status = StatusRunning) :
    ∃ c1, m.handleTimeout sess o
        = some { m.teardown current.ID current o with
                 sessions := gomap.Store
                   (gomap.Store m.sessions sess.ID { current with Status := StatusTimedOut })
                   current.ID { current with Status := StatusTimedOut }
                 concurrency := c1 } ∧
      ∀ Q, permits c1 Q
        = if Q = current.ProjectID then m.availablePermits current.ProjectID + 1
          else m.availablePermits Q := by
  have hg : m.GetSession sess.ID = .ok current := (GetSession_ok m sess.ID current).2 hl
  obtain ⟨hts, htc⟩ := teardown_frame m current.ID current o
  have hterm : ({ current with Status := StatusTimedOut } : Session).Status ≠ StatusRunning := by
    simp [StatusTimedOut, StatusRunning]
  obtain ⟨c1, h1, -, h3⟩ := terminal_Inv m
    { m.teardown current.ID current o with
      sessions := gomap.Store
        (gomap.Store (m.teardown current.ID current o).sessions sess.ID
          { current with Status := StatusTimedOut })
        current.ID { current with Status := StatusTimedOut } }
    current hinv htc
    (by
      intro Q
      simp only [Manager.runningCount, hts]
      have a := (running_Store_terminal
        (gomap.Store m.sessions sess.ID { current with Status := StatusTimedOut })
        current.ID _ hterm Q).1
      have b := (running_Store_terminal m.sessions sess.ID _ hterm Q).1
      omega)
    (by
      simp only [Manager.runningCount, hts]
      have a := (running_Store_terminal
        (gomap.Store m.sessions sess.ID { current with Status := StatusTimedOut })
        current.ID _ hterm current.ProjectID).1
      have b := (running_Store_terminal m.sessions sess.ID _ hterm current.ProjectID).2
        current hl rfl hr
      omega)
  refine ⟨c1, ?_, h3⟩
  unfold Manager.handleTimeout
  simp only [hg, hr, bne_self_eq_false, Bool.false_eq_true, if_false]
  rw [h1, hts]

theorem step_KeysOk (m : Manager) (op : Op) (hinv : m.Inv) (hk : KeysOk m) :
    ∀ m1, m.step op = some m1 → KeysOk m1 := by
  intro m1 hstep
  cases op with
  | create req o =>
    obtain ⟨m2, r, h, -, hr⟩ := CreateSession_spec m req o hinv
    simp only [Manager.step, h, Option.map_some', Option.some.injEq] at hstep
    subst hstep
    cases r with
    | error e => intro id s hl; rw [hr.1] at hl; exact hk id s hl
    | ok s1 =>
      intro id s hl
      rw [hr.1, gomap.Load_Store] at hl
      by_cases h1 : id = s1.ID
      · simp [h1] at hl; rw [← hl, h1]
      · simp [h1] at hl; exact hk id s hl
  | delete id1 o =>
    by_cases hr : ∃ s, gomap.Load m.sessions id1 = some s ∧ s.Status = StatusRunning
    · obtain ⟨s, hl, hs⟩ := hr
      obtain ⟨m2, h, -, hsess, -⟩ := DeleteSession_running m id1 s o hinv hl hs
      simp only [Manager.step, h, Option.map_some', Option.some.injEq] at hstep
      subst hstep
      intro id s2 hl2
      rw [hsess, gomap.Load_Store] at hl2
      by_cases h1 : id = id1
      · simp [h1] at hl2; rw [← hl2, h1]; exact hk id1 s hl
      · simp [h1] at hl2; exact hk id s2 hl2
    · obtain ⟨e, h⟩ := DeleteSession_not_running m id1 o (fun s hl hs => hr ⟨s, hl, hs⟩)
      simp only [Manager.step, h, Option.map_some', Option.some.injEq] at hstep
      subst hstep
      exact hk
  | timeout sess o =>
    by_cases hr : ∃ s, gomap.Load m.sessions sess.ID = some s ∧ s.Status = StatusRunning
    · obtain ⟨s, hl, hs⟩ := hr
      obtain ⟨m2, h, -, hsess, -⟩ := handleTimeout_running m sess s o hinv hl hs
      simp only [Manager.step, h, Option.some.injEq] at hstep
      subst hstep
      have hsid := hk sess.ID s hl
      intro id s2 hl2
      rw [hsess, gomap.Load_Store, gomap.Load_Store] at hl2
      by_cases h1 : id = s.ID
      · simp [h1] at hl2; rw [← hl2, h1]
      · by_cases h2 : id = sess.ID
        · exact absurd (h2.trans hsid.symm) h1
        · simp [h1, h2] at hl2; exact hk id s2 hl2
    · have h := handleTimeout_not_running m sess o (fun s hl hs => hr ⟨s, hl, hs⟩)
      simp only [Manager.step, h, Option.some.injEq] at hstep
      subst hstep
      exact hk

theorem run_KeysOk (ops : List Op) : ∀ (m : Manager), m.Inv → KeysOk m →
    ∀ m1, m.run ops = some m1 → KeysOk m1 := by
  induction ops with
  | nil => intro m _ hk m1 h; simp only [Manager.run, Option.some.injEq] at h; subst h; exact hk
  | cons op rest ih =>
    intro m hinv hk m1 h
    obtain ⟨m2, h2, hi2⟩ := step_Inv m op hinv
    simp only [Manager.run, h2] at h
    exact ih m2 hi2 (step_KeysOk m op hinv hk m2 h2) m1 h

/-- In every state reached from the empty manager each session is stored under
its own id. -/
theorem reachable_KeysOk (regionMgr : region.Manager) (ctxMgr : ctxmgr.Manager) (ops : List Op)
    (m : Manager) (h : (NewManager regionMgr ctxMgr).run ops = some m) : KeysOk m :=
  run_KeysOk ops _ (NewManager_Inv regionMgr ctxMgr)
    (by intro id s hl; simp [NewManager, gomap.Load] at hl) m h

end session

/-! ## The claims, continued -/

namespace session

open models semaphore

/-- C11. For a RUNNING session of a reachable state and whatever the archive
and the container runtime answer, `DeleteSession` returns no error, stores
COMPLETED and gives the project one permit back; when the archive fails the
effect log holds the failed save, and the stop is logged with the result the
regions gave, failed or not.  The timeout handler does the same with TIMED_OUT. -/
theorem C11_teardown_is_best_effort (regionMgr : region.Manager) (ctxMgr : ctxmgr.Manager)
    (ops : List Op) (m : Manager) (id : String) (s : Session) (o : TeardownOutcome)
    (hreach : (NewManager regionMgr ctxMgr).run ops = some m)
    (hl : m.GetSession id = .ok s) (hr : s.Status = StatusRunning) :
    (∃ m1, m.DeleteSession id o = some (m1, none) ∧
      m1.GetSession id = .ok { s with Status := StatusCompleted } ∧
      m1.availablePermits s.ProjectID = m.availablePermits s.ProjectID + 1 ∧
      (s.ContextID ≠ "" → s.UserDataDir ≠ "" → ∀ e, o.compressErr = some e →
        ∃ err, Event.saveContext s.ContextID s.UserDataDir (some err) ∈ m1.effects) ∧
      (s.ContainerID ≠ "" →
        Event.stopContainer s.ContainerID (m.regionMgr.StopBrowser o.stop) ∈ m1.effects)) ∧
    (∀ sess : Session, sess.ID = id → ∃ m1, m.handleTimeout sess o = some m1 ∧
      m1.GetSession id = .ok { s with Status := StatusTimedOut } ∧
      m1.availablePermits s.ProjectID = m.availablePermits s.ProjectID + 1 ∧
      (s.ContextID ≠ "" → s.UserDataDir ≠ "" → ∀ e, o.compressErr = some e →
        ∃ err, Event.saveContext s.ContextID s.UserDataDir (some err) ∈ m1.effects) ∧
      (s.ContainerID ≠ "" →
        Event.stopContainer s.ContainerID (m.regionMgr.StopBrowser o.stop) ∈ m1.effects)) := by
  have hinv := reachable_Inv regionMgr ctxMgr ops m hreach
  have hkeys := reachable_KeysOk regionMgr ctxMgr ops m hreach
  have hl1 := (GetSession_ok m id s).1 hl
  have hsid : s.ID = id := hkeys id s hl1
  -- what the effects of the teardown contain
  have heff : ∀ id1, ∃ saved : GoError,
      (∀ e, o.compressErr = some e → ∃ err, saved = some err) ∧
      (s.ContextID ≠ "" → s.UserDataDir ≠ "" →
        Event.saveContext s.ContextID s.UserDataDir saved ∈ (m.teardown id1 s o).effects) ∧
      (s.ContainerID ≠ "" →
        Event.stopContainer s.ContainerID (m.regionMgr.StopBrowser o.stop)
          ∈ (m.teardown id1 s o).effects) := by
    intro id1
    obtain ⟨saved, he, hs, -⟩ := teardown_effects m id1 s o
    refine ⟨saved, hs, ?_, ?_⟩
    · intro h1 h2
      have hb : (s.ContextID != "" && s.UserDataDir != "") = true := by simp [h1, h2]
      rw [he]; simp [hb]
    · intro h3
      have hb : (s.ContainerID != "") = true := by simp [h3]
      rw [he]; simp [hb]
  refine ⟨?_, ?_⟩
  · obtain ⟨c1, hd, hperm⟩ := DeleteSession_running_state m id s o hinv hl1 hr
    obtain ⟨saved, hs, h1, h2⟩ := heff id
    refine ⟨_, hd, ?_, ?_, ?_, ?_⟩
    · rw [GetSession_ok]; simp only []; rw [gomap.Load_Store]; simp
    · show permits c1 s.ProjectID = _
      rw [hperm]; simp
    · intro hc hd1 e he
      obtain ⟨err, herr⟩ := hs e he
      exact ⟨err, by rw [← herr]; exact h1 hc hd1⟩
    · intro hc; exact h2 hc
  · intro sess hid
    subst hid
    obtain ⟨c1, hd, hperm⟩ := handleTimeout_running_state m sess s o hinv hl1 hr
    obtain ⟨saved, hs, h1, h2⟩ := heff s.ID
    refine ⟨_, hd, ?_, ?_, ?_, ?_⟩
    · rw [GetSession_ok]; simp only []; rw [gomap.Load_Store, gomap.Load_Store]; simp
    · show permits c1 s.ProjectID = _
      rw [hperm]; simp
    · intro hc hd1 e he
      obtain ⟨err, herr⟩ := hs e he
      exact ⟨err, by rw [← herr]; exact h1 hc hd1⟩
    · intro hc; exact h2 hc

theorem C11_witness :
    ∃ m s m1, demo.withContextSession = some m ∧ m.GetSession "s0" = .ok s ∧
      s.Status = StatusRunning ∧
      m.DeleteSession "s0" demo.teardownFails = some (m1, none) ∧
      m1.GetSession "s0" = .ok { s with Status := StatusCompleted } ∧
      Event.stopContainer s.ContainerID
        (some "failed to stop container: no such container") ∈ m1.effects := by
  obtain ⟨m1, h1, h2, -, -, h5⟩ :=
    (C11_teardown_is_best_effort demo.regionMgr demo.ctxMgrWith
      [Op.create demo.requestCtx (demo.createWithSidecar "s0")] _ "s0" _ demo.teardownFails
      rfl rfl rfl).1
  exact ⟨_, _, m1, rfl, rfl, rfl, h1, h2, h5 (by decide)⟩

end session

namespace session

open models semaphore

/-- What `saveSessionContext` does to the Context Store.  When the context exists
and the archive is written, it returns no error and the context carries the path
of its archive and the time of the save; otherwise it returns an error and the
Context Store is as it was. -/
theorem saveSessionContext_store (m : Manager) (s : Session) (o : TeardownOutcome) :
    (∀ ctx0, m.contextMgr.GetContext s.ContextID = .ok ctx0 → o.compressErr = none →
      (m.saveSessionContext s o).2 = none ∧
      (m.saveSessionContext s o).1.contextMgr.GetContext s.ContextID
        = .ok { ctx0 with
                DataPath := filepath.JoinText [m.contextMgr.storePath, s.ContextID ++ ".tar.gz"]
                UpdatedAt := o.now } ∧
      (m.saveSessionContext s o).1.contextMgr.storePath = m.contextMgr.storePath) ∧
    ((m.saveSessionContext s o).2 ≠ none →
      (m.saveSessionContext s o).1.contextMgr = m.contextMgr ∧
      (o.compressErr ≠ none ∨ m.contextMgr.GetContext s.ContextID = .error "context not found"))
    := by
  cases hl : gomap.Load m.contextMgr.contexts s.ContextID with
  | none =>
    have hg : m.contextMgr.GetContext s.ContextID = .error "context not found" := by
      simp [ctxmgr.Manager.GetContext, hl]
    have hval : m.saveSessionContext s o = (m, some "context not found") := by
      simp only [Manager.saveSessionContext, ctxmgr.Manager.SaveContextData, hg]
    rw [hval]
    constructor
    · intro ctx0 h
      rw [hg] at h
      cases h
    · intro _
      exact ⟨rfl, Or.inr hg⟩
  | some ctx =>
    have hg : m.contextMgr.GetContext s.ContextID = .ok ctx := by
      simp [ctxmgr.Manager.GetContext, hl]
    cases hc : o.compressErr with
    | some e =>
      have hval : m.saveSessionContext s o
          = (m, some ("failed to compress context data: " ++ e)) := by
        simp only [Manager.saveSessionContext, ctxmgr.Manager.SaveContextData, hg, hc]
      rw [hval]
      constructor
      · intro ctx0 _ h
        cases h
      · intro _
        exact ⟨rfl, Or.inl (fun h => Option.noConfusion h)⟩
    | none =>
      have hnone : (m.saveSessionContext s o).2 = none := by
        simp only [Manager.saveSessionContext, ctxmgr.Manager.SaveContextData, hc,
          ctxmgr.Manager.UpdateContext, ctxmgr.Manager.GetContext, hl, gomap.Load_Store, if_true]
      have hget : (m.saveSessionContext s o).1.contextMgr.GetContext s.ContextID
          = .ok { ctx with
                  DataPath := filepath.JoinText [m.contextMgr.storePath, s.ContextID ++ ".tar.gz"]
                  UpdatedAt := o.now } := by
        simp only [Manager.saveSessionContext, ctxmgr.Manager.SaveContextData, hc,
          ctxmgr.Manager.UpdateContext, ctxmgr.Manager.GetContext, hl, gomap.Load_Store, if_true]
      have hsp : (m.saveSessionContext s o).1.contextMgr.storePath = m.contextMgr.storePath := by
        simp only [Manager.saveSessionContext, ctxmgr.Manager.SaveContextData, hc,
          ctxmgr.Manager.UpdateContext, ctxmgr.Manager.GetContext, hl, gomap.Load_Store, if_true]
      constructor
      · intro ctx0 h _
        rw [hg] at h
        have h0 : ctx = ctx0 := by
          simpa using h
        subst h0
        exact ⟨hnone, hget, hsp⟩
      · intro h
        exact absurd hnone h

/-- The result of `saveSessionContext` and the Context Store it leaves depend on
the Context Store only. -/
theorem saveSessionContext_congr (m m1 : Manager) (s : Session) (o : TeardownOutcome)
    (h : m1.contextMgr = m.contextMgr) :
    (m1.saveSessionContext s o).2 = (m.saveSessionContext s o).2 ∧
    (m1.saveSessionContext s o).1.contextMgr = (m.saveSessionContext s o).1.contextMgr := by
  unfold Manager.saveSessionContext
  rw [h]
  cases hs : m.contextMgr.SaveContextData s.ContextID o.compressErr o.now with
  | mk c err =>
    cases err with
    | some e => exact ⟨rfl, rfl⟩
    | none =>
      simp only []
      cases hu : c.UpdateContext s.ContextID o.now with
      | mk c1 err1 => trivial

/-- The teardown of a session with a sidecar connection, a context, a user data
dir and a container: the three effects in their order, the Context Store that the
save leaves, and the sidecar index. -/
theorem teardown_form (m : Manager) (id : String) (s : Session) (o : TeardownOutcome)
    (conn : PuppeteerConnection) (hconn : m.GetPuppeteerConnection id = some conn)
    (hb1 : (s.ContextID != "" && s.UserDataDir != "") = true)
    (hb2 : (s.ContainerID != "") = true) :
    (m.teardown id s o).effects = m.effects ++
      [Event.closePuppeteer id,
       Event.saveContext s.ContextID s.UserDataDir (m.saveSessionContext s o).2,
       Event.stopContainer s.ContainerID (m.regionMgr.StopBrowser o.stop)] ∧
    (m.teardown id s o).contextMgr = (m.saveSessionContext s o).1.contextMgr ∧
    (m.teardown id s o).puppeteerConns = gomap.Delete m.puppeteerConns id := by
  have hc := saveSessionContext_congr m
    { m with puppeteerConns := gomap.Delete m.puppeteerConns id
             effects := m.effects ++ [Event.closePuppeteer id] } s o rfl
  have hf := saveSessionContext_frame
    { m with puppeteerConns := gomap.Delete m.puppeteerConns id
             effects := m.effects ++ [Event.closePuppeteer id] } s o
  generalize hm1 : ({ m with puppeteerConns := gomap.Delete m.puppeteerConns id
                             effects := m.effects ++ [Event.closePuppeteer id] } : Manager)
    = m1 at hc hf
  have hr : m1.regionMgr = m.regionMgr := by rw [← hm1]
  have he : m1.effects = m.effects ++ [Event.closePuppeteer id] := by rw [← hm1]
  have hp : m1.puppeteerConns = gomap.Delete m.puppeteerConns id := by rw [← hm1]
  have hval : m.teardown id s o
      = { (m1.saveSessionContext s o).1 with
          effects := ((m1.saveSessionContext s o).1.effects ++
            [Event.saveContext s.ContextID s.UserDataDir (m1.saveSessionContext s o).2]) ++
            [Event.stopContainer s.ContainerID
              ((m1.saveSessionContext s o).1.regionMgr.StopBrowser o.stop)] } := by
    unfold Manager.teardown
    simp only [hconn, hb1, hb2, if_true, hm1]
  rw [hval]
  refine ⟨?_, hc.2, ?_⟩
  · simp only [hf.2.2.2.1, hf.2.2.2.2, hc.1, he, hr, List.append_assoc, List.singleton_append,
      List.cons_append, List.nil_append]
  · simp only [hf.2.2.1, hp]

/-- C12. For a RUNNING session of a reachable state that has a sidecar
connection and a non-empty context id, user data dir and container id, the
teardown passes through a state `mid` whose effect log is the old log followed by
the close of the sidecar, the save of the context and the stop of the container,
in this order; in `mid` the connection is dropped, the session is still stored
RUNNING and no permit has moved.  The save is recorded in the Context Store of
`mid`: when the context exists and the archive is written, `saved` is no error and
the context carries the path `filepath.Join(storePath, contextID + ".tar.gz")` of
its archive and the time of the save; when `saved` is an error the Context Store
is as it was.  `DeleteSession` (COMPLETED) and the timeout handler (TIMED_OUT)
return `mid` with only the terminal status stored and one permit released. -/
theorem C12_teardown_order (regionMgr : region.Manager) (ctxMgr : ctxmgr.Manager)
    (ops : List Op) (m : Manager) (id : String) (s : Session) (conn : PuppeteerConnection)
    (o : TeardownOutcome)
    (hreach : (NewManager regionMgr ctxMgr).run ops = some m)
    (hl : m.GetSession id = .ok s) (hr : s.Status = StatusRunning)
    (hconn : m.GetPuppeteerConnection id = some conn)
    (hctx : s.ContextID ≠ "") (hdir : s.UserDataDir ≠ "") (hctr : s.ContainerID ≠ "") :
    ∃ (saved stopped : GoError) (mid : Manager),
      mid.effects = m.effects ++
        [Event.closePuppeteer id, Event.saveContext s.ContextID s.UserDataDir saved,
         Event.stopContainer s.ContainerID stopped] ∧
      mid.GetPuppeteerConnection id = none ∧
      mid.GetSession id = .ok s ∧
      (∀ Q, mid.availablePermits Q = m.availablePermits Q) ∧
      (∀ ctx0, m.contextMgr.GetContext s.ContextID = .ok ctx0 → o.compressErr = none →
        saved = none ∧
        mid.contextMgr.GetContext s.ContextID
          = .ok { ctx0 with
                  DataPath := filepath.JoinText
                    [m.contextMgr.storePath, s.ContextID ++ ".tar.gz"]
                  UpdatedAt := o.now }) ∧
      (saved ≠ none → mid.contextMgr = m.contextMgr ∧
        (o.compressErr ≠ none ∨
          m.contextMgr.GetContext s.ContextID = .error "context not found")) ∧
      stopped = m.regionMgr.StopBrowser o.stop ∧
      (∃ m1, m.DeleteSession id o = some (m1, none) ∧
        m1 = { mid with sessions := m1.sessions, concurrency := m1.concurrency } ∧
        m1.GetSession id = .ok { s with Status := StatusCompleted } ∧
        m1.availablePermits s.ProjectID = m.availablePermits s.ProjectID + 1) ∧
      (∀ sess : Session, sess.ID = id → ∃ m1, m.handleTimeout sess o = some m1 ∧
        m1 = { mid with sessions := m1.sessions, concurrency := m1.concurrency } ∧
        m1.GetSession id = .ok { s with Status := StatusTimedOut } ∧
        m1.availablePermits s.ProjectID = m.availablePermits s.ProjectID + 1) := by
  have hinv := reachable_Inv regionMgr ctxMgr ops m hreach
  have hkeys := reachable_KeysOk regionMgr ctxMgr ops m hreach
  have hl1 := (GetSession_ok m id s).1 hl
  have hsid : s.ID = id := hkeys id s hl1
  subst hsid
  obtain ⟨hts, htc⟩ := teardown_frame m s.ID s o
  have hb1 : (s.ContextID != "" && s.UserDataDir != "") = true := by simp [hctx, hdir]
  have hb2 : (s.ContainerID != "") = true := by simp [hctr]
  obtain ⟨he, hcm, hp⟩ := teardown_form m s.ID s o conn hconn hb1 hb2
  obtain ⟨hok, herr⟩ := saveSessionContext_store m s o
  refine ⟨(m.saveSessionContext s o).2, m.regionMgr.StopBrowser o.stop, m.teardown s.ID s o,
    he, ?_, ?_, ?_, ?_, ?_, rfl, ?_, ?_⟩
  · unfold Manager.GetPuppeteerConnection
    rw [hp, gomap.Load_Delete]; simp
  · rw [GetSession_ok, hts]; exact hl1
  · intro Q; simp only [Manager.availablePermits, htc]
  · intro ctx0 hg hc
    obtain ⟨h1, h2, -⟩ := hok ctx0 hg hc
    exact ⟨h1, by rw [hcm]; exact h2⟩
  · intro hne
    obtain ⟨h1, h2⟩ := herr hne
    exact ⟨by rw [hcm]; exact h1, h2⟩
  · obtain ⟨c1, hd, hperm⟩ := DeleteSession_running_state m s.ID s o hinv hl1 hr
    refine ⟨_, hd, rfl, ?_, ?_⟩
    · rw [GetSession_ok]; simp only []; rw [gomap.Load_Store]; simp
    · show permits c1 s.ProjectID = _
      rw [hperm]; simp
  · intro sess hid
    have hl2 : gomap.Load m.sessions sess.ID = some s := by rw [hid]; exact hl1
    obtain ⟨c1, hd, hperm⟩ := handleTimeout_running_state m sess s o hinv hl2 hr
    refine ⟨_, hd, rfl, ?_, ?_⟩
    · rw [GetSession_ok]; simp only []; rw [gomap.Load_Store, gomap.Load_Store]; simp [hid]
    · show permits c1 s.ProjectID = _
      rw [hperm]; simp

/-- C12 at an example: a session of project `P` with the context `ctx1` and a
sidecar is deleted; the log gains the close of the sidecar, the save of the
context without error and the stop of the container, in this order, and the
context `ctx1` carries the path `/var/contexts/ctx1.tar.gz` and the time of the
save. -/
theorem C12_witness :
    ∃ m m1 stopped, demo.withContextSession = some m ∧
      m.DeleteSession "s0" demo.teardownOk = some (m1, none) ∧
      m1.effects = m.effects ++
        [Event.closePuppeteer "s0",
         Event.saveContext "ctx1" "/tmp/browser-context-ctx1" none,
         Event.stopContainer "c0ffee" stopped] ∧
      m1.contextMgr.GetContext "ctx1"
        = .ok { ID := "ctx1", ProjectID := "P", CreatedAt := 1600000000000000000
                UpdatedAt := 1700000100000000000, DataPath := "/var/contexts/ctx1.tar.gz" } := by
  obtain ⟨saved, stopped, mid, h1, -, -, -, hs, -, -, ⟨m1, h5, h6, -, -⟩, -⟩ :=
    C12_teardown_order demo.regionMgr demo.ctxMgrWith
      [Op.create demo.requestCtx (demo.createWithSidecar "s0")] _ "s0" _
      { SessionID := "s0" } demo.teardownOk rfl rfl rfl rfl (by decide) (by decide) (by decide)
  obtain ⟨hs1, hs2⟩ := hs _ rfl rfl
  subst hs1
  refine ⟨_, m1, stopped, rfl, h5, (congrArg Manager.effects h6).trans h1, ?_⟩
  rw [congrArg Manager.contextMgr h6]
  exact hs2

end session

/-! ## The rate limiter -/

namespace ratelimit

theorem tokensFromDuration_nonneg (limit : ℚ) (d : time.Duration) (hd : 0 ≤ d) :
    0 ≤ rate.tokensFromDuration limit d := by
  unfold rate.tokensFromDuration
  split
  · exact le_refl 0
  · rename_i h
    have h1 : (0 : ℚ) ≤ (d : ℚ) := by exact_mod_cast hd
    have h2 : (0 : ℚ) ≤ limit := le_of_lt (not_le.mp h)
    positivity

/-- With no time elapsed since the last event, and the count within the capacity,
`advance` returns the stored count. -/
theorem advance_same (lim : rate.Limiter) (h : lim.tokens ≤ lim.burst) :
    lim.advance lim.last = lim.tokens := by
  unfold rate.Limiter.advance rate.tokensFromDuration
  simp only [lt_self_iff_false, if_false, sub_self, Int.cast_zero, zero_div, zero_mul,
    ite_self, add_zero]
  rw [if_neg (not_lt.mpr h)]

/-- A full bucket stays full, whatever time has passed. -/
theorem advance_full (lim : rate.Limiter) (t : time.Time) (h : lim.tokens = lim.burst) :
    lim.advance t = lim.burst := by
  unfold rate.Limiter.advance
  have hd : (0 : Int) ≤ t - (if t < lim.last then t else lim.last) := by
    by_cases h1 : t < lim.last
    · simp [h1]
    · simp only [h1, if_false]
      have : lim.last ≤ t := not_lt.mp h1
      linarith
  have hnn := tokensFromDuration_nonneg lim.limit _ hd
  simp only []
  generalize rate.tokensFromDuration lim.limit (t - if t < lim.last then t else lim.last) = δ
    at hnn ⊢
  by_cases hgt : lim.tokens + δ > lim.burst
  · rw [if_pos hgt]
  · rw [if_neg hgt, h] at *
    linarith [not_lt.mp hgt]

/-- The first `Allow` for a project without a bucket, when the capacity is at
least one: the bucket is created full and one token is taken. -/
theorem Allow_first (l : Limiter) (P : String) (now : time.Time)
    (hnew : gomap.Load l.limiters P = none) (hb : 1 ≤ l.burst) :
    (l.Allow P now).2 = true ∧
    gomap.Load (l.Allow P now).1.limiters P
      = some { limit := l.rate, burst := l.burst, tokens := (l.burst : ℚ) - 1, last := now } ∧
    (l.Allow P now).1.burst = l.burst := by
  have hadv : (rate.NewLimiter l.rate l.burst).advance now = l.burst :=
    advance_full _ now rfl
  have hq : (0 : ℚ) ≤ (l.burst : ℚ) - 1 := by
    have : (1 : ℚ) ≤ (l.burst : ℚ) := by exact_mod_cast hb
    linarith
  have hcond : 1 ≤ (rate.NewLimiter l.rate l.burst).burst
      ∧ 0 ≤ (rate.NewLimiter l.rate l.burst).advance now - 1 := by
    rw [hadv]; exact ⟨hb, hq⟩
  unfold Limiter.Allow Limiter.GetLimiter
  simp only [hnew]
  unfold rate.Limiter.Allow
  rw [if_pos hcond]
  simp only [gomap.Load_Store, hadv]
  simp [rate.NewLimiter]

/-- A later `Allow` at the time of the last event: a token is taken when the
bucket holds at least one. -/
theorem Allow_again (l : Limiter) (P : String) (now : time.Time) (r q : ℚ) (b : Int)
    (hl : gomap.Load l.limiters P = some { limit := r, burst := b, tokens := q, last := now })
    (hb : 1 ≤ b) (hq : q ≤ b) :
    (l.Allow P now).2 = decide (1 ≤ q) ∧
    gomap.Load (l.Allow P now).1.limiters P
      = some { limit := r, burst := b, tokens := if 1 ≤ q then q - 1 else q, last := now } := by
  have hadv : ({ limit := r, burst := b, tokens := q, last := now } : rate.Limiter).advance now
      = q := advance_same _ hq
  unfold Limiter.Allow Limiter.GetLimiter
  simp only [hl]
  unfold rate.Limiter.Allow
  simp only [hadv, gomap.Load_Store]
  by_cases h1 : 1 ≤ q
  · have : 1 ≤ b ∧ 0 ≤ q - 1 := ⟨hb, by linarith⟩
    simp [this, h1]
  · have : ¬ (1 ≤ b ∧ 0 ≤ q - 1) := fun h => h1 (by linarith [h.2])
    simp [this, h1]

/-- Successive calls at one instant on a bucket that holds `j` tokens: the first
`j` are allowed, the others are not. -/
theorem allowTimes_bucket (P : String) (now : time.Time) (r : ℚ) (b : Int) (hb : 1 ≤ b)
    (n : Nat) : ∀ (j : Nat) (l : Limiter), (j : ℚ) ≤ b →
    gomap.Load l.limiters P
      = some { limit := r, burst := b, tokens := (j : ℚ), last := now } →
    (l.allowTimes P now n).2
      = List.replicate (min n j) true ++ List.replicate (n - j) false := by
  induction n with
  | zero => intro j l _ _; simp [Limiter.allowTimes]
  | succ n ih =>
    intro j l hj hl
    obtain ⟨h1, h2⟩ := Allow_again l P now r (j : ℚ) b hl hb hj
    simp only [Limiter.allowTimes, h1]
    cases j with
    | zero =>
      have hz : ¬ ((1 : ℚ) ≤ ((0 : Nat) : ℚ)) := by norm_num
      simp only [hz, if_false] at h2
      rw [ih 0 _ hj h2]
      simp [hz, List.replicate_succ]
    | succ k =>
      have hp : (1 : ℚ) ≤ ((k + 1 : Nat) : ℚ) := by push_cast; linarith [Nat.cast_nonneg (α := ℚ) k]
      have hk : (((k + 1 : Nat) : ℚ) - 1) = (k : ℚ) := by push_cast; ring
      simp only [hp, if_true, hk] at h2
      have hjk : (k : ℚ) ≤ b := by
        have : ((k + 1 : Nat) : ℚ) ≤ b := hj
        push_cast at this; linarith
      rw [ih k _ hjk h2]
      simp [hp, List.replicate_succ, Nat.succ_min_succ]

/-- The token count at time `t`: the stored count plus what the elapsed time has
refilled at `limit` tokens per second, capped at the capacity. -/
theorem advance_formula (lim : rate.Limiter) (t : time.Time) :
    lim.advance t
      = min (lim.burst : ℚ)
          (lim.tokens +
            (if lim.limit ≤ 0 then 0
             else ((max (t - lim.last) 0 : Int) : ℚ) / 1000000000 * lim.limit)) := by
  have hcap : ∀ x : ℚ, (if x > (lim.burst : ℚ) then (lim.burst : ℚ) else x)
      = min (lim.burst : ℚ) x := by
    intro x
    by_cases h : x > (lim.burst : ℚ)
    · rw [if_pos h, min_eq_left (le_of_lt h)]
    · rw [if_neg h, min_eq_right (not_lt.mp h)]
  unfold rate.Limiter.advance rate.tokensFromDuration
  simp only []
  rw [hcap]
  by_cases hl : t < lim.last
  · have h1 : max (t - lim.last) 0 = 0 := max_eq_right (le_of_lt (sub_neg.mpr hl))
    simp only [hl, if_true, sub_self, h1, Int.cast_zero, zero_div, zero_mul, ite_self]
  · have h1 : max (t - lim.last) 0 = t - lim.last :=
      max_eq_left (sub_nonneg.mpr (not_lt.mp hl))
    simp only [hl, if_false, h1]

/-- The method `Tokens` on a project whose bucket exists reads that bucket. -/
theorem Tokens_bucket (l : Limiter) (P : String) (t : time.Time) (bucket : rate.Limiter)
    (hl : gomap.Load l.limiters P = some bucket) :
    (l.Tokens P t).2
      = min (bucket.burst : ℚ)
          (bucket.tokens +
            (if bucket.limit ≤ 0 then 0
             else ((max (t - bucket.last) 0 : Int) : ℚ) / 1000000000 * bucket.limit)) := by
  unfold Limiter.Tokens Limiter.GetLimiter
  simp only [hl]
  exact advance_formula bucket t

/-- The method `Allow` on a project whose bucket exists: a token is taken when the
bucket, refilled up to the time of the call, holds at least one. -/
theorem Allow_bucket (l : Limiter) (P : String) (t : time.Time) (bucket : rate.Limiter)
    (hl : gomap.Load l.limiters P = some bucket) :
    (l.Allow P t).2
      = decide (1 ≤ bucket.burst ∧
          1 ≤ min (bucket.burst : ℚ)
            (bucket.tokens +
              (if bucket.limit ≤ 0 then 0
               else ((max (t - bucket.last) 0 : Int) : ℚ) / 1000000000 * bucket.limit))) := by
  unfold Limiter.Allow Limiter.GetLimiter
  simp only [hl]
  unfold rate.Limiter.Allow
  rw [advance_formula bucket t]
  by_cases h : 1 ≤ bucket.burst ∧ 0 ≤ min (bucket.burst : ℚ)
      (bucket.tokens + (if bucket.limit ≤ 0 then 0
        else ((max (t - bucket.last) 0 : Int) : ℚ) / 1000000000 * bucket.limit)) - 1
  · rw [if_pos h]
    have h2 : 1 ≤ bucket.burst ∧ 1 ≤ min (bucket.burst : ℚ)
        (bucket.tokens + (if bucket.limit ≤ 0 then 0
          else ((max (t - bucket.last) 0 : Int) : ℚ) / 1000000000 * bucket.limit)) :=
      ⟨h.1, by linarith [h.2]⟩
    simp only [h2, and_self, decide_True]
  · rw [if_neg h]
    have h2 : ¬ (1 ≤ bucket.burst ∧ 1 ≤ min (bucket.burst : ℚ)
        (bucket.tokens + (if bucket.limit ≤ 0 then 0
          else ((max (t - bucket.last) 0 : Int) : ℚ) / 1000000000 * bucket.limit))) :=
      fun h3 => h ⟨h3.1, by linarith [h3.2]⟩
    simp only [h2, decide_False]

/-- Successive calls at one instant on a bucket that holds `j` tokens leave the
bucket with the tokens that were not taken. -/
theorem allowTimes_state (P : String) (now : time.Time) (r : ℚ) (b : Int) (hb : 1 ≤ b)
    (n : Nat) : ∀ (j : Nat) (l : Limiter), (j : ℚ) ≤ b →
    gomap.Load l.limiters P
      = some { limit := r, burst := b, tokens := (j : ℚ), last := now } →
    gomap.Load (l.allowTimes P now n).1.limiters P
      = some { limit := r, burst := b, tokens := ((j - n : Nat) : ℚ), last := now } := by
  induction n with
  | zero => intro j l _ hl; simpa [Limiter.allowTimes] using hl
  | succ n ih =>
    intro j l hj hl
    obtain ⟨-, h2⟩ := Allow_again l P now r (j : ℚ) b hl hb hj
    simp only [Limiter.allowTimes]
    cases j with
    | zero =>
      have hz : ¬ ((1 : ℚ) ≤ ((0 : Nat) : ℚ)) := by norm_num
      simp only [hz, if_false] at h2
      have := ih 0 _ hj h2
      simpa using this
    | succ k =>
      have hp : (1 : ℚ) ≤ ((k + 1 : Nat) : ℚ) := by
        push_cast; linarith [Nat.cast_nonneg (α := ℚ) k]
      have hk : (((k + 1 : Nat) : ℚ) - 1) = (k : ℚ) := by push_cast; ring
      simp only [hp, if_true, hk] at h2
      have hjk : (k : ℚ) ≤ b := by
        have : ((k + 1 : Nat) : ℚ) ≤ b := hj
        push_cast at this; linarith
      have := ih k _ hjk h2
      rw [this]
      simp

/-- An `Allow` for another project leaves the bucket of `P` and the capacity as
they were. -/
theorem Allow_other (l : Limiter) (P Q : String) (now : time.Time) (h : P ≠ Q) :
    gomap.Load (l.Allow Q now).1.limiters P = gomap.Load l.limiters P ∧
    (l.Allow Q now).1.burst = l.burst ∧ (l.Allow Q now).1.rate = l.rate := by
  unfold Limiter.Allow Limiter.GetLimiter
  cases hq : gomap.Load l.limiters Q with
  | none => simp [gomap.Load_Store, h]
  | some lim => simp [gomap.Load_Store, h]

theorem allowAll_other (P : String) (calls : List (String × time.Time)) :
    ∀ (l : Limiter), (∀ c ∈ calls, c.1 ≠ P) →
    gomap.Load (l.allowAll calls).limiters P = gomap.Load l.limiters P ∧
    (l.allowAll calls).burst = l.burst ∧ (l.allowAll calls).rate = l.rate := by
  induction calls with
  | nil => intro l _; exact ⟨rfl, rfl, rfl⟩
  | cons c rest ih =>
    intro l hc
    obtain ⟨Q, t⟩ := c
    have hne : P ≠ Q := fun e => hc (Q, t) (List.mem_cons_self _ _) e.symm
    obtain ⟨a1, a2, a3⟩ := Allow_other l P Q t hne
    obtain ⟨b1, b2, b3⟩ := ih (l.Allow Q t).1 (fun c1 h1 => hc c1 (List.mem_cons_of_mem _ h1))
    simp only [Limiter.allowAll]
    exact ⟨b1.trans a1, b2.trans a2, b3.trans a3⟩

/-- C16. On a limiter built by `NewLimiter requestsPerHour burst` with
`burst ≥ 1`, after any calls for other projects, `burst + 1` calls of `Allow` for a
project not seen before, all at one instant `now`, return `true` for the first
`burst` calls and `false` for the last.  The bucket of the project is then empty
and refills at `requestsPerHour / 3600` tokens per second (not at all when
`requestsPerHour` is not positive), up to `burst`: `d` nanoseconds later `Tokens`
reads `min burst (d / 10^9 * requestsPerHour / 3600)`, and `Allow` returns `true`
exactly when that refill has reached one token. -/
theorem C16_burst_then_reject (requestsPerHour : Int) (burst : Nat) (P : String)
    (now : time.Time) (calls : List (String × time.Time))
    (hb : 1 ≤ burst) (hnew : ∀ c ∈ calls, c.1 ≠ P) :
    (((NewLimiter requestsPerHour burst).allowAll calls).allowTimes P now (burst + 1)).2
      = List.replicate burst true ++ [false] ∧
    ((NewLimiter requestsPerHour burst).allowAll calls).rate = (requestsPerHour : ℚ) / 3600 ∧
    gomap.Load
        (((NewLimiter requestsPerHour burst).allowAll calls).allowTimes P now
          (burst + 1)).1.limiters P
      = some { limit := (requestsPerHour : ℚ) / 3600, burst := (burst : Int), tokens := 0
               last := now } ∧
    (∀ d : Nat,
      ((((NewLimiter requestsPerHour burst).allowAll calls).allowTimes P now
          (burst + 1)).1.Tokens P (now + d)).2
        = min (burst : ℚ)
            (if requestsPerHour ≤ 0 then 0
             else (d : ℚ) / 1000000000 * ((requestsPerHour : ℚ) / 3600))) ∧
    (∀ d : Nat,
      ((((NewLimiter requestsPerHour burst).allowAll calls).allowTimes P now
          (burst + 1)).1.Allow P (now + d)).2
        = decide ((1 : ℚ) ≤
            (if requestsPerHour ≤ 0 then 0
             else (d : ℚ) / 1000000000 * ((requestsPerHour : ℚ) / 3600)))) := by
  obtain ⟨h1, h2, h3⟩ := allowAll_other P calls (NewLimiter requestsPerHour burst) hnew
  generalize (NewLimiter requestsPerHour burst).allowAll calls = l at h1 h2 h3
  have hl : gomap.Load l.limiters P = none := by rw [h1]; rfl
  have hburst : l.burst = (burst : Int) := h2
  have hrate : l.rate = (requestsPerHour : ℚ) / 3600 := h3
  have hb1 : (1 : Int) ≤ l.burst := by rw [hburst]; exact_mod_cast hb
  obtain ⟨a1, a2, a3⟩ := Allow_first l P now hl hb1
  obtain ⟨k, hk⟩ : ∃ k, burst = k + 1 := ⟨burst - 1, by omega⟩
  have htok : ((l.burst : ℚ) - 1) = ((k : Nat) : ℚ) := by
    rw [hburst, hk]; push_cast; ring
  rw [htok] at a2
  have hle : ((k : Nat) : ℚ) ≤ l.burst := by
    rw [hburst, hk]; push_cast; linarith
  have hrest := allowTimes_bucket P now l.rate l.burst hb1 (k + 1) k _ hle a2
  have hstate := allowTimes_state P now l.rate l.burst hb1 (k + 1) k _ hle a2
  have hzero : ((k - (k + 1) : Nat) : ℚ) = 0 := by
    have : k - (k + 1) = 0 := by omega
    rw [this]; simp
  rw [hzero, hrate, hburst] at hstate
  have hfinal : (l.allowTimes P now (burst + 1)).1
      = ((l.Allow P now).1.allowTimes P now (k + 1)).1 := by
    rw [hk]; rfl
  have hgain : ∀ d : Nat,
      (if (requestsPerHour : ℚ) / 3600 ≤ 0 then (0 : ℚ)
        else ((max (now + (d : Int) - now) 0 : Int) : ℚ) / 1000000000
          * ((requestsPerHour : ℚ) / 3600))
      = (if requestsPerHour ≤ 0 then 0
          else (d : ℚ) / 1000000000 * ((requestsPerHour : ℚ) / 3600)) := by
    intro d
    have hd : max (now + (d : Int) - now) 0 = (d : Int) := by
      rw [add_sub_cancel_left]
      exact max_eq_left (Int.natCast_nonneg d)
    rw [hd]
    by_cases hr : requestsPerHour ≤ 0
    · have hq : (requestsPerHour : ℚ) / 3600 ≤ 0 := by
        have : (requestsPerHour : ℚ) ≤ 0 := by exact_mod_cast hr
        exact div_nonpos_of_nonpos_of_nonneg this (by norm_num)
      rw [if_pos hq, if_pos hr]
    · have hq : ¬ (requestsPerHour : ℚ) / 3600 ≤ 0 := by
        have : (0 : ℚ) < (requestsPerHour : ℚ) := by exact_mod_cast (not_le.mp hr)
        exact not_le.mpr (div_pos this (by norm_num))
      rw [if_neg hq, if_neg hr]
      simp
  refine ⟨?_, h3, ?_, ?_, ?_⟩
  · rw [hk]
    show (l.Allow P now).2 :: ((l.Allow P now).1.allowTimes P now (k + 1)).2 = _
    rw [a1, hrest]
    simp [List.replicate_succ]
  · rw [hfinal]; exact hstate
  · intro d
    rw [hfinal, Tokens_bucket _ P (now + d) _ hstate]
    simp only [zero_add]
    rw [hgain d]
    simp
  · intro d
    rw [hfinal, Allow_bucket _ P (now + d) _ hstate]
    simp only [zero_add]
    rw [hgain d]
    have hbq : (1 : ℚ) ≤ (burst : ℚ) := by exact_mod_cast hb
    have hbi : (1 : Int) ≤ (burst : Int) := by exact_mod_cast hb
    simp only [Int.cast_natCast, le_min_iff, hbq, hbi, true_and]

/-- C16 at an example: a limiter of 100 requests per hour and burst 10 allows ten
calls made at one instant and refuses the eleventh; 36 seconds later the bucket
has refilled one token and `Allow` returns `true`, one nanosecond earlier it
returns `false`. -/
theorem C16_witness :
    ((NewLimiter 100 10).allowTimes "P" 1700000000000000000 11).2
      = [true, true, true, true, true, true, true, true, true, true, false] ∧
    (((NewLimiter 100 10).allowTimes "P" 1700000000000000000 11).1.Allow "P"
      (1700000000000000000 + (36000000000 : Nat))).2 = true ∧
    (((NewLimiter 100 10).allowTimes "P" 1700000000000000000 11).1.Allow "P"
      (1700000000000000000 + (35999999999 : Nat))).2 = false := by
  have h := C16_burst_then_reject 100 10 "P" 1700000000000000000 [] (by decide)
    (by intro c hc; cases hc)
  refine ⟨h.1, ?_, ?_⟩
  · refine Eq.trans (h.2.2.2.2 36000000000) ?_
    norm_num
  · refine Eq.trans (h.2.2.2.2 35999999999) ?_
    norm_num

end ratelimit

/-! ## The HTTP edge -/

namespace api

open http

theorem Get_Set_same (h : Header) (k v : String) : Header.Get (Header.Set h k v) k = v := by
  simp [Header.Get, Header.Set, gomap.Load_Store]

theorem Get_Set_other (h : Header) (k q v : String) (hne : canonicalKey q ≠ canonicalKey k) :
    Header.Get (Header.Set h k v) q = Header.Get h q := by
  simp [Header.Get, Header.Set, gomap.Load_Store, hne]

/-- C17, the code at the failing input: a request whose JSON body names project
`P`, without query parameter and without `X-Project-ID` header, goes to the next
handler without the limiter being consulted; `getProjectID` reads the query
parameter and the header, never the body. -/
theorem C17_body_project_id_bypasses_limiter (limiter : ratelimit.Limiter)
    (requestsPerHour : Int) (next : ResponseWriter → Request → ResponseWriter)
    (allowAt tokensAt : time.Time) (w : ResponseWriter) :
    demo.postWithBody.bodyProjectID = "P" ∧
    (RateLimitMiddleware limiter requestsPerHour next allowAt tokensAt w
      demo.postWithBody).allowed = none ∧
    (RateLimitMiddleware limiter requestsPerHour next allowAt tokensAt w
      demo.postWithBody).limiter = limiter ∧
    (RateLimitMiddleware limiter requestsPerHour next allowAt tokensAt w
      demo.postWithBody).w = next w demo.postWithBody := by
  have h : getProjectID demo.postWithBody = "" := by decide
  unfold RateLimitMiddleware
  simp [h]
  rfl

/-- A bucket that has allowed an event at time `t` has `t` as its last event and
holds no negative count. -/
theorem rate_Allow_true (lim : rate.Limiter) (t : time.Time)
    (h : (lim.Allow t).2 = true) : (lim.Allow t).1.last = t ∧ 0 ≤ (lim.Allow t).1.tokens := by
  unfold rate.Limiter.Allow at h ⊢
  simp only [] at h ⊢
  by_cases hc : 1 ≤ lim.burst ∧ 0 ≤ lim.advance t - 1
  · rw [if_pos hc]
    exact ⟨rfl, hc.2⟩
  · rw [if_neg hc] at h
    cases h

/-- After `Allow` the bucket of the project exists; when `Allow` returned `true`
its last event is the time of the call. -/
theorem Allow_stores (l : ratelimit.Limiter) (P : String) (t : time.Time) :
    ∃ bucket, gomap.Load (l.Allow P t).1.limiters P = some bucket ∧
      ((l.Allow P t).2 = true → bucket.last = t ∧ 0 ≤ bucket.tokens) := by
  refine ⟨((l.GetLimiter P).2.Allow t).1, ?_, ?_⟩
  · unfold ratelimit.Limiter.Allow
    simp only [gomap.Load_Store, if_true]
  · intro h
    exact rate_Allow_true _ t h

/-- C18. On a request for which `getProjectID` finds a project id, and a
response writer with no status yet, the middleware consults the limiter.  When
`Allow` returns false the response has status 429, `X-RateLimit-Limit` equal to the
configured requests per hour and `X-RateLimit-Remaining` equal to `0`, and the next
handler is not called.  When `Allow` returns true the next handler is called once,
on a writer that carries `X-RateLimit-Limit` and `X-RateLimit-Remaining`, the
latter being the token count of the project's bucket, truncated to an integer:
the tokens the bucket holds after `Allow` has taken one, plus what has been
refilled at the bucket's rate since then, capped at its capacity. -/
theorem C18_rate_limit_headers (limiter : ratelimit.Limiter) (requestsPerHour : Int)
    (next : ResponseWriter → Request → ResponseWriter) (allowAt tokensAt : time.Time)
    (w : ResponseWriter) (r : Request)
    (hid : getProjectID r ≠ "") (hw : w.status = none) :
    (RateLimitMiddleware limiter requestsPerHour next allowAt tokensAt w r).allowed
      = some (limiter.Allow (getProjectID r) allowAt).2 ∧
    ((limiter.Allow (getProjectID r) allowAt).2 = false →
      (RateLimitMiddleware limiter requestsPerHour next allowAt tokensAt w r).w.status
        = some 429 ∧
      (RateLimitMiddleware limiter requestsPerHour next allowAt tokensAt w r).w.header.Get
        "X-RateLimit-Limit" = strconv.Itoa requestsPerHour ∧
      (RateLimitMiddleware limiter requestsPerHour next allowAt tokensAt w r).w.header.Get
        "X-RateLimit-Remaining" = "0" ∧
      (RateLimitMiddleware limiter requestsPerHour next allowAt tokensAt w r).nextCalls = 0) ∧
    ((limiter.Allow (getProjectID r) allowAt).2 = true →
      ∃ (w1 : ResponseWriter) (bucket : rate.Limiter),
        (RateLimitMiddleware limiter requestsPerHour next allowAt tokensAt w r).w = next w1 r ∧
        w1.status = none ∧ w1.body = w.body ∧
        w1.header.Get "X-RateLimit-Limit" = strconv.Itoa requestsPerHour ∧
        w1.header.Get "X-RateLimit-Remaining"
          = strconv.Itoa (truncate
              ((limiter.Allow (getProjectID r) allowAt).1.Tokens (getProjectID r) tokensAt).2) ∧
        gomap.Load (limiter.Allow (getProjectID r) allowAt).1.limiters (getProjectID r)
          = some bucket ∧
        bucket.last = allowAt ∧ 0 ≤ bucket.tokens ∧
        w1.header.Get "X-RateLimit-Remaining"
          = strconv.Itoa (truncate
              (min (bucket.burst : ℚ)
                (bucket.tokens +
                  (if bucket.limit ≤ 0 then 0
                   else ((max (tokensAt - allowAt) 0 : Int) : ℚ) / 1000000000
                     * bucket.limit)))) ∧
        (RateLimitMiddleware limiter requestsPerHour next allowAt tokensAt w r).nextCalls
          = 1) := by
  have hb : (getProjectID r == "") = false := by simpa using hid
  have hk : canonicalKey "X-RateLimit-Limit" ≠ canonicalKey "X-RateLimit-Remaining" := by
    decide
  obtain ⟨bucket, hbucket, hlast⟩ := Allow_stores limiter (getProjectID r) allowAt
  have htok := ratelimit.Tokens_bucket (limiter.Allow (getProjectID r) allowAt).1
    (getProjectID r) tokensAt bucket hbucket
  unfold RateLimitMiddleware
  simp only [hb, Bool.false_eq_true, if_false]
  cases ha : (limiter.Allow (getProjectID r) allowAt).2 with
  | false =>
    simp only [Bool.not_false, if_true]
    refine ⟨by trivial, ?_, ?_⟩
    · intro _
      refine ⟨?_, ?_, ?_, by trivial⟩
      · simp [ResponseWriter.Write, ResponseWriter.WriteHeader, hw, StatusTooManyRequests]
      · simp only [ResponseWriter.Write, ResponseWriter.WriteHeader, hw]
        rw [Get_Set_other _ _ _ _ hk, Get_Set_same]
      · simp only [ResponseWriter.Write, ResponseWriter.WriteHeader, hw]
        rw [Get_Set_same]
    · intro h; cases h
  | true =>
    simp only [Bool.not_true, Bool.false_eq_true, if_false]
    obtain ⟨hl1, hl2⟩ := hlast ha
    refine ⟨by trivial, ?_, ?_⟩
    · intro h; cases h
    · intro _
      refine ⟨_, bucket, rfl, hw, rfl, ?_, ?_, hbucket, hl1, hl2, ?_, by trivial⟩
      · simp only []
        rw [Get_Set_other _ _ _ _ hk, Get_Set_same]
      · simp only []
        rw [Get_Set_same]
      · simp only []
        rw [Get_Set_same, htok, hl1]

/-- C18 at an example: the first request of project `P2` on a limiter of 100
requests per hour and burst 10 is allowed; the next handler is called on a writer
whose `X-RateLimit-Limit` is `100` and whose `X-RateLimit-Remaining` is `9`. -/
theorem C18_witness :
    ∃ w1 : ResponseWriter,
      (RateLimitMiddleware (ratelimit.NewLimiter 100 10) 100 demo.created
        1700000000000000000 1700000000000000000 ResponseWriter.fresh
        demo.postWithHeader).w = demo.created w1 demo.postWithHeader ∧
      w1.header.Get "X-RateLimit-Limit" = "100" ∧
      w1.header.Get "X-RateLimit-Remaining" = "9" := by
  have hfirst := ratelimit.Allow_first (ratelimit.NewLimiter 100 10) "P2"
    1700000000000000000 rfl (by decide)
  obtain ⟨w1, bucket, h1, -, -, h4, -, h6, -, -, h9, -⟩ :=
    (C18_rate_limit_headers (ratelimit.NewLimiter 100 10) 100 demo.created
      1700000000000000000 1700000000000000000 ResponseWriter.fresh demo.postWithHeader
      (by decide) rfl).2.2 hfirst.1
  have hbk : bucket = { limit := (ratelimit.NewLimiter 100 10).rate
                        burst := (ratelimit.NewLimiter 100 10).burst
                        tokens := (((ratelimit.NewLimiter 100 10).burst : Int) : ℚ) - 1
                        last := 1700000000000000000 } := by
    have h := hfirst.2.1
    have hp : getProjectID demo.postWithHeader = "P2" := by decide
    rw [hp] at h6
    rw [h6] at h
    exact Option.some.inj h
  refine ⟨w1, h1, h4.trans (by decide), h9.trans ?_⟩
  rw [hbk]
  have hv : truncate (min ((((ratelimit.NewLimiter 100 10).burst : Int)) : ℚ)
      ((((ratelimit.NewLimiter 100 10).burst : Int) : ℚ) - 1 +
        (if (ratelimit.NewLimiter 100 10).rate ≤ 0 then 0
         else ((max ((1700000000000000000 : Int) - 1700000000000000000) 0 : Int) : ℚ)
           / 1000000000 * (ratelimit.NewLimiter 100 10).rate))) = 9 := by
    have hb10 : (ratelimit.NewLimiter 100 10).burst = 10 := rfl
    rw [hb10]
    have hmax : max ((1700000000000000000 : Int) - 1700000000000000000) 0 = 0 := by decide
    rw [hmax]
    have hx : min ((10 : Int) : ℚ) ((((10 : Int) : ℚ)) - 1 +
        (if (ratelimit.NewLimiter 100 10).rate ≤ 0 then 0
         else ((0 : Int) : ℚ) / 1000000000 * (ratelimit.NewLimiter 100 10).rate)) = 9 := by
      have hz : (if (ratelimit.NewLimiter 100 10).rate ≤ 0 then (0 : ℚ)
         else ((0 : Int) : ℚ) / 1000000000 * (ratelimit.NewLimiter 100 10).rate) = 0 := by
        split <;> simp
      rw [hz]
      norm_num
    rw [hx]
    unfold truncate
    rw [if_pos (by norm_num)]
    rfl
  simp only [] at hv ⊢
  rw [hv]
  decide

/-- C20, the code at the failing input: for an id that names no session,
`DELETE /v1/sessions/{id}` answers 400 with the message `session not found`, where
the sibling handler `GET /v1/sessions/{id}` answers 404. -/
theorem C20_unknown_id_answers_400 :
    session.demo.empty.GetSession demo.deleteUnknown.id = .error "session not found" ∧
    (∃ w, Handler.DeleteSession session.demo.empty session.demo.teardownOk
        ResponseWriter.fresh demo.deleteUnknown = some (session.demo.empty, w) ∧
      w.status = some 400 ∧ w.body = "session not found\n") ∧
    (Handler.GetSession session.demo.empty ResponseWriter.fresh demo.deleteUnknown).status
      = some 404 :=
  ⟨rfl, ⟨_, rfl, rfl, by decide⟩, rfl⟩

end api

/-! ## The sidecar channel -/

namespace session

/-- C19, the code at the failing input.  The first command (position 0) returns
`command timeout`; its answer arrives afterwards and stays in the channel; the
second command (position 1) is written and `SendCommand` returns at once the
answer to command 0.  After two timeouts in a row the channel holds two
undelivered answers. -/
theorem C19_stale_reply_after_timeout :
    demo.afterTimeout.2 = .error "command timeout" ∧
    (demo.afterTimeout.1.emit demo.answerOk).written = 1 ∧
    demo.secondCall.2 = .ok { forCmd := 0, status := "success", message := "" } ∧
    demo.twoLate.responses.length = 2 :=
  ⟨rfl, rfl, rfl, rfl⟩

end session

/-! ## The context store -/

namespace ctxmgr

open models

theorem GetContext_ok (m : Manager) (id : String) (ctx : Context) :
    m.GetContext id = .ok ctx ↔ gomap.Load m.contexts id = some ctx := by
  unfold Manager.GetContext
  cases h : gomap.Load m.contexts id <;> simp

theorem GetContext_error (m : Manager) (id : String) (e : String)
    (h : m.GetContext id = .error e) :
    gomap.Load m.contexts id = none ∧ e = "context not found" := by
  unfold Manager.GetContext at h
  cases hl : gomap.Load m.contexts id with
  | none => rw [hl] at h; simp at h; exact ⟨rfl, h.symm⟩
  | some c => rw [hl] at h; simp at h

/-- The file name of an archive is a name that a directory entry can have. -/
theorem archiveName_IsName (a : String) (ha : '/' ∉ a.data) :
    filepath.IsName (a ++ ".tar.gz") := by
  have hlen : (a ++ ".tar.gz").length = a.length + 7 := by
    rw [String.length_append]; rfl
  have hne : ∀ t : String, t.length < 7 → a ++ ".tar.gz" ≠ t := by
    intro t ht h
    rw [h] at hlen
    omega
  refine ⟨hne "" (by decide), hne "." (by decide), hne ".." (by decide), ?_⟩
  simp only [String.data_append, List.mem_append, not_or]
  exact ⟨ha, by decide⟩

theorem archivePath_inj (s a b : String) (ha : '/' ∉ a.data) (hb : '/' ∉ b.data)
    (h : archivePath s a = archivePath s b) : a = b := by
  unfold archivePath at h
  have h1 := filepath.JoinText_name_inj s _ _ (archiveName_IsName a ha)
    (archiveName_IsName b hb) h
  have h2 := congrArg String.data h1
  simp only [String.data_append] at h2
  exact String.ext (List.append_cancel_right h2)

theorem archivePath_ne_empty (s a : String) : archivePath s a ≠ "" := by
  unfold archivePath
  apply filepath.JoinText_ne_empty
  intro h
  have h1 := congrArg String.length h
  rw [String.length_append] at h1
  have h2 : ".tar.gz".length = 7 := by decide
  have h3 : "".length = 0 := by decide
  omega

/-- C14. For a stored context, a `DeleteContext` that returns no error leaves no
file at the context's data path and makes `GetContext` answer `context not found`;
when the archive is already absent and `os.Remove` meets no other failure,
`DeleteContext` returns no error; and for an id that names no context it returns
`context not found` and leaves the manager and the disk as they were. -/
theorem C14_delete_context (w : World) (id : String) (removeErr : GoError) :
    (∀ ctx w1, w.mgr.GetContext id = .ok ctx → w.DeleteContext id removeErr = (w1, none) →
      (ctx.DataPath ≠ "" → gomap.Load w1.disk.files ctx.DataPath = none) ∧
      w1.mgr.GetContext id = .error "context not found") ∧
    (∀ ctx, w.mgr.GetContext id = .ok ctx → gomap.Load w.disk.files ctx.DataPath = none →
      removeErr = none → (w.DeleteContext id removeErr).2 = none) ∧
    (∀ e, w.mgr.GetContext id = .error e →
      w.DeleteContext id removeErr = (w, some "context not found")) := by
  refine ⟨?_, ?_, ?_⟩
  · intro ctx w1 hg hd
    unfold World.DeleteContext at hd
    rw [hg] at hd
    simp only [] at hd
    by_cases hp : ctx.DataPath = ""
    · have hb : (ctx.DataPath != "") = false := by simp [hp]
      simp only [hb, Bool.false_eq_true, if_false, Prod.mk.injEq, and_true] at hd
      subst hd
      refine ⟨fun h => absurd hp h, ?_⟩
      simp [Manager.GetContext, gomap.Load_Delete]
    · have hb : (ctx.DataPath != "") = true := by simp [hp]
      simp only [hb, if_true] at hd
      unfold Disk.Remove at hd
      cases hr : removeErr with
      | some e => rw [hr] at hd; simp at hd
      | none =>
        rw [hr] at hd
        simp only [] at hd
        cases hl : gomap.Load w.disk.files ctx.DataPath with
        | none =>
          rw [hl] at hd
          simp only [Prod.mk.injEq, and_true] at hd
          subst hd
          refine ⟨fun _ => hl, ?_⟩
          simp [Manager.GetContext, gomap.Load_Delete]
        | some a =>
          rw [hl] at hd
          simp only [Prod.mk.injEq, and_true] at hd
          subst hd
          refine ⟨fun _ => ?_, ?_⟩
          · simp [gomap.Load_Delete]
          · simp [Manager.GetContext, gomap.Load_Delete]
  · intro ctx hg hl hr
    unfold World.DeleteContext
    rw [hg]
    simp only []
    by_cases hp : ctx.DataPath = ""
    · have hb : (ctx.DataPath != "") = false := by simp [hp]
      simp [hb]
    · have hb : (ctx.DataPath != "") = true := by simp [hp]
      simp [hb, Disk.Remove, hr, hl]
  · intro e hg
    obtain ⟨-, he⟩ := GetContext_error w.mgr id e hg
    unfold World.DeleteContext
    rw [hg, he]

/-- What `compressDirectory` does to the disk: the directories are untouched, no
file disappears, and when it returns no error the target file exists. -/
theorem compressDirectory_files (disk : Disk) (source target : String) (o : CompressOutcome) :
    (compressDirectory disk source target o).1.dirs = disk.dirs ∧
    (∀ p, (gomap.Load disk.files p).isSome = true →
      (gomap.Load (compressDirectory disk source target o).1.files p).isSome = true) ∧
    ((compressDirectory disk source target o).2 = none →
      (gomap.Load (compressDirectory disk source target o).1.files target).isSome = true) := by
  unfold compressDirectory
  cases hc : o.createErr with
  | some e => simp
  | none =>
    cases hs : gomap.Load disk.dirs source with
    | none =>
      refine ⟨rfl, ?_, ?_⟩
      · intro p hp
        simp only [gomap.Load_Store]
        by_cases h : p = target <;> simp [h, hp]
      · intro h; simp at h
    | some d =>
      refine ⟨rfl, ?_, ?_⟩
      · intro p hp
        simp only [gomap.Load_Store]
        by_cases h : p = target <;> simp [h, hp]
      · intro _
        simp [gomap.Load_Store]

/-- The two outcomes of the pure part of `SaveContextData`. -/
theorem SaveContextData_cases (m : Manager) (id : String) (err : GoError) (now : time.Time) :
    (∃ ctx ctx1, gomap.Load m.contexts id = some ctx ∧ err = none ∧
      ctx1 = { ctx with DataPath := archivePath m.storePath id, UpdatedAt := now } ∧
      m.SaveContextData id err now
        = ({ m with contexts := gomap.Store m.contexts id ctx1 }, none)) ∨
    (∃ e, m.SaveContextData id err now = (m, some e) ∧
      (gomap.Load m.contexts id = none ∨ err ≠ none)) := by
  unfold Manager.SaveContextData Manager.GetContext
  cases hl : gomap.Load m.contexts id with
  | none => right; exact ⟨_, rfl, Or.inl rfl⟩
  | some ctx =>
    cases err with
    | none => left; exact ⟨ctx, _, rfl, rfl, rfl, rfl⟩
    | some e => right; exact ⟨_, rfl, Or.inr (by simp)⟩

theorem le_add_delay (a b : Int) (n : Nat) (h : a ≤ b) : a ≤ b + n := by omega

theorem step_storePath (w : World) (c : Call) : (w.step c).mgr.storePath = w.mgr.storePath := by
  cases c with
  | create projectID o =>
    simp only [World.step, World.CreateContext]
    split <;> rfl
  | save contextID userDataDir o =>
    simp only [World.step, World.SaveContextData]
    cases hg : w.mgr.GetContext contextID with
    | error e => rfl
    | ok ctx =>
      simp only []
      rcases SaveContextData_cases w.mgr contextID
        (compressDirectory w.disk userDataDir (archivePath w.mgr.storePath contextID)
          o.compress).2 (w.clock + o.delay) with ⟨c1, c2, -, -, -, h⟩ | ⟨e, h, -⟩
      · rw [h]
      · rw [h]
  | update id delay =>
    simp only [World.step, World.UpdateContext, Manager.UpdateContext]
    cases hg : w.mgr.GetContext id <;> rfl
  | delete id removeErr =>
    simp only [World.step, World.DeleteContext]
    cases hg : w.mgr.GetContext id with
    | error e => rfl
    | ok ctx =>
      simp only []
      split <;> rfl

/-- Every call keeps the invariant of the context store. -/
theorem World.step_keeps_Inv (w : World) (c : Call) (hinv : w.Inv) (hids : w.IdsOk) :
    (w.step c).Inv := by
  cases c with
  | create projectID o =>
    simp only [World.step, World.CreateContext]
    by_cases hp : (projectID == "") = true
    · simp only [hp, if_true]; exact hinv
    · simp only [hp, Bool.false_eq_true, if_false]
      intro id ctx hl
      simp only [gomap.Load_Store] at hl
      by_cases h : id = o.id
      · simp only [h, if_true, Option.some.injEq] at hl
        subst hl
        refine ⟨Or.inl rfl, ?_, ?_⟩
        · exact le_add_delay _ _ _ (le_refl _)
        · exact le_refl _
      · simp only [h, if_false] at hl
        obtain ⟨h1, h2, h3⟩ := hinv id ctx hl
        refine ⟨h1, h2, ?_⟩
        exact le_add_delay _ _ _ (le_add_delay _ _ _ h3)
  | save contextID userDataDir o =>
    simp only [World.step, World.SaveContextData]
    cases hg : w.mgr.GetContext contextID with
    | error e => exact hinv
    | ok ctx0 =>
      simp only []
      obtain ⟨-, hkeep, hnew⟩ := compressDirectory_files w.disk userDataDir
        (archivePath w.mgr.storePath contextID) o.compress
      rcases SaveContextData_cases w.mgr contextID
        (compressDirectory w.disk userDataDir (archivePath w.mgr.storePath contextID)
          o.compress).2 (w.clock + o.delay) with ⟨c1, c2, hc1, herr, hc2, h⟩ | ⟨e, h, -⟩
      · rw [h]
        intro id ctx hl
        simp only [gomap.Load_Store] at hl
        by_cases hid : id = contextID
        · simp only [hid, if_true, Option.some.injEq] at hl
          subst hl
          subst hc2
          obtain ⟨-, h2, h3⟩ := hinv contextID c1 hc1
          refine ⟨Or.inr ⟨by rw [hid], hnew herr⟩, ?_, ?_⟩
          · exact le_add_delay _ _ _ (le_trans h2 h3)
          · exact le_refl _
        · simp only [hid, if_false] at hl
          obtain ⟨h1, h2, h3⟩ := hinv id ctx hl
          refine ⟨?_, h2, ?_⟩
          · rcases h1 with h1 | ⟨h1, h4⟩
            · exact Or.inl h1
            · exact Or.inr ⟨h1, hkeep _ h4⟩
          · exact le_add_delay _ _ _ h3
      · rw [h]
        intro id ctx hl
        obtain ⟨h1, h2, h3⟩ := hinv id ctx hl
        refine ⟨?_, h2, ?_⟩
        · rcases h1 with h1 | ⟨h1, h4⟩
          · exact Or.inl h1
          · exact Or.inr ⟨h1, hkeep _ h4⟩
        · exact le_add_delay _ _ _ h3
  | update id1 delay =>
    simp only [World.step, World.UpdateContext, Manager.UpdateContext]
    cases hg : w.mgr.GetContext id1 with
    | error e =>
      intro id ctx hl
      obtain ⟨h1, h2, h3⟩ := hinv id ctx hl
      refine ⟨h1, h2, ?_⟩
      exact le_add_delay _ _ _ h3
    | ok c1 =>
      have hc1 := (GetContext_ok w.mgr id1 c1).1 hg
      intro id ctx hl
      simp only [gomap.Load_Store] at hl
      by_cases hid : id = id1
      · simp only [hid, if_true, Option.some.injEq] at hl
        subst hl
        obtain ⟨h1, h2, h3⟩ := hinv id1 c1 hc1
        refine ⟨by rw [hid]; exact h1, ?_, le_refl _⟩
        exact le_add_delay _ _ _ (le_trans h2 h3)
      · simp only [hid, if_false] at hl
        obtain ⟨h1, h2, h3⟩ := hinv id ctx hl
        refine ⟨h1, h2, ?_⟩
        exact le_add_delay _ _ _ h3
  | delete id1 removeErr =>
    simp only [World.step, World.DeleteContext]
    cases hg : w.mgr.GetContext id1 with
    | error e => exact hinv
    | ok c1 =>
      have hc1 := (GetContext_ok w.mgr id1 c1).1 hg
      simp only []
      -- the files left after the removal step still hold the archives of the others
      have hfiles : ∀ (disk1 : Disk),
          (disk1 = w.disk ∨ disk1 = { w.disk with files := gomap.Delete w.disk.files c1.DataPath }) →
          World.Inv { w with mgr := { w.mgr with contexts := gomap.Delete w.mgr.contexts id1 }
                             disk := disk1 } := by
        intro disk1 hd id ctx hl
        simp only [gomap.Load_Delete] at hl
        by_cases hid : id = id1
        · simp [hid] at hl
        · simp only [hid, if_false] at hl
          obtain ⟨h1, h2, h3⟩ := hinv id ctx hl
          refine ⟨?_, h2, h3⟩
          rcases h1 with h1 | ⟨h1, h4⟩
          · exact Or.inl h1
          · refine Or.inr ⟨h1, ?_⟩
            rcases hd with hd | hd
            · rw [hd]; exact h4
            · rw [hd]
              simp only [gomap.Load_Delete]
              have hne : ctx.DataPath ≠ c1.DataPath := by
                intro heq
                rcases (hinv id1 c1 hc1).1 with h5 | ⟨h5, -⟩
                · rw [heq, h5] at h1
                  exact archivePath_ne_empty _ _ h1.symm
                · rw [h1, h5] at heq
                  exact hid (archivePath_inj _ _ _ (hids id ctx hl) (hids id1 c1 hc1) heq)
              simp only [hne, if_false]
              exact h4
      by_cases hp : c1.DataPath = ""
      · have hb : (c1.DataPath != "") = false := by simp [hp]
        simp only [hb, Bool.false_eq_true, if_false]
        exact hfiles w.disk (Or.inl rfl)
      · have hb : (c1.DataPath != "") = true := by simp [hp]
        simp only [hb, if_true]
        unfold Disk.Remove
        cases removeErr with
        | some e => exact hinv
        | none =>
          simp only []
          cases hl : gomap.Load w.disk.files c1.DataPath with
          | none => exact hfiles w.disk (Or.inl rfl)
          | some a => exact hfiles _ (Or.inr rfl)

/-- A call whose fresh id holds no separator keeps the stored ids free of
separators. -/
theorem World.step_keeps_IdsOk (w : World) (c : Call) (hc : c.idOk) (hids : w.IdsOk) :
    (w.step c).IdsOk := by
  cases c with
  | create projectID o =>
    simp only [World.step, World.CreateContext]
    by_cases hp : (projectID == "") = true
    · simp only [hp, if_true]; exact hids
    · simp only [hp, Bool.false_eq_true, if_false]
      intro id ctx hl
      simp only [gomap.Load_Store] at hl
      by_cases h : id = o.id
      · rw [h]; exact hc
      · simp only [h, if_false] at hl
        exact hids id ctx hl
  | save contextID userDataDir o =>
    simp only [World.step, World.SaveContextData]
    cases hg : w.mgr.GetContext contextID with
    | error e => exact hids
    | ok ctx0 =>
      have hc0 := (GetContext_ok w.mgr contextID ctx0).1 hg
      simp only []
      rcases SaveContextData_cases w.mgr contextID
        (compressDirectory w.disk userDataDir (archivePath w.mgr.storePath contextID)
          o.compress).2 (w.clock + o.delay) with ⟨c1, c2, -, -, -, h⟩ | ⟨e, h, -⟩
      · rw [h]
        intro id ctx hl
        simp only [gomap.Load_Store] at hl
        by_cases hid : id = contextID
        · rw [hid]; exact hids contextID ctx0 hc0
        · simp only [hid, if_false] at hl
          exact hids id ctx hl
      · rw [h]; exact hids
  | update id1 delay =>
    simp only [World.step, World.UpdateContext, Manager.UpdateContext]
    cases hg : w.mgr.GetContext id1 with
    | error e => exact hids
    | ok c1 =>
      have hc1 := (GetContext_ok w.mgr id1 c1).1 hg
      intro id ctx hl
      simp only [gomap.Load_Store] at hl
      by_cases hid : id = id1
      · rw [hid]; exact hids id1 c1 hc1
      · simp only [hid, if_false] at hl
        exact hids id ctx hl
  | delete id1 removeErr =>
    simp only [World.step, World.DeleteContext]
    cases hg : w.mgr.GetContext id1 with
    | error e => exact hids
    | ok c1 =>
      simp only []
      have hdel : ∀ disk1 : Disk,
          World.IdsOk { w with mgr := { w.mgr with contexts := gomap.Delete w.mgr.contexts id1 }
                               disk := disk1 } := by
        intro disk1 id ctx hl
        simp only [gomap.Load_Delete] at hl
        by_cases hid : id = id1
        · simp [hid] at hl
        · simp only [hid, if_false] at hl
          exact hids id ctx hl
      split
      · exact hids
      · exact hdel _

theorem World.run_keeps_Inv (calls : List Call) : ∀ (w : World), w.Inv → w.IdsOk →
    (∀ c ∈ calls, c.idOk) →
    (w.run calls).Inv ∧ (w.run calls).mgr.storePath = w.mgr.storePath := by
  induction calls with
  | nil => intro w h _ _; exact ⟨h, rfl⟩
  | cons c cs ih =>
    intro w h hids hc
    obtain ⟨h1, h2⟩ := ih (w.step c) (World.step_keeps_Inv w c h hids)
      (World.step_keeps_IdsOk w c (hc c (List.mem_cons_self _ _)) hids)
      (fun c1 h1 => hc c1 (List.mem_cons_of_mem _ h1))
    exact ⟨h1, h2.trans (step_storePath w c)⟩

/-- C15, as stated, fails.  With the store path `./storage/contexts` of the
server, a context `c1` is created and saved: `SaveContextData` returns no error and
the data path is `storage/contexts/c1.tar.gz`, the cleaned path that
`filepath.Join` returns, not `./storage/contexts/c1.tar.gz`. -/
theorem C15_counterexample :
    (demo.dotStore.SaveContextData "c1" "/src1" demo.saveOk).2 = none ∧
    (demo.dotStore.SaveContextData "c1" "/src1" demo.saveOk).1.mgr.storePath
      = "./storage/contexts" ∧
    (∃ ctx, (demo.dotStore.SaveContextData "c1" "/src1" demo.saveOk).1.mgr.GetContext "c1"
        = .ok ctx ∧
      ctx.DataPath = "storage/contexts/c1.tar.gz" ∧
      ctx.DataPath ≠ "./storage/contexts" ++ "/" ++ "c1" ++ ".tar.gz") :=
  ⟨rfl, rfl, _, rfl, rfl, by decide⟩

/-- C15 (amended). In every state reached from a new manager by `CreateContext`,
`SaveContextData`, `UpdateContext` and `DeleteContext`, with fresh ids that hold
no path separator and a clock that does not run backwards, each stored context has
an empty data path or one that names an existing file, and was updated no earlier
than it was created.  A `SaveContextData` that returns no error leaves the context
with the data path `filepath.Join(storePath, contextID + ".tar.gz")`, which
exists; one that returns an error leaves the manager, hence the context's data
path and update time, as it was. -/
theorem C15_context_store_invariant (storePath : String) (disk : Disk) (clock : time.Time)
    (calls : List Call) (hcalls : ∀ c ∈ calls, c.idOk) :
    (∀ id ctx, ((World.new storePath disk clock).run calls).mgr.GetContext id = .ok ctx →
      (ctx.DataPath = "" ∨
        (gomap.Load ((World.new storePath disk clock).run calls).disk.files
          ctx.DataPath).isSome = true) ∧
      ctx.CreatedAt ≤ ctx.UpdatedAt) ∧
    (∀ contextID userDataDir o,
      ((((World.new storePath disk clock).run calls).SaveContextData contextID
          userDataDir o).2 = none →
        ∃ ctx, (((World.new storePath disk clock).run calls).SaveContextData contextID
            userDataDir o).1.mgr.GetContext contextID = .ok ctx ∧
          ctx.DataPath = filepath.JoinText [storePath, contextID ++ ".tar.gz"] ∧
          (gomap.Load (((World.new storePath disk clock).run calls).SaveContextData contextID
            userDataDir o).1.disk.files ctx.DataPath).isSome = true) ∧
      (∀ e, (((World.new storePath disk clock).run calls).SaveContextData contextID
          userDataDir o).2 = some e →
        (((World.new storePath disk clock).run calls).SaveContextData contextID
          userDataDir o).1.mgr = ((World.new storePath disk clock).run calls).mgr)) := by
  have hinit : (World.new storePath disk clock).Inv := by
    intro id ctx hl
    simp [World.new, gomap.Load] at hl
  have hids0 : (World.new storePath disk clock).IdsOk := by
    intro id ctx hl
    simp [World.new, gomap.Load] at hl
  obtain ⟨hinv, hsp⟩ := World.run_keeps_Inv calls _ hinit hids0 hcalls
  generalize (World.new storePath disk clock).run calls = w at hinv hsp
  have hsp1 : w.mgr.storePath = storePath := hsp
  refine ⟨?_, ?_⟩
  · intro id ctx hg
    obtain ⟨h1, h2, -⟩ := hinv id ctx ((GetContext_ok _ _ _).1 hg)
    refine ⟨?_, h2⟩
    rcases h1 with h1 | ⟨-, h4⟩
    · exact Or.inl h1
    · exact Or.inr h4
  · intro contextID userDataDir o
    unfold World.SaveContextData
    cases hg : w.mgr.GetContext contextID with
    | error e =>
      refine ⟨?_, ?_⟩
      · intro h; simp at h
      · intro _ _; rfl
    | ok ctx0 =>
      simp only []
      obtain ⟨-, -, hnew⟩ := compressDirectory_files w.disk userDataDir
        (archivePath w.mgr.storePath contextID) o.compress
      rcases SaveContextData_cases w.mgr contextID
        (compressDirectory w.disk userDataDir (archivePath w.mgr.storePath contextID)
          o.compress).2 (w.clock + o.delay) with ⟨c1, c2, hc1, herr, hc2, h⟩ | ⟨e, h, -⟩
      · rw [h]
        refine ⟨?_, ?_⟩
        · intro _
          refine ⟨c2, ?_, ?_, ?_⟩
          · simp [Manager.GetContext, gomap.Load_Store]
          · rw [hc2, hsp1]; rfl
          · rw [hc2]; exact hnew herr
        · intro e he; simp at he
      · rw [h]
        refine ⟨?_, ?_⟩
        · intro he; simp at he
        · intro _ _; rfl

end ctxmgr

/-! ## Archives -/

namespace ctxmgr

theorem Dir.get_nil (q : RelPath) : Dir.get [] q = none := rfl

theorem Dir.get_cons (a : RelPath) (n : Node) (tl : Dir) (q : RelPath) :
    Dir.get ((a, n) :: tl) q = if q = a then some n else Dir.get tl q := by
  unfold Dir.get
  rw [List.lookup_cons]
  by_cases h : q = a
  · have hb : (q == a) = true := by simp [h]
    rw [hb]; simp [h]
  · have hb : (q == a) = false := by simp [h]
    rw [hb]; simp [h]

theorem Dir.get_filter (d : Dir) (p q : RelPath) :
    Dir.get (d.filter (fun e => e.1 != p)) q = if q = p then none else Dir.get d q := by
  induction d with
  | nil => simp [Dir.get_nil]
  | cons hd tl ih =>
    obtain ⟨a, n⟩ := hd
    by_cases hap : a = p
    · subst hap
      simp only [List.filter_cons, bne_self_eq_false, Bool.false_eq_true, if_false, ih,
        Dir.get_cons]
      by_cases hq : q = a <;> simp [hq]
    · have hb : ((a, n).1 != p) = true := by simp [hap]
      simp only [List.filter_cons, hb, if_true, Dir.get_cons, ih]
      by_cases hq : q = a
      · subst hq; simp [hap]
      · simp [hq]

theorem Dir.get_set (d : Dir) (p q : RelPath) (n : Node) :
    (d.set p n).get q = if q = p then some n else d.get q := by
  unfold Dir.set
  rw [Dir.get_cons, Dir.get_filter]
  by_cases hq : q = p <;> simp [hq]

theorem Plain_set (d : Dir) (p : RelPath) (n : Node) (hd : d.Plain) (hn : n ≠ Node.special) :
    (d.set p n).Plain := by
  intro q
  rw [Dir.get_set]
  by_cases hq : q = p
  · simp only [hq, if_true]
    intro h
    exact hn (Option.some.inj h)
  · simp only [hq, if_false]
    exact hd q

/-- On a directory without special nodes, a successful `mkdirs` only adds
directories at paths that held nothing, and leaves no special node. -/
theorem mkdirs_ok (sp : SpecialOutcome) (ps : List RelPath) : ∀ (d d1 : Dir), d.Plain →
    Dir.mkdirs sp d ps = (d1, none) →
    d1.Plain ∧ ∀ q, d1.get q = d.get q ∨ (d.get q = none ∧ d1.get q = some Node.dir) := by
  induction ps with
  | nil =>
    intro d d1 hpl h
    simp only [Dir.mkdirs, Prod.mk.injEq, and_true] at h
    subst h; exact ⟨hpl, fun q => Or.inl rfl⟩
  | cons p ps ih =>
    intro d d1 hpl h
    unfold Dir.mkdirs at h
    cases hg : d.get p with
    | none =>
      rw [hg] at h
      simp only [] at h
      obtain ⟨hpl1, hall⟩ := ih _ _ (Plain_set d p Node.dir hpl (by decide)) h
      refine ⟨hpl1, fun q => ?_⟩
      rcases hall q with h1 | ⟨h1, h2⟩
      · rw [Dir.get_set] at h1
        by_cases hq : q = p
        · subst hq
          simp only [if_true] at h1
          exact Or.inr ⟨hg, h1⟩
        · simp only [hq, if_false] at h1
          exact Or.inl h1
      · rw [Dir.get_set] at h1
        by_cases hq : q = p
        · simp [hq] at h1
        · simp only [hq, if_false] at h1
          exact Or.inr ⟨h1, h2⟩
    | some n =>
      rw [hg] at h
      cases n with
      | dir => exact ih _ _ hpl h
      | file x => simp at h
      | special => exact absurd hg (hpl p)

/-- On a directory without special nodes, a successful `MkdirAll` keeps the
regular files, adds none, and leaves no special node. -/
theorem MkdirAll_files (sp : SpecialOutcome) (d d1 : Dir) (p : RelPath) (hpl : d.Plain)
    (h : Dir.MkdirAll sp d p = (d1, none)) :
    d1.Plain ∧ ∀ (q : RelPath) (x : Bytes),
      d1.get q = some (Node.file x) ↔ d.get q = some (Node.file x) := by
  obtain ⟨hpl1, hall⟩ := mkdirs_ok sp _ d d1 hpl h
  refine ⟨hpl1, fun q x => ?_⟩
  rcases hall q with h1 | ⟨h1, h2⟩
  · rw [h1]
  · rw [h1, h2]; simp

/-- On a directory without special nodes, a successful `Create` writes the file
and changes nothing else. -/
theorem Create_ok (sp : SpecialOutcome) (d d1 : Dir) (p : RelPath) (data : Bytes)
    (hpl : d.Plain) (h : Dir.Create sp d p data = (d1, none)) :
    d1.Plain ∧ ∀ (q : RelPath),
      d1.get q = if q = p then some (Node.file data) else d.get q := by
  unfold Dir.Create at h
  cases p with
  | nil => simp at h
  | cons a as =>
    simp only [] at h
    have key : d.set (a :: as) (Node.file data) = d1 →
        d1.Plain ∧ ∀ (q : RelPath),
          d1.get q = if q = a :: as then some (Node.file data) else d.get q := by
      intro e
      rw [← e]
      exact ⟨Plain_set d _ _ hpl (fun h => Node.noConfusion h), fun q => Dir.get_set _ _ _ _⟩
    cases hg : d.get (a :: as) with
    | none => rw [hg] at h; simp only [Prod.mk.injEq, and_true] at h; exact key h
    | some n =>
      rw [hg] at h
      cases n with
      | dir => simp at h
      | special => exact absurd hg (hpl _)
      | file x => simp only [Prod.mk.injEq, and_true] at h; exact key h

/-- One successful step of the extraction on a regular-file header. -/
theorem extract_reg (sp : SpecialOutcome) (d d2 : Dir) (name : RelPath) (data : Bytes)
    (d1 : Dir) (hpl : d.Plain)
    (h1 : Dir.MkdirAll sp d name.dropLast = (d1, none))
    (h2 : Dir.Create sp d1 name data = (d2, none)) :
    d2.Plain ∧ ∀ (q : RelPath) (x : Bytes),
      d2.get q = some (Node.file x) ↔
        (q = name ∧ x = data) ∨ (q ≠ name ∧ d.get q = some (Node.file x)) := by
  obtain ⟨hpl1, hm⟩ := MkdirAll_files sp d d1 _ hpl h1
  obtain ⟨hpl2, hc⟩ := Create_ok sp d1 d2 name data hpl1 h2
  refine ⟨hpl2, fun q x => ?_⟩
  rw [hc q]
  by_cases hq : q = name
  · simp only [hq, if_true, Option.some.injEq, Node.file.injEq, true_and, ne_eq,
      not_true_eq_false, false_and, or_false]
    exact eq_comm
  · simp only [hq, if_false, false_and, ne_eq, not_false_eq_true, true_and, false_or]
    exact hm q x

/-- The regular files after a successful extraction into a directory without
special nodes come from the archive or were there before. -/
theorem loop_files_from (entryErr : RelPath → GoError) (sp : SpecialOutcome)
    (es : List TarEntry) :
    ∀ (d d1 : Dir), d.Plain → extractDirectory.loop entryErr sp es d = (d1, none) →
    ∀ q x, d1.get q = some (Node.file x) →
      (∃ e ∈ es, e.Typeflag = Typeflag.reg ∧ e.Name = q ∧ e.Data = x) ∨
      d.get q = some (Node.file x) := by
  induction es with
  | nil =>
    intro d d1 _ h q x hq
    simp only [extractDirectory.loop, Prod.mk.injEq, and_true] at h
    subst h; exact Or.inr hq
  | cons e es ih =>
    intro d d1 hpl h q x hq
    unfold extractDirectory.loop at h
    cases he : entryErr e.Name with
    | some err => rw [he] at h; simp at h
    | none =>
      rw [he] at h
      simp only [] at h
      have lift : (∃ e1 ∈ es, e1.Typeflag = Typeflag.reg ∧ e1.Name = q ∧ e1.Data = x) →
          ∃ e1 ∈ e :: es, e1.Typeflag = Typeflag.reg ∧ e1.Name = q ∧ e1.Data = x := by
        rintro ⟨e1, hm, hr⟩
        exact ⟨e1, List.mem_cons_of_mem _ hm, hr⟩
      cases ht : e.Typeflag with
      | dir =>
        rw [ht] at h
        simp only [] at h
        cases hm : Dir.MkdirAll sp d e.Name with
        | mk dm err =>
          rw [hm] at h
          cases err with
          | some x1 => simp at h
          | none =>
            simp only [] at h
            obtain ⟨hplm, hfm⟩ := MkdirAll_files sp d dm _ hpl hm
            rcases ih dm d1 hplm h q x hq with h1 | h1
            · exact Or.inl (lift h1)
            · exact Or.inr ((hfm q x).1 h1)
      | other =>
        rw [ht] at h
        simp only [] at h
        rcases ih d d1 hpl h q x hq with h1 | h1
        · exact Or.inl (lift h1)
        · exact Or.inr h1
      | reg =>
        rw [ht] at h
        simp only [] at h
        cases hm : Dir.MkdirAll sp d e.Name.dropLast with
        | mk dm err =>
          rw [hm] at h
          cases err with
          | some x1 => simp at h
          | none =>
            simp only [] at h
            cases hc : Dir.Create sp dm e.Name e.Data with
            | mk dc err2 =>
              rw [hc] at h
              cases err2 with
              | some x2 => simp at h
              | none =>
                simp only [] at h
                obtain ⟨hplc, hfc⟩ := extract_reg sp d dc e.Name e.Data dm hpl hm hc
                rcases ih dc d1 hplc h q x hq with h1 | h1
                · exact Or.inl (lift h1)
                · rcases (hfc q x).1 h1 with ⟨a, b⟩ | ⟨-, b⟩
                  · exact Or.inl ⟨e, List.mem_cons_self _ _, ht, a.symm, b.symm⟩
                  · exact Or.inr b

/-- A regular file stays through a successful extraction when every later
regular-file header of its name carries its bytes. -/
theorem loop_keeps (entryErr : RelPath → GoError) (sp : SpecialOutcome) (es : List TarEntry) :
    ∀ (d d1 : Dir), d.Plain → extractDirectory.loop entryErr sp es d = (d1, none) →
    ∀ q x, d.get q = some (Node.file x) →
      (∀ e ∈ es, e.Typeflag = Typeflag.reg → e.Name = q → e.Data = x) →
      d1.get q = some (Node.file x) := by
  induction es with
  | nil =>
    intro d d1 _ h q x hq _
    simp only [extractDirectory.loop, Prod.mk.injEq, and_true] at h
    subst h; exact hq
  | cons e es ih =>
    intro d d1 hpl h q x hq hsame
    have hrest : ∀ e1 ∈ es, e1.Typeflag = Typeflag.reg → e1.Name = q → e1.Data = x :=
      fun e1 hm => hsame e1 (List.mem_cons_of_mem _ hm)
    unfold extractDirectory.loop at h
    cases he : entryErr e.Name with
    | some err => rw [he] at h; simp at h
    | none =>
      rw [he] at h
      simp only [] at h
      cases ht : e.Typeflag with
      | dir =>
        rw [ht] at h
        simp only [] at h
        cases hm : Dir.MkdirAll sp d e.Name with
        | mk dm err =>
          rw [hm] at h
          cases err with
          | some x1 => simp at h
          | none =>
            simp only [] at h
            obtain ⟨hplm, hfm⟩ := MkdirAll_files sp d dm _ hpl hm
            exact ih dm d1 hplm h q x ((hfm q x).2 hq) hrest
      | other =>
        rw [ht] at h
        simp only [] at h
        exact ih d d1 hpl h q x hq hrest
      | reg =>
        rw [ht] at h
        simp only [] at h
        cases hm : Dir.MkdirAll sp d e.Name.dropLast with
        | mk dm err =>
          rw [hm] at h
          cases err with
          | some x1 => simp at h
          | none =>
            simp only [] at h
            cases hc : Dir.Create sp dm e.Name e.Data with
            | mk dc err2 =>
              rw [hc] at h
              cases err2 with
              | some x2 => simp at h
              | none =>
                simp only [] at h
                obtain ⟨hplc, hfc⟩ := extract_reg sp d dc e.Name e.Data dm hpl hm hc
                refine ih dc d1 hplc h q x ?_ hrest
                rw [hfc q x]
                by_cases hn : q = e.Name
                · exact Or.inl ⟨hn, (hsame e (List.mem_cons_self _ _) ht hn.symm).symm⟩
                · exact Or.inr ⟨hn, hq⟩

/-- After a successful extraction into a directory without special nodes every
regular-file header of the archive is a file with its bytes, when headers of one
name carry the same bytes. -/
theorem loop_writes (entryErr : RelPath → GoError) (sp : SpecialOutcome) (es : List TarEntry) :
    ∀ (d d1 : Dir), d.Plain → extractDirectory.loop entryErr sp es d = (d1, none) →
    (∀ e1 ∈ es, ∀ e2 ∈ es, e1.Typeflag = Typeflag.reg → e2.Typeflag = Typeflag.reg →
      e1.Name = e2.Name → e1.Data = e2.Data) →
    ∀ e ∈ es, e.Typeflag = Typeflag.reg → d1.get e.Name = some (Node.file e.Data) := by
  induction es with
  | nil => intro d d1 _ _ _ e hm; cases hm
  | cons e0 es ih =>
    intro d d1 hpl h hsame e hm hreg
    have hsame1 : ∀ e1 ∈ es, ∀ e2 ∈ es, e1.Typeflag = Typeflag.reg →
        e2.Typeflag = Typeflag.reg → e1.Name = e2.Name → e1.Data = e2.Data :=
      fun e1 h1 e2 h2 => hsame e1 (List.mem_cons_of_mem _ h1) e2 (List.mem_cons_of_mem _ h2)
    unfold extractDirectory.loop at h
    cases he : entryErr e0.Name with
    | some err => rw [he] at h; simp at h
    | none =>
      rw [he] at h
      simp only [] at h
      rcases List.mem_cons.1 hm with heq | hin
      · -- the head entry: written now, kept by the rest
        subst heq
        rw [hreg] at h
        simp only [] at h
        cases hmk : Dir.MkdirAll sp d e.Name.dropLast with
        | mk dm err =>
          rw [hmk] at h
          cases err with
          | some x1 => simp at h
          | none =>
            simp only [] at h
            cases hc : Dir.Create sp dm e.Name e.Data with
            | mk dc err2 =>
              rw [hc] at h
              cases err2 with
              | some x2 => simp at h
              | none =>
                simp only [] at h
                obtain ⟨hplc, hfc⟩ := extract_reg sp d dc e.Name e.Data dm hpl hmk hc
                refine loop_keeps entryErr sp es dc d1 hplc h e.Name e.Data ?_ ?_
                · rw [hfc]
                  exact Or.inl ⟨rfl, rfl⟩
                · intro e1 h1 hr1 hn1
                  exact hsame e1 (List.mem_cons_of_mem _ h1) e (List.mem_cons_self _ _)
                    hr1 hreg hn1
      · -- a later entry: by induction on the rest
        cases ht : e0.Typeflag with
        | dir =>
          rw [ht] at h
          simp only [] at h
          cases hmk : Dir.MkdirAll sp d e0.Name with
          | mk dm err =>
            rw [hmk] at h
            cases err with
            | some x1 => simp at h
            | none =>
              exact ih dm d1 (MkdirAll_files sp d dm _ hpl hmk).1 h hsame1 e hin hreg
        | other =>
          rw [ht] at h
          exact ih d d1 hpl h hsame1 e hin hreg
        | reg =>
          rw [ht] at h
          simp only [] at h
          cases hmk : Dir.MkdirAll sp d e0.Name.dropLast with
          | mk dm err =>
            rw [hmk] at h
            cases err with
            | some x1 => simp at h
            | none =>
              simp only [] at h
              cases hc : Dir.Create sp dm e0.Name e0.Data with
              | mk dc err2 =>
                rw [hc] at h
                cases err2 with
                | some x2 => simp at h
                | none =>
                  exact ih dc d1 (extract_reg sp d dc e0.Name e0.Data dm hpl hmk hc).1 h
                    hsame1 e hin hreg

end ctxmgr

namespace ctxmgr

theorem walk_ok (walkErr : RelPath → GoError) (xs : List (RelPath × Node)) :
    ∀ (acc r : List TarEntry), compressDirectory.walk walkErr xs acc = (r, none) →
      r = acc ++ xs.map toEntry := by
  induction xs with
  | nil =>
    intro acc r h
    simp only [compressDirectory.walk, Prod.mk.injEq, and_true] at h
    simp [h]
  | cons x xs ih =>
    intro acc r h
    unfold compressDirectory.walk at h
    cases hw : walkErr x.1 with
    | some e => rw [hw] at h; simp at h
    | none =>
      rw [hw] at h
      simp only [] at h
      rw [ih _ _ h]
      simp

/-- The archive that a successful `compressDirectory` leaves at its target. -/
theorem compressDirectory_ok (disk disk1 : Disk) (source target : String) (o : CompressOutcome)
    (d : Dir) (hd : gomap.Load disk.dirs source = some d)
    (h : compressDirectory disk source target o = (disk1, none)) :
    disk1.dirs = disk.dirs ∧
    gomap.Load disk1.files target
      = some { entries := (([], Node.dir) :: walkOrder d).map toEntry, complete := true } := by
  unfold compressDirectory at h
  cases hc : o.createErr with
  | some e => rw [hc] at h; simp at h
  | none =>
    rw [hc, hd] at h
    simp only [Prod.mk.injEq] at h
    obtain ⟨h1, h2⟩ := h
    cases hw : compressDirectory.walk o.walkErr (([], Node.dir) :: walkOrder d) [] with
    | mk r err =>
      rw [hw] at h1 h2
      simp only [] at h2
      subst h2
      have hr := walk_ok _ _ _ _ hw
      simp only [List.nil_append] at hr
      subst h1
      refine ⟨rfl, ?_⟩
      simp only [gomap.Load_Store, if_true, hr, Option.isNone_none]

theorem mem_walkOrder (d : Dir) (x : RelPath × Node) : x ∈ walkOrder d ↔ x ∈ d := by
  unfold walkOrder
  exact (List.perm_insertionSort _ d).mem_iff

/-- The regular-file headers of the archive of a directory are its regular files. -/
theorem reg_entry_iff (d : Dir) (e : TarEntry) :
    (e ∈ (([], Node.dir) :: walkOrder d).map toEntry ∧ e.Typeflag = Typeflag.reg) ↔
      ((e.Name, Node.file e.Data) ∈ d ∧ e.Typeflag = Typeflag.reg) := by
  constructor
  · rintro ⟨hm, hr⟩
    refine ⟨?_, hr⟩
    rcases List.mem_map.1 hm with ⟨x, hx, rfl⟩
    rcases List.mem_cons.1 hx with rfl | hx
    · simp [toEntry] at hr
    · obtain ⟨p, n⟩ := x
      cases n with
      | dir => simp [toEntry] at hr
      | special => simp [toEntry] at hr
      | file data => exact (mem_walkOrder d _).1 hx
  · rintro ⟨hm, hr⟩
    refine ⟨?_, hr⟩
    refine List.mem_map.2 ⟨(e.Name, Node.file e.Data), ?_, ?_⟩
    · exact List.mem_cons_of_mem _ ((mem_walkOrder d _).2 hm)
    · cases e with
      | mk n t x => simp only [] at hr; subst hr; rfl

theorem mem_of_get (d : Dir) (p : RelPath) (n : Node) (h : d.get p = some n) : (p, n) ∈ d := by
  induction d with
  | nil => simp [Dir.get_nil] at h
  | cons hd tl ih =>
    obtain ⟨a, m⟩ := hd
    rw [Dir.get_cons] at h
    by_cases hq : p = a
    · simp only [hq, if_true, Option.some.injEq] at h
      subst h; subst hq
      exact List.mem_cons_self _ _
    · simp only [hq, if_false] at h
      exact List.mem_cons_of_mem _ (ih h)

theorem get_of_mem (d : Dir) (hn : (d.map Prod.fst).Nodup) (p : RelPath) (n : Node)
    (h : (p, n) ∈ d) : d.get p = some n := by
  induction d with
  | nil => cases h
  | cons hd tl ih =>
    obtain ⟨a, m⟩ := hd
    simp only [List.map_cons, List.nodup_cons] at hn
    rw [Dir.get_cons]
    rcases List.mem_cons.1 h with heq | hin
    · simp only [Prod.mk.injEq] at heq
      simp [heq.1, heq.2]
    · have hne : p ≠ a := by
        intro e
        subst e
        exact hn.1 (List.mem_map.2 ⟨(p, n), hin, rfl⟩)
      simp only [hne, if_false]
      exact ih hn.2 hin

end ctxmgr

namespace ctxmgr

/-- What a successful `SaveContextData` leaves: the directories as they were, the
context pointing to its archive, and the archive of the source directory there. -/
theorem World.save_ok (w w1 : World) (id src : String) (so : SaveOutcome) (d : Dir)
    (hd : gomap.Load w.disk.dirs src = some d)
    (hsave : w.SaveContextData id src so = (w1, none)) :
    w1.disk.dirs = w.disk.dirs ∧
    (∃ ctx1, w1.mgr.GetContext id = .ok ctx1 ∧
      ctx1.DataPath = archivePath w.mgr.storePath id) ∧
    gomap.Load w1.disk.files (archivePath w.mgr.storePath id)
      = some { entries := (([], Node.dir) :: walkOrder d).map toEntry, complete := true } := by
  unfold World.SaveContextData at hsave
  cases hg : w.mgr.GetContext id with
  | error e => rw [hg] at hsave; simp at hsave
  | ok ctx =>
    rw [hg] at hsave
    simp only [] at hsave
    rcases SaveContextData_cases w.mgr id
      (compressDirectory w.disk src (archivePath w.mgr.storePath id) so.compress).2
      (w.clock + so.delay) with ⟨c, c1, hc, herr, hc1, h⟩ | ⟨e, h, -⟩
    · rw [h] at hsave
      simp only [Prod.mk.injEq, and_true] at hsave
      subst hsave
      have hcd : compressDirectory w.disk src (archivePath w.mgr.storePath id) so.compress
          = ((compressDirectory w.disk src (archivePath w.mgr.storePath id) so.compress).1,
             none) := by
        rw [← herr]
      have hok := compressDirectory_ok _ _ _ _ _ d hd hcd
      refine ⟨hok.1, ⟨c1, ?_, ?_⟩, hok.2⟩
      · rw [GetContext_ok]
        simp only [gomap.Load_Store, if_true]
      · rw [hc1]
    · rw [h] at hsave
      simp at hsave

/-- What `LoadContextData` does for a context whose archive is on the disk. -/
theorem World.load_ok (w1 : World) (id : String) (lo : LoadOutcome) (ctx1 : models.Context)
    (archive : Archive) (hg : w1.mgr.GetContext id = .ok ctx1) (hp : ctx1.DataPath ≠ "")
    (hf : gomap.Load w1.disk.files ctx1.DataPath = some archive) :
    (∀ w2 dirPath, w1.LoadContextData id lo = (w2, .ok dirPath) →
      dirPath = filepath.JoinText [lo.tempDir, "browser-context-" ++ id] ∧
      ∃ after,
        extractDirectory.loop lo.entryErr lo.special archive.entries
          ((gomap.Load w1.disk.dirs (filepath.JoinText [lo.tempDir, "browser-context-" ++ id])).getD [])
          = (after, none) ∧
        gomap.Load w2.disk.dirs dirPath = some after) ∧
    (lo.mkdirErr = none → lo.openErr = none → archive.complete = true →
      ∀ after,
        extractDirectory.loop lo.entryErr lo.special archive.entries
          ((gomap.Load w1.disk.dirs (filepath.JoinText [lo.tempDir, "browser-context-" ++ id])).getD [])
          = (after, none) →
        ∃ w2, w1.LoadContextData id lo = (w2, .ok (filepath.JoinText [lo.tempDir, "browser-context-" ++ id]))) := by
  have hb : (ctx1.DataPath == "") = false := by simp [hp]
  have hbefore : ∀ dirs1 : List (String × Dir),
      dirs1 = (match gomap.Load w1.disk.dirs (filepath.JoinText [lo.tempDir, "browser-context-" ++ id]) with
        | some _ => w1.disk.dirs
        | none => gomap.Store w1.disk.dirs (filepath.JoinText [lo.tempDir, "browser-context-" ++ id]) []) →
      (gomap.Load dirs1 (filepath.JoinText [lo.tempDir, "browser-context-" ++ id])).getD []
        = (gomap.Load w1.disk.dirs (filepath.JoinText [lo.tempDir, "browser-context-" ++ id])).getD [] := by
    intro dirs1 h1
    cases hl : gomap.Load w1.disk.dirs (filepath.JoinText [lo.tempDir, "browser-context-" ++ id]) with
    | none =>
      rw [hl] at h1
      simp only [] at h1
      rw [h1, gomap.Load_Store]
      simp
    | some x =>
      rw [hl] at h1
      simp only [] at h1
      rw [h1, hl]
  constructor
  · intro w2 dirPath h
    unfold World.LoadContextData at h
    rw [hg] at h
    simp only [hb, Bool.false_eq_true, if_false] at h
    cases hm : lo.mkdirErr with
    | some e => rw [hm] at h; simp at h
    | none =>
      rw [hm] at h
      simp only [] at h
      unfold extractDirectory at h
      cases ho : lo.openErr with
      | some e => rw [ho] at h; simp at h
      | none =>
        rw [ho] at h
        simp only [hf] at h
        rw [hbefore _ rfl] at h
        cases hl : extractDirectory.loop lo.entryErr lo.special archive.entries
            ((gomap.Load w1.disk.dirs (filepath.JoinText [lo.tempDir, "browser-context-" ++ id])).getD []) with
        | mk after err =>
          rw [hl] at h
          cases err with
          | some e => simp at h
          | none =>
            simp only [] at h
            cases hcpl : archive.complete with
            | false => rw [hcpl] at h; simp at h
            | true =>
              rw [hcpl] at h
              simp only [if_true, Prod.mk.injEq, Except.ok.injEq] at h
              obtain ⟨h1, h2⟩ := h
              subst h2
              refine ⟨rfl, after, rfl, ?_⟩
              rw [← h1]
              simp only [gomap.Load_Store, if_true]
  · intro hm ho hcpl after hl
    unfold World.LoadContextData
    rw [hg]
    simp only [hb, Bool.false_eq_true, if_false, hm]
    unfold extractDirectory
    simp only [ho, hf]
    rw [hbefore _ rfl, hl]
    simp only [hcpl, if_true]
    exact ⟨_, rfl⟩

end ctxmgr

namespace ctxmgr

theorem prefixes_nil : prefixes [] = [] := rfl

theorem prefixes_snoc (s : RelPath) (a : String) :
    prefixes (s ++ [a]) = prefixes s ++ [s ++ [a]] := by
  unfold prefixes
  rw [List.inits_append]
  cases hs : s.inits with
  | nil =>
    have hl := congrArg List.length hs
    simp at hl
  | cons x xs => simp [List.inits]

theorem mem_prefixes (p q : RelPath) (h : q ∈ prefixes p) :
    q ∈ prefixes p.dropLast ∨ q = p := by
  by_cases hp : p = []
  · subst hp; simp [prefixes_nil] at h
  · have e := List.dropLast_append_getLast hp
    rw [← e, prefixes_snoc] at h
    rcases List.mem_append.1 h with h1 | h1
    · exact Or.inl h1
    · right
      simp only [List.mem_singleton] at h1
      rw [h1, e]

/-- In a directory that holds only what `d` holds, `mkdirs` over paths that are
directories of `d` succeeds and stays within `d`. -/
theorem mkdirs_within (sp : SpecialOutcome) (d : Dir) (ps : List RelPath) : ∀ (t : Dir),
    (∀ q ∈ ps, d.get q = some Node.dir) →
    (∀ q n, t.get q = some n → d.get q = some n) →
    ∃ t1, Dir.mkdirs sp t ps = (t1, none) ∧ ∀ q n, t1.get q = some n → d.get q = some n := by
  induction ps with
  | nil => intro t _ hsub; exact ⟨t, rfl, hsub⟩
  | cons p ps ih =>
    intro t hps hsub
    have hp := hps p (List.mem_cons_self _ _)
    have hrest : ∀ q ∈ ps, d.get q = some Node.dir :=
      fun q hq => hps q (List.mem_cons_of_mem _ hq)
    unfold Dir.mkdirs
    cases hg : t.get p with
    | none =>
      simp only []
      refine ih _ hrest ?_
      intro q n hq
      rw [Dir.get_set] at hq
      by_cases e : q = p
      · simp only [e, if_true, Option.some.injEq] at hq
        rw [e, ← hq]; exact hp
      · simp only [e, if_false] at hq
        exact hsub q n hq
    | some n =>
      have hn := hsub p n hg
      rw [hp] at hn
      simp only [Option.some.injEq] at hn
      subst hn
      simp only []
      exact ih t hrest hsub

/-- In a directory that holds only what `d` holds, `Create` of a regular file of
`d` succeeds and stays within `d`. -/
theorem Create_within (sp : SpecialOutcome) (d t : Dir) (p : RelPath) (data : Bytes)
    (hne : p ≠ [])
    (hp : d.get p = some (Node.file data))
    (hsub : ∀ q n, t.get q = some n → d.get q = some n) :
    ∃ t1, Dir.Create sp t p data = (t1, none) ∧
      ∀ q n, t1.get q = some n → d.get q = some n := by
  have hset : ∀ q n, (t.set p (Node.file data)).get q = some n → d.get q = some n := by
    intro q n hq
    rw [Dir.get_set] at hq
    by_cases e : q = p
    · simp only [e, if_true, Option.some.injEq] at hq
      rw [e, ← hq]; exact hp
    · simp only [e, if_false] at hq
      exact hsub q n hq
  unfold Dir.Create
  cases p with
  | nil => exact absurd rfl hne
  | cons a as =>
    simp only []
    cases hg : t.get (a :: as) with
    | none => exact ⟨_, rfl, hset⟩
    | some n =>
      have hn := hsub _ n hg
      rw [hp] at hn
      simp only [Option.some.injEq] at hn
      subst hn
      exact ⟨_, rfl, hset⟩

/-- The extraction succeeds when no entry raises an error and the target holds
only what `d` holds, for entries that are directories and regular files of `d`
whose parents are directories of `d`. -/
theorem loop_within (d : Dir) (entryErr : RelPath → GoError) (sp : SpecialOutcome)
    (hno : ∀ p, entryErr p = none) (es : List TarEntry) : ∀ (t : Dir),
    (∀ e ∈ es, e.Typeflag = Typeflag.dir → ∀ q ∈ prefixes e.Name, d.get q = some Node.dir) →
    (∀ e ∈ es, e.Typeflag = Typeflag.reg →
      e.Name ≠ [] ∧ d.get e.Name = some (Node.file e.Data) ∧
      ∀ q ∈ prefixes e.Name.dropLast, d.get q = some Node.dir) →
    (∀ q n, t.get q = some n → d.get q = some n) →
    ∃ t1, extractDirectory.loop entryErr sp es t = (t1, none) := by
  induction es with
  | nil => intro t _ _ _; exact ⟨t, rfl⟩
  | cons e es ih =>
    intro t hdir hreg hsub
    have hdir1 : ∀ e1 ∈ es, e1.Typeflag = Typeflag.dir →
        ∀ q ∈ prefixes e1.Name, d.get q = some Node.dir :=
      fun e1 h1 => hdir e1 (List.mem_cons_of_mem _ h1)
    have hreg1 : ∀ e1 ∈ es, e1.Typeflag = Typeflag.reg →
        e1.Name ≠ [] ∧ d.get e1.Name = some (Node.file e1.Data) ∧
        ∀ q ∈ prefixes e1.Name.dropLast, d.get q = some Node.dir :=
      fun e1 h1 => hreg e1 (List.mem_cons_of_mem _ h1)
    unfold extractDirectory.loop
    rw [hno e.Name]
    simp only []
    cases ht : e.Typeflag with
    | dir =>
      simp only []
      obtain ⟨t1, h1, hsub1⟩ := mkdirs_within sp d (prefixes e.Name) t
        (hdir e (List.mem_cons_self _ _) ht) hsub
      have h1a : Dir.MkdirAll sp t e.Name = (t1, none) := h1
      rw [h1a]
      exact ih t1 hdir1 hreg1 hsub1
    | other =>
      simp only []
      exact ih t hdir1 hreg1 hsub
    | reg =>
      simp only []
      obtain ⟨hne, hfile, hpre⟩ := hreg e (List.mem_cons_self _ _) ht
      obtain ⟨t1, h1, hsub1⟩ := mkdirs_within sp d (prefixes e.Name.dropLast) t hpre hsub
      have h1a : Dir.MkdirAll sp t e.Name.dropLast = (t1, none) := h1
      rw [h1a]
      simp only []
      obtain ⟨t2, h2, hsub2⟩ := Create_within sp d t1 e.Name e.Data hne hfile hsub1
      rw [h2]
      exact ih t2 hdir1 hreg1 hsub2

/-- The archive of a directory tree can be extracted into an empty directory. -/
theorem loop_wellFormed (d : Dir) (hwf : d.WellFormed) (entryErr : RelPath → GoError)
    (sp : SpecialOutcome) (hno : ∀ p, entryErr p = none) :
    ∃ t1, extractDirectory.loop entryErr sp ((([], Node.dir) :: walkOrder d).map toEntry) []
      = (t1, none) := by
  obtain ⟨hnd, hall⟩ := hwf
  have hpre : ∀ p n, (p, n) ∈ d → ∀ q ∈ prefixes p.dropLast, d.get q = some Node.dir :=
    fun p n hm q hq => get_of_mem d hnd q _ ((hall (p, n) hm).2 q hq)
  refine loop_within d entryErr sp hno _ [] ?_ ?_ ?_
  · intro e hm ht q hq
    rcases List.mem_map.1 hm with ⟨x, hx, rfl⟩
    rcases List.mem_cons.1 hx with rfl | hx
    · simp [toEntry, prefixes_nil] at hq
    · obtain ⟨p, n⟩ := x
      have hmem := (mem_walkOrder d _).1 hx
      cases n with
      | file data => simp [toEntry] at ht
      | special => simp [toEntry] at ht
      | dir =>
        have hq1 : q ∈ prefixes p := hq
        rcases mem_prefixes p q hq1 with h1 | h1
        · exact hpre p _ hmem q h1
        · rw [h1]; exact get_of_mem d hnd p _ hmem
  · intro e hm ht
    rcases List.mem_map.1 hm with ⟨x, hx, rfl⟩
    rcases List.mem_cons.1 hx with rfl | hx
    · simp [toEntry] at ht
    · obtain ⟨p, n⟩ := x
      have hmem := (mem_walkOrder d _).1 hx
      cases n with
      | dir => simp [toEntry] at ht
      | special => simp [toEntry] at ht
      | file data =>
        exact ⟨(hall _ hmem).1, get_of_mem d hnd p _ hmem, hpre p _ hmem⟩
  · intro q n hq
    simp [Dir.get_nil] at hq

end ctxmgr

namespace ctxmgr

/-- C13, as stated, fails. The context `c1` is saved from `/src1` (one file
`a.txt`) and loaded, then saved from `/src2` (one file `b.txt`) and loaded again:
both calls of the second round return no error, and the directory returned by the
second load holds `a.txt` next to `b.txt`, a regular file that `/src2` does not
have. -/
theorem C13_counterexample :
    gomap.Load demo.loadedOnce.disk.dirs "/src2" = some [(["b.txt"], Node.file [3])] ∧
    demo.loadedOnce.SaveContextData "c1" "/src2" demo.saveOk = (demo.savedTwice, none) ∧
    (demo.savedTwice.LoadContextData "c1" demo.loadOk).2 = .ok "/tmp/browser-context-c1" ∧
    gomap.Load (demo.savedTwice.LoadContextData "c1" demo.loadOk).1.disk.dirs
        "/tmp/browser-context-c1"
      = some [(["b.txt"], Node.file [3]), (["a.txt"], Node.file [1, 2])] ∧
    Dir.get [(["b.txt"], Node.file [3])] ["a.txt"] = none := by
  refine ⟨rfl, rfl, rfl, rfl, rfl⟩

/-- C13 (amended). Let `d` be a source directory that lists no relative path
twice, let `SaveContextData(context, d)` return no error, and let the extraction
directory `filepath.Join(tmp, "browser-context-" + id)` hold directories and
regular files only (no symbolic link or other special file).  Whenever the
following `LoadContextData(context)` returns a directory, it is that extraction
directory; it holds every regular file of `d` under its relative path with the
same bytes, and every regular file it holds is one of `d` or was in the extraction
directory, with the same bytes, before the save; so when the extraction directory
held no regular file before, the regular files of the result are exactly those of
`d`.  And when `d` is a directory tree, the extraction directory was absent or
empty and the file system raises no error, `LoadContextData` does return the
extraction directory. -/
theorem C13_save_then_load (w w1 : World) (contextID userDataDir : String) (d : Dir)
    (so : SaveOutcome) (lo : LoadOutcome)
    (hd : gomap.Load w.disk.dirs userDataDir = some d)
    (hnodup : (d.map Prod.fst).Nodup)
    (hsave : w.SaveContextData contextID userDataDir so = (w1, none))
    (hplain : Dir.Plain ((gomap.Load w.disk.dirs
      (filepath.JoinText [lo.tempDir, "browser-context-" ++ contextID])).getD [])) :
    (∀ w2 dirPath, w1.LoadContextData contextID lo = (w2, .ok dirPath) →
      dirPath = filepath.JoinText [lo.tempDir, "browser-context-" ++ contextID] ∧
      ∃ after, gomap.Load w2.disk.dirs dirPath = some after ∧
        (∀ p x, (p, Node.file x) ∈ d → after.get p = some (Node.file x)) ∧
        (∀ p x, after.get p = some (Node.file x) →
          (p, Node.file x) ∈ d ∨
          ((gomap.Load w.disk.dirs dirPath).getD []).get p = some (Node.file x)) ∧
        ((∀ p x, ((gomap.Load w.disk.dirs dirPath).getD []).get p ≠ some (Node.file x)) →
          ∀ p x, after.get p = some (Node.file x) ↔ (p, Node.file x) ∈ d)) ∧
    (d.WellFormed →
      (gomap.Load w.disk.dirs (filepath.JoinText [lo.tempDir, "browser-context-" ++ contextID])).getD [] = [] →
      lo.mkdirErr = none → lo.openErr = none → (∀ p, lo.entryErr p = none) →
      ∃ w2, w1.LoadContextData contextID lo
        = (w2, .ok (filepath.JoinText [lo.tempDir, "browser-context-" ++ contextID]))) := by
  obtain ⟨hdirs, ⟨ctx1, hg, hpath⟩, hfile⟩ := World.save_ok w w1 contextID userDataDir so d hd hsave
  have hne : ctx1.DataPath ≠ "" := by rw [hpath]; exact archivePath_ne_empty _ _
  rw [← hpath] at hfile
  obtain ⟨hl1, hl2⟩ := World.load_ok w1 contextID lo ctx1 _ hg hne hfile
  rw [hdirs] at hl1 hl2
  simp only [] at hl1 hl2
  constructor
  · intro w2 dirPath hload
    obtain ⟨hdp, after, hloop, hafter⟩ := hl1 w2 dirPath hload
    refine ⟨hdp, after, hafter, ?_⟩
    have hsame : ∀ e1 ∈ (([], Node.dir) :: walkOrder d).map toEntry,
        ∀ e2 ∈ (([], Node.dir) :: walkOrder d).map toEntry,
        e1.Typeflag = Typeflag.reg → e2.Typeflag = Typeflag.reg →
        e1.Name = e2.Name → e1.Data = e2.Data := by
      intro e1 h1 e2 h2 r1 r2 hn
      have m1 := ((reg_entry_iff d e1).1 ⟨h1, r1⟩).1
      have m2 := ((reg_entry_iff d e2).1 ⟨h2, r2⟩).1
      have g1 := get_of_mem d hnodup _ _ m1
      have g2 := get_of_mem d hnodup _ _ m2
      rw [hn, g2] at g1
      simp only [Option.some.injEq, Node.file.injEq] at g1
      exact g1.symm
    have ha : ∀ p x, (p, Node.file x) ∈ d → after.get p = some (Node.file x) := by
      intro p x hm
      have he := (reg_entry_iff d { Name := p, Typeflag := Typeflag.reg, Data := x }).2 ⟨hm, rfl⟩
      exact loop_writes lo.entryErr lo.special _ _ _ hplain hloop hsame _ he.1 rfl
    have hb : ∀ p x, after.get p = some (Node.file x) →
        (p, Node.file x) ∈ d ∨
        ((gomap.Load w.disk.dirs dirPath).getD []).get p = some (Node.file x) := by
      intro p x hp
      rcases loop_files_from lo.entryErr lo.special _ _ _ hplain hloop p x hp with
        ⟨e, hm, hr, hn, hx⟩ | h
      · left
        have := ((reg_entry_iff d e).1 ⟨hm, hr⟩).1
        rw [hn, hx] at this
        exact this
      · right; rw [hdp]; exact h
    refine ⟨ha, hb, ?_⟩
    intro hnone p x
    constructor
    · intro hp
      rcases hb p x hp with h | h
      · exact h
      · exact absurd h (hnone p x)
    · exact ha p x
  · intro hwf hempty hm ho hno
    rw [hempty] at hl2
    obtain ⟨t1, ht1⟩ := loop_wellFormed d hwf lo.entryErr lo.special hno
    exact hl2 hm ho trivial t1 ht1

/-- C13 (amended) at the first round of the example: `/src1` is saved to `c1` and
loaded into the absent `/tmp/browser-context-c1`; the load returns that directory and
its regular files are exactly those of `/src1`. -/
theorem C13_witness :
    ∃ w2 after,
      demo.savedOnce.LoadContextData "c1" demo.loadOk = (w2, .ok "/tmp/browser-context-c1") ∧
      gomap.Load w2.disk.dirs "/tmp/browser-context-c1" = some after ∧
      ∀ p x, after.get p = some (Node.file x) ↔
        (p, Node.file x) ∈ [((["a.txt"] : RelPath), Node.file [1, 2])] := by
  have h := C13_save_then_load demo.stored demo.savedOnce "c1" "/src1"
    [(["a.txt"], Node.file [1, 2])] demo.saveOk demo.loadOk rfl (by decide) rfl
    (fun q h => Option.noConfusion h)
  obtain ⟨w2, hw2⟩ := h.2 ⟨by decide, by decide⟩ rfl rfl rfl (fun _ => rfl)
  obtain ⟨-, after, hafter, -, -, hc⟩ := h.1 w2 _ hw2
  refine ⟨w2, after, hw2, hafter, hc ?_⟩
  intro p x
  change Dir.get [] p ≠ some (Node.file x)
  rw [Dir.get_nil]
  exact fun e => Option.noConfusion e

end ctxmgr

namespace ctxmgr

/-- C14 at an example: the context `c1` with its archive `/store/c1.tar.gz` is
deleted; the call returns no error, the archive is gone and `GetContext` answers
`context not found`. -/
theorem C14_witness :
    ∃ w1, demo.savedOnce.DeleteContext "c1" none = (w1, none) ∧
      gomap.Load demo.savedOnce.disk.files "/store/c1.tar.gz" ≠ none ∧
      gomap.Load w1.disk.files "/store/c1.tar.gz" = none ∧
      w1.mgr.GetContext "c1" = .error "context not found" := by
  have h := (C14_delete_context demo.savedOnce "c1" none).1
    { ID := "c1", ProjectID := "p1", CreatedAt := 0, UpdatedAt := 1,
      DataPath := "/store/c1.tar.gz" }
    (demo.savedOnce.DeleteContext "c1" none).1 rfl rfl
  exact ⟨_, rfl, by decide, h.1 (by decide), h.2⟩

/-- C15 at an example: after `CreateContext` and a `SaveContextData` from `/src1`
the context `c1` has the data path `/store/c1.tar.gz`, that file exists, and the
context was updated no earlier than it was created. -/
theorem C15_witness :
    ∃ ctx, demo.savedOnce.mgr.GetContext "c1" = .ok ctx ∧
      ctx.DataPath = "/store/c1.tar.gz" ∧
      (gomap.Load demo.savedOnce.disk.files ctx.DataPath).isSome = true ∧
      ctx.CreatedAt ≤ ctx.UpdatedAt := by
  have h := (C15_context_store_invariant "/store" demo.disk0 0
    [Call.create "p1" { id := "c1", delay1 := 0, delay2 := 0 },
     Call.save "c1" "/src1" demo.saveOk]
    (by
      intro c hc
      simp only [List.mem_cons, List.mem_singleton, List.not_mem_nil, or_false] at hc
      rcases hc with rfl | rfl
      · show '/' ∉ "c1".data
        decide
      · trivial)).1 "c1"
    { ID := "c1", ProjectID := "p1", CreatedAt := 0, UpdatedAt := 1,
      DataPath := "/store/c1.tar.gz" } rfl
  exact ⟨_, rfl, rfl, h.1.resolve_left (by decide), h.2⟩

end ctxmgr

/-! ## Stopping a container -/

namespace browser

/-- C21, as stated, fails.  When the runtime does not know the container,
`StopBrowser` calls `ContainerStop` only: `ContainerRemove` is not attempted, and
the returned error says nothing about a removal. -/
theorem C21_counterexample :
    Pool.StopBrowser { region := "us-west-2", basePort := 9222 } "c0ffee" demo.stopFails
      = ([RuntimeCall.ContainerStop "c0ffee" 10],
         some "failed to stop container: No such container: c0ffee") :=
  rfl

/-- C21 (amended). `StopBrowser` calls `ContainerStop` with a timeout of 10
seconds and returns its error, wrapped, without calling `ContainerRemove`; when
the stop succeeded it calls `ContainerRemove` next and returns its error, wrapped;
it returns no error exactly when the stop and the removal both succeeded. -/
theorem C21_stop_then_remove (p : Pool) (containerID : String) (o : StopOutcome) :
    (∀ e, o.stopErr = some e →
      p.StopBrowser containerID o
        = ([RuntimeCall.ContainerStop containerID 10],
           some ("failed to stop container: " ++ e))) ∧
    (∀ e, o.stopErr = none → o.removeErr = some e →
      p.StopBrowser containerID o
        = ([RuntimeCall.ContainerStop containerID 10, RuntimeCall.ContainerRemove containerID],
           some ("failed to remove container: " ++ e))) ∧
    (o.stopErr = none → o.removeErr = none →
      p.StopBrowser containerID o
        = ([RuntimeCall.ContainerStop containerID 10, RuntimeCall.ContainerRemove containerID],
           none)) ∧
    ((p.StopBrowser containerID o).2 = none ↔ o.stopErr = none ∧ o.removeErr = none) := by
  unfold Pool.StopBrowser
  cases hs : o.stopErr with
  | some e1 => simp
  | none =>
    cases hr : o.removeErr with
    | some e2 => simp
    | none => simp

/-- C21 (amended) at an example: the stop succeeds and the removal fails; both
calls are made and the error is the wrapped removal error. -/
theorem C21_witness :
    Pool.StopBrowser { region := "us-west-2", basePort := 9222 } "c0ffee"
        { stopErr := none, removeErr := some "removal in progress" }
      = ([RuntimeCall.ContainerStop "c0ffee" 10, RuntimeCall.ContainerRemove "c0ffee"],
         some "failed to remove container: removal in progress") :=
  (C21_stop_then_remove { region := "us-west-2", basePort := 9222 } "c0ffee"
    { stopErr := none, removeErr := some "removal in progress" }).2.1
    "removal in progress" rfl rfl

/-! ## The readiness probe -/

/-- The loop of the probe from iteration `i` with `n` iterations left: it makes
at least zero and at most `n` further probes; either it returns no error, and
then its last probe answered 200 and none before it did, or it returns the
not-ready error after `n` probes, none of which answered 200. -/
theorem waitForBrowserReady_loop (get : Nat → Except String Int) (maxRetries : Nat) (n : Nat) :
    ∀ i,
    ((waitForBrowserReady.loop get maxRetries n i).2 = none ∧
      i + 1 ≤ (waitForBrowserReady.loop get maxRetries n i).1 ∧
      (waitForBrowserReady.loop get maxRetries n i).1 ≤ i + n ∧
      get ((waitForBrowserReady.loop get maxRetries n i).1 - 1) = .ok 200 ∧
      ∀ j, i ≤ j → j < (waitForBrowserReady.loop get maxRetries n i).1 - 1 → get j ≠ .ok 200) ∨
    (waitForBrowserReady.loop get maxRetries n i
        = (i + n, some ("browser did not become ready after " ++ strconv.Itoa maxRetries
            ++ " retries")) ∧
      ∀ j, i ≤ j → j < i + n → get j ≠ .ok 200) := by
  induction n with
  | zero =>
    intro i
    right
    refine ⟨rfl, ?_⟩
    intro j h1 h2
    omega
  | succ n ih =>
    intro i
    have hrec : ∀ (hne : get i ≠ .ok 200),
        waitForBrowserReady.loop get maxRetries (n + 1) i
          = waitForBrowserReady.loop get maxRetries n (i + 1) →
        ((waitForBrowserReady.loop get maxRetries (n + 1) i).2 = none ∧
          i + 1 ≤ (waitForBrowserReady.loop get maxRetries (n + 1) i).1 ∧
          (waitForBrowserReady.loop get maxRetries (n + 1) i).1 ≤ i + (n + 1) ∧
          get ((waitForBrowserReady.loop get maxRetries (n + 1) i).1 - 1) = .ok 200 ∧
          ∀ j, i ≤ j → j < (waitForBrowserReady.loop get maxRetries (n + 1) i).1 - 1 →
            get j ≠ .ok 200) ∨
        (waitForBrowserReady.loop get maxRetries (n + 1) i
            = (i + (n + 1), some ("browser did not become ready after "
                ++ strconv.Itoa maxRetries ++ " retries")) ∧
          ∀ j, i ≤ j → j < i + (n + 1) → get j ≠ .ok 200) := by
      intro hne heq
      rw [heq]
      rcases ih (i + 1) with ⟨h1, h2, h3, h4, h5⟩ | ⟨h1, h2⟩
      · left
        refine ⟨h1, by omega, by omega, h4, ?_⟩
        intro j hj1 hj2
        by_cases hji : j = i
        · rw [hji]; exact hne
        · exact h5 j (by omega) hj2
      · right
        refine ⟨by rw [h1]; congr 1; omega, ?_⟩
        intro j hj1 hj2
        by_cases hji : j = i
        · rw [hji]; exact hne
        · exact h2 j (by omega) (by omega)
    cases hg : get i with
    | error e =>
      refine hrec (by rw [hg]; exact fun h => Except.noConfusion h) ?_
      simp only [waitForBrowserReady.loop, hg]
    | ok statusCode =>
      by_cases hc : statusCode = 200
      · left
        have hb : (statusCode == 200) = true := by simp [hc]
        have hval : waitForBrowserReady.loop get maxRetries (n + 1) i = (i + 1, none) := by
          simp only [waitForBrowserReady.loop, hg, hb, if_true]
        rw [hval]
        refine ⟨rfl, le_refl _, by simp, ?_, ?_⟩
        · simp only [Nat.add_sub_cancel]
          rw [hg, hc]
        · intro j hj1 hj2
          simp only [Nat.add_sub_cancel] at hj2
          omega
      · have hb : (statusCode == 200) = false := by simp [hc]
        refine hrec ?_ ?_
        · rw [hg]
          intro h
          simp only [Except.ok.injEq] at h
          exact hc h
        · simp only [waitForBrowserReady.loop, hg, hb, Bool.false_eq_true, if_false]

/-- C22. `waitForBrowserReady` returns after at most 20 probes of
`http://localhost:<port>/json/version`.  It returns no error exactly when one of
the first 20 probes answers with status 200; then the probe that answered 200 is
its last and no earlier probe answered 200.  When none of the first 20 probes
answers 200, whether by a transport error or by another status, it makes 20
probes and returns `browser did not become ready after 20 retries`. -/
theorem C22_readiness_probe (p : Pool) (port : String) (get : String → Nat → Except String Int) :
    (p.waitForBrowserReady port get).1 ≤ 20 ∧
    ((p.waitForBrowserReady port get).2 = none ↔
      ∃ i, i < 20 ∧ get (readyURL port) i = .ok 200) ∧
    ((p.waitForBrowserReady port get).2 = none →
      1 ≤ (p.waitForBrowserReady port get).1 ∧
      get (readyURL port) ((p.waitForBrowserReady port get).1 - 1) = .ok 200 ∧
      ∀ j, j < (p.waitForBrowserReady port get).1 - 1 → get (readyURL port) j ≠ .ok 200) ∧
    ((∀ i, i < 20 → get (readyURL port) i ≠ .ok 200) →
      p.waitForBrowserReady port get
        = (20, some "browser did not become ready after 20 retries")) := by
  have hmsg : "browser did not become ready after " ++ strconv.Itoa (20 : Nat) ++ " retries"
      = "browser did not become ready after 20 retries" := by decide
  have hdef : p.waitForBrowserReady port get
      = waitForBrowserReady.loop (get (readyURL port)) 20 20 0 := rfl
  rw [hdef]
  rcases waitForBrowserReady_loop (get (readyURL port)) 20 20 0 with
    ⟨h1, h2, h3, h4, h5⟩ | ⟨h1, h2⟩
  · refine ⟨by omega, ?_, ?_, ?_⟩
    · constructor
      · intro _
        exact ⟨_, by omega, h4⟩
      · intro _; exact h1
    · intro _
      exact ⟨by omega, h4, fun j hj => h5 j (Nat.zero_le _) hj⟩
    · intro hnone
      exact absurd h4 (hnone _ (by omega))
  · rw [h1]
    refine ⟨by simp, ?_, ?_, ?_⟩
    · constructor
      · intro h; simp at h
      · rintro ⟨i, hi, hg⟩
        exact absurd hg (h2 i (Nat.zero_le _) (by omega))
    · intro h; simp at h
    · intro _
      rw [hmsg]

end browser

/-! ## The proxy -/

namespace proxy

/-- The loop of `proxyMessages` writes a beginning of the messages still to be
read, after what it has written. -/
theorem loop_writes_beginning (readErr : String) (writeErr : Nat → GoError) (msgs : List Message) :
    ∀ (k : Nat) (written : List Message),
    ∃ pre, pre <+: msgs ∧
      (proxyMessages.loop readErr writeErr msgs k written).1 = written ++ pre := by
  induction msgs with
  | nil => intro k written; exact ⟨[], List.prefix_refl _, by simp [proxyMessages.loop]⟩
  | cons m rest ih =>
    intro k written
    unfold proxyMessages.loop
    cases hw : writeErr k with
    | some e => exact ⟨[], List.nil_prefix, by simp⟩
    | none =>
      obtain ⟨pre, hp, he⟩ := ih (k + 1) (written ++ [m])
      refine ⟨m :: pre, ?_, ?_⟩
      · exact (List.prefix_cons_inj m).2 hp
      · simp only [he, List.append_assoc, List.singleton_append]

/-- When no write fails, the loop writes every message and returns the error of
the read after the last one. -/
theorem loop_all (readErr : String) (writeErr : Nat → GoError) (msgs : List Message) :
    ∀ (k : Nat) (written : List Message),
    (∀ i, i < msgs.length → writeErr (k + i) = none) →
    proxyMessages.loop readErr writeErr msgs k written = (written ++ msgs, readErr) := by
  induction msgs with
  | nil => intro k written _; simp [proxyMessages.loop]
  | cons m rest ih =>
    intro k written h
    unfold proxyMessages.loop
    have h0 : writeErr k = none := h 0 (by simp)
    rw [h0]
    simp only []
    rw [ih (k + 1) (written ++ [m])]
    · simp
    · intro i hi
      have := h (i + 1) (by simp; omega)
      rw [← this]
      congr 1
      omega

/-- When the write of message `n` is the first to fail, the loop has written the
`n` messages before it and returns the error of that write. -/
theorem loop_first_failure (readErr : String) (writeErr : Nat → GoError) (msgs : List Message) :
    ∀ (k : Nat) (written : List Message) (n : Nat) (e : String),
    n < msgs.length → writeErr (k + n) = some e → (∀ j, j < n → writeErr (k + j) = none) →
    proxyMessages.loop readErr writeErr msgs k written = (written ++ msgs.take n, e) := by
  induction msgs with
  | nil => intro k written n e hn; simp at hn
  | cons m rest ih =>
    intro k written n e hn he hbefore
    unfold proxyMessages.loop
    cases n with
    | zero =>
      have h0 : writeErr k = some e := he
      rw [h0]
      simp
    | succ n =>
      have h0 : writeErr k = none := hbefore 0 (by omega)
      rw [h0]
      simp only []
      rw [ih (k + 1) (written ++ [m]) n e (by simpa using hn)
        (by rw [← he]; congr 1; omega)
        (by
          intro j hj
          have := hbefore (j + 1) (by omega)
          rw [← this]; congr 1; omega)]
      simp

/-- C23. For every sequence of messages that the source yields before its read
fails, `proxyMessages` writes to the sink a beginning of that sequence, each
message with its type and payload as read.  When no write fails it writes the
whole sequence and returns the read error; when the write of message `n` is the
first to fail it has written exactly the `n` messages before it and returns that
write error. -/
theorem C23_proxy_fidelity (s : Server) (src : Source) (writeErr : Nat → GoError) :
    (s.proxyMessages src writeErr).1 <+: src.messages ∧
    ((∀ k, k < src.messages.length → writeErr k = none) →
      s.proxyMessages src writeErr = (src.messages, src.readErr)) ∧
    (∀ n e, n < src.messages.length → writeErr n = some e →
      (∀ j, j < n → writeErr j = none) →
      s.proxyMessages src writeErr = (src.messages.take n, e)) := by
  unfold Server.proxyMessages
  refine ⟨?_, ?_, ?_⟩
  · obtain ⟨pre, hp, he⟩ := loop_writes_beginning src.readErr writeErr src.messages 0 []
    rw [he]
    simpa using hp
  · intro h
    rw [loop_all src.readErr writeErr src.messages 0 [] (by simpa using h)]
    simp
  · intro n e hn he hbefore
    rw [loop_first_failure src.readErr writeErr src.messages 0 [] n e hn (by simpa using he)
      (by simpa using hbefore)]
    simp

end proxy

/-! ## Isolation of projects -/

namespace session

open models

/-- The result of `acquireSlot` for a project is decided by the permits the
project has left. -/
theorem acquireSlot_result (m : Manager) (P : String) :
    (m.acquireSlot P).2
      = if 1 ≤ m.availablePermits P then none
        else some ("concurrency limit reached for project " ++ P) := by
  rcases acquireSlot_cases m P with ⟨h1, c1, h2, -, -⟩ | ⟨h1, h2⟩
  · rw [h2]; simp [h1]
  · rw [h2]
    have : ¬ 1 ≤ m.availablePermits P := by omega
    simp [this]

/-- A call that acts on another project, or on no stored session, leaves the
permits of a project as they were. -/
theorem step_other_project (m : Manager) (op : Op) (B : String) (hinv : m.Inv)
    (hop : ∀ P, op.project m = some P → P ≠ B) :
    ∃ m1, m.step op = some m1 ∧ m1.Inv ∧ m1.availablePermits B = m.availablePermits B := by
  cases op with
  | create req o =>
    have hne : B ≠ req.ProjectID := fun e => hop req.ProjectID rfl e.symm
    obtain ⟨m1, r, h, hi, hr⟩ := CreateSession_spec m req o hinv
    refine ⟨m1, by simp [Manager.step, h], hi, ?_⟩
    cases r with
    | error e => exact hr.2 B
    | ok s =>
      have := hr.2.2.2.2 B
      rw [this]
      simp [hne]
  | delete id o =>
    by_cases hr : ∃ s, gomap.Load m.sessions id = some s ∧ s.Status = StatusRunning
    · obtain ⟨s, hl, hs⟩ := hr
      have hne : B ≠ s.ProjectID :=
        fun e => hop s.ProjectID (by simp [Op.project, hl]) e.symm
      obtain ⟨m1, h, hi, -, hp⟩ := DeleteSession_running m id s o hinv hl hs
      refine ⟨m1, by simp [Manager.step, h], hi, ?_⟩
      rw [hp B]
      simp [hne]
    · obtain ⟨e, h⟩ := DeleteSession_not_running m id o (fun s hl hs => hr ⟨s, hl, hs⟩)
      exact ⟨m, by simp [Manager.step, h], hinv, rfl⟩
  | timeout sess o =>
    by_cases hr : ∃ s, gomap.Load m.sessions sess.ID = some s ∧ s.Status = StatusRunning
    · obtain ⟨s, hl, hs⟩ := hr
      have hne : B ≠ s.ProjectID :=
        fun e => hop s.ProjectID (by simp [Op.project, hl]) e.symm
      obtain ⟨m1, h, hi, -, hp⟩ := handleTimeout_running m sess s o hinv hl hs
      refine ⟨m1, by simp [Manager.step, h], hi, ?_⟩
      rw [hp B]
      simp [hne]
    · have h := handleTimeout_not_running m sess o (fun s hl hs => hr ⟨s, hl, hs⟩)
      exact ⟨m, by simp [Manager.step, h], hinv, rfl⟩

/-- A sequence of calls on project `A` leaves the permits of another project as
they were, and does not panic. -/
theorem run_other_project (A B : String) (hAB : A ≠ B) (ops : List Op) :
    ∀ (m : Manager), m.Inv → m.onProject A ops = true →
    ∃ m1, m.run ops = some m1 ∧ m1.Inv ∧ m1.availablePermits B = m.availablePermits B := by
  induction ops with
  | nil => intro m hinv _; exact ⟨m, rfl, hinv, rfl⟩
  | cons op rest ih =>
    intro m hinv hon
    simp only [Manager.onProject, Bool.and_eq_true] at hon
    obtain ⟨hon1, hon2⟩ := hon
    have hop : ∀ P, op.project m = some P → P ≠ B := by
      intro P hP
      rw [hP] at hon1
      simp only [beq_iff_eq] at hon1
      rw [hon1]; exact hAB
    obtain ⟨m1, h1, hi1, hp1⟩ := step_other_project m op B hinv hop
    rw [h1] at hon2
    obtain ⟨m2, h2, hi2, hp2⟩ := ih m1 hi1 hon2
    exact ⟨m2, by simp [Manager.run, h1, h2], hi2, by rw [hp2, hp1]⟩

/-- C24. Let `A` and `B` be two different project ids.  From every state that
satisfies the admission invariant, any sequence of `CreateSession`,
`DeleteSession` and timeout firings that act on project `A` runs without panic
and leaves `B` with the permits it had, so that the admission step of a
`CreateSession` for `B` gives the same result after the sequence as before it.
And any sequence of `Allow` calls for `A` leaves the result of `Allow` for `B`
unchanged. -/
theorem C24_projects_are_isolated (A B : String) (hAB : A ≠ B) :
    (∀ (m : Manager) (ops : List Op), m.Inv → m.onProject A ops = true →
      ∃ m1, m.run ops = some m1 ∧
        m1.availablePermits B = m.availablePermits B ∧
        (m1.acquireSlot B).2 = (m.acquireSlot B).2) ∧
    (∀ (l : ratelimit.Limiter) (calls : List (String × time.Time)) (now : time.Time),
      (∀ c ∈ calls, c.1 = A) →
      ((l.allowAll calls).Allow B now).2 = (l.Allow B now).2) := by
  constructor
  · intro m ops hinv hon
    obtain ⟨m1, h1, -, hp⟩ := run_other_project A B hAB ops m hinv hon
    refine ⟨m1, h1, hp, ?_⟩
    rw [acquireSlot_result, acquireSlot_result, hp]
  · intro l calls now hc
    obtain ⟨h1, h2, h3⟩ := ratelimit.allowAll_other B calls l
      (fun c hm e => hAB ((hc c hm).symm.trans e))
    unfold ratelimit.Limiter.Allow ratelimit.Limiter.GetLimiter
    rw [h1, h2, h3]
    cases gomap.Load l.limiters B <;> rfl

end session

namespace session

/-- C24 at an example: project `P` fills its ten slots, then one of its sessions
is deleted and one times out; a `CreateSession` for `Q` is admitted afterwards as
it would have been before.  And two `Allow` calls for `P` leave the answer to `Q`
as it was. -/
theorem C24_witness :
    (∃ m1, demo.empty.run demo.busyP = some m1 ∧
      m1.availablePermits "Q" = 10 ∧ (m1.acquireSlot "Q").2 = none) ∧
    (((ratelimit.NewLimiter 100 10).allowAll [("P", 5), ("P", 7)]).Allow "Q" 9).2
      = ((ratelimit.NewLimiter 100 10).Allow "Q" 9).2 := by
  have h := C24_projects_are_isolated "P" "Q" (by decide)
  constructor
  · obtain ⟨m1, h1, h2, h3⟩ := h.1 demo.empty demo.busyP
      (NewManager_Inv demo.regionMgr demo.ctxMgr) (by rfl)
    exact ⟨m1, h1, h2.trans (by rfl), h3.trans (by rfl)⟩
  · exact h.2 _ _ _ (by
      intro c hc
      simp only [List.mem_cons, List.mem_singleton, List.not_mem_nil, or_false] at hc
      rcases hc with rfl | rfl <;> rfl)

end session

/-! ## Extraction stays inside the target -/

namespace ctxmgr

/-- Every entry that the walk has written is one it was given or the entry of a
visited node. -/
theorem walk_entries (walkErr : RelPath → GoError) (xs : List (RelPath × Node)) :
    ∀ (acc : List TarEntry), ∀ e ∈ (compressDirectory.walk walkErr xs acc).1,
      e ∈ acc ∨ ∃ x ∈ xs, e = toEntry x := by
  induction xs with
  | nil => intro acc e he; exact Or.inl he
  | cons x xs ih =>
    intro acc e he
    unfold compressDirectory.walk at he
    cases hw : walkErr x.1 with
    | some err => rw [hw] at he; exact Or.inl he
    | none =>
      rw [hw] at he
      rcases ih _ e he with h | ⟨y, hy, h⟩
      · rcases List.mem_append.1 h with h | h
        · exact Or.inl h
        · simp only [List.mem_singleton] at h
          exact Or.inr ⟨x, List.mem_cons_self _ _, h⟩
      · exact Or.inr ⟨y, List.mem_cons_of_mem _ hy, h⟩

theorem toEntry_Name (x : RelPath × Node) : (toEntry x).Name = x.1 := by
  obtain ⟨p, n⟩ := x
  cases n <;> rfl

/-- C25. Let an archive be written by `compressDirectory` from a source directory
whose entries have names that directory entries can have.  For every entry of the
archive the header name computed by `filepath.Rel` is the relative path of the
node below the source: it is not rooted and does not begin with `..`.  Joined to
any target by `filepath.Join`, it gives the cleaned target followed by that
relative path, a path inside the target; and so is the parent directory that
`extractDirectory` creates for an entry below the root. -/
theorem C25_extraction_stays_inside_target (disk : Disk) (source target : String)
    (o : CompressOutcome) (d : Dir) (archive : Archive) (sourcePath targetDir : filepath.Path)
    (hd : gomap.Load disk.dirs source = some d)
    (hnames : ∀ x ∈ d, ∀ s ∈ x.1, filepath.IsName s)
    (hcreate : o.createErr = none)
    (ha : gomap.Load (compressDirectory disk source target o).1.files target = some archive) :
    ∀ e ∈ archive.entries,
      compressDirectory.headerName sourcePath e.Name
        = .ok { rooted := false, elems := e.Name } ∧
      e.Name.head? ≠ some ".." ∧
      extractDirectory.targetPath targetDir { rooted := false, elems := e.Name }
        = { rooted := targetDir.rooted, elems := (filepath.Clean targetDir).elems ++ e.Name } ∧
      (extractDirectory.targetPath targetDir { rooted := false, elems := e.Name }).Inside
        (filepath.Clean targetDir) ∧
      (e.Name ≠ [] →
        filepath.Dir (extractDirectory.targetPath targetDir { rooted := false, elems := e.Name })
          = { rooted := targetDir.rooted
              elems := (filepath.Clean targetDir).elems ++ e.Name.dropLast } ∧
        (filepath.Dir (extractDirectory.targetPath targetDir
          { rooted := false, elems := e.Name })).Inside (filepath.Clean targetDir)) := by
  intro e he
  have hentries : archive.entries
      = (compressDirectory.walk o.walkErr (([], Node.dir) :: walkOrder d) []).1 := by
    unfold compressDirectory at ha
    rw [hcreate, hd] at ha
    simp only [gomap.Load_Store, if_true, Option.some.injEq] at ha
    rw [← ha]
  have hname : ∀ s ∈ e.Name, filepath.IsName s := by
    rw [hentries] at he
    rcases walk_entries o.walkErr _ [] e he with h | ⟨x, hx, h⟩
    · cases h
    · rw [h, toEntry_Name]
      rcases List.mem_cons.1 hx with hx | hx
      · rw [hx]; intro s hs; cases hs
      · exact hnames x ((mem_walkOrder d x).1 hx)
  have hjoin := filepath.Join_names targetDir e.Name hname
  have hin : ∀ q : List String,
      filepath.Path.Inside { rooted := targetDir.rooted
                             elems := (filepath.Clean targetDir).elems ++ q }
        (filepath.Clean targetDir) :=
    fun q => ⟨rfl, List.prefix_append _ _⟩
  refine ⟨filepath.Rel_walkPath sourcePath e.Name hname, ?_, hjoin, ?_, ?_⟩
  · intro h
    cases hn : e.Name with
    | nil => rw [hn] at h; simp at h
    | cons a as =>
      rw [hn] at h
      simp only [List.head?_cons, Option.some.injEq] at h
      have := hname a (by rw [hn]; exact List.mem_cons_self _ _)
      exact this.2.2.1 h
  · unfold extractDirectory.targetPath
    rw [hjoin]; exact hin _
  · intro hne
    unfold extractDirectory.targetPath
    rw [hjoin, filepath.Dir_names targetDir e.Name hname hne]
    exact ⟨rfl, hin _⟩

/-- C25 at an example: the profile `../data/./profile` holds `Default/Cookies`;
its archive is extracted below `/tmp/browser-context-c1`, where the file is
written as `/tmp/browser-context-c1/Default/Cookies`. -/
theorem C25_witness :
    extractDirectory.targetPath { rooted := true, elems := ["tmp", "browser-context-c1"] }
        { rooted := false, elems := ["Default", "Cookies"] }
      = { rooted := true, elems := ["tmp", "browser-context-c1", "Default", "Cookies"] } ∧
    compressDirectory.headerName { rooted := false, elems := ["..", "data", ".", "profile"] }
        ["Default", "Cookies"]
      = .ok { rooted := false, elems := ["Default", "Cookies"] } := by
  have h := C25_extraction_stays_inside_target
    { files := []
      dirs := [("/data/profile",
        [(["Default"], Node.dir), (["Default", "Cookies"], Node.file [1, 2])])] }
    "/data/profile" "/store/c1.tar.gz" { createErr := none, walkErr := fun _ => none }
    [(["Default"], Node.dir), (["Default", "Cookies"], Node.file [1, 2])]
    { entries := [{ Name := [], Typeflag := Typeflag.dir, Data := [] },
                  { Name := ["Default"], Typeflag := Typeflag.dir, Data := [] },
                  { Name := ["Default", "Cookies"], Typeflag := Typeflag.reg, Data := [1, 2] }]
      complete := true }
    { rooted := false, elems := ["..", "data", ".", "profile"] }
    { rooted := true, elems := ["tmp", "browser-context-c1"] }
    rfl (by decide) rfl rfl
    { Name := ["Default", "Cookies"], Typeflag := Typeflag.reg, Data := [1, 2] } (by decide)
  exact ⟨h.2.2.1, h.1⟩

end ctxmgr

namespace browser

/-- C22 at an example: the first probe is refused, the second answers 503, the
third answers 200, and `waitForBrowserReady` returns no error. -/
theorem C22_witness :
    (Pool.waitForBrowserReady { region := "us-west-2", basePort := 9222 } "32768"
      demo.readyAtThird).2 = none :=
  (C22_readiness_probe { region := "us-west-2", basePort := 9222 } "32768"
    demo.readyAtThird).2.1.2 ⟨2, by decide, rfl⟩

end browser

namespace proxy

/-- C23 at an example: of a text, a binary and a text message the sink takes the
first two and fails on the third; the two reach the sink as read and the write
error is returned. -/
theorem C23_witness :
    Server.proxyMessages { sessionMgr := session.demo.empty } demo.mixed demo.thirdWriteFails
      = ([{ messageType := 1, data := [123, 125] }, { messageType := 2, data := [0, 255, 16] }],
         "write: broken pipe") :=
  (C23_proxy_fidelity { sessionMgr := session.demo.empty } demo.mixed
    demo.thirdWriteFails).2.2 2 "write: broken pipe" (by decide) rfl
    (by
      intro j hj
      have h : j = 0 ∨ j = 1 := by omega
      rcases h with rfl | rfl <;> rfl)

end proxy

/-! ## Overlapping terminal transitions -/

namespace session

open models

/-- A call of `DeleteSession` that nothing overlaps is its check followed by its
second half on the same manager. -/
theorem DeleteSession_halves (m : Manager) (id : String) (o : TeardownOutcome) :
    m.DeleteSession id o
      = match DeleteSession.guard m id with
        | .error e => some (m, some e)
        | .ok s => (DeleteSession.finish m id s o).map (fun m1 => (m1, none)) := by
  unfold Manager.DeleteSession DeleteSession.guard DeleteSession.finish
  cases hg : m.GetSession id with
  | error e => rfl
  | ok s =>
    simp only []
    by_cases hr : (s.Status != StatusRunning) = true
    · simp only [hr, if_true]
    · simp only [hr, Bool.false_eq_true, if_false]
      cases hrel : Manager.releaseSlot
        { m.teardown id s o with
          sessions := gomap.Store (m.teardown id s o).sessions id
            { s with Status := StatusCompleted } } s.ProjectID <;> rfl

/-- A firing of the timeout handler that nothing overlaps is its check followed by
its second half on the same manager. -/
theorem handleTimeout_halves (m : Manager) (s : Session) (o : TeardownOutcome) :
    m.handleTimeout s o
      = match handleTimeout.guard m s with
        | none => some m
        | some current => handleTimeout.finish m s current o := by
  unfold Manager.handleTimeout handleTimeout.guard handleTimeout.finish
  cases hg : m.GetSession s.ID with
  | error e => rfl
  | ok current =>
    simp only []
    by_cases hr : (current.Status != StatusRunning) = true
    · simp only [hr, if_true]
    · simp only [hr, Bool.false_eq_true, if_false]

/-- C6, the code at the failing input.  Project `P` has the RUNNING sessions `s0`
and `s1`.  The timer of `s0` fires and a `DeleteSession` for `s0` arrives while
the handler is past its RUNNING check and before its status write: both checks
pass on the same manager.  The handler finishes (status TIMED_OUT, one permit
released), then `DeleteSession` finishes (status COMPLETED, a second permit
released): the status of `s0` has left RUNNING and changed again, the container
was stopped twice, and `P` holds all 10 permits while `s1` is still RUNNING. -/
theorem C6_overlapping_teardown_runs_twice :
    ∃ m s m1 m2,
      demo.empty.run demo.twoCreates = some m ∧
      m.runningCount "P" = 2 ∧ m.availablePermits "P" = 8 ∧
      handleTimeout.guard m (demo.handle "s0") = some s ∧
      DeleteSession.guard m "s0" = .ok s ∧
      handleTimeout.finish m (demo.handle "s0") s demo.teardownOk = some m1 ∧
      (m1.GetSession "s0").map (fun x => x.Status) = .ok StatusTimedOut ∧
      DeleteSession.finish m1 "s0" s demo.teardownOk = some m2 ∧
      (m2.GetSession "s0").map (fun x => x.Status) = .ok StatusCompleted ∧
      m2.effects = m.effects ++
        [Event.stopContainer "c0ffee" none, Event.stopContainer "c0ffee" none] ∧
      m2.runningCount "P" = 1 ∧ m2.availablePermits "P" = 10 :=
  ⟨_, _, _, _, rfl, by decide, by decide, rfl, rfl, rfl, rfl, rfl, rfl, rfl, by decide,
    by decide⟩

/-- C1, the code at the failing input.  After the overlapping timeout and
`DeleteSession` on `s0` above, project `P` has one RUNNING session and 10 permits;
ten further creates are all admitted, and `P` has 11 sessions with status
RUNNING. -/
theorem C1_overlapping_teardown_admits_eleven :
    ∃ m s m1 m2 m3,
      demo.empty.run demo.twoCreates = some m ∧
      handleTimeout.guard m (demo.handle "s0") = some s ∧
      DeleteSession.guard m "s0" = .ok s ∧
      handleTimeout.finish m (demo.handle "s0") s demo.teardownOk = some m1 ∧
      DeleteSession.finish m1 "s0" s demo.teardownOk = some m2 ∧
      m2.run demo.tenMore = some m3 ∧
      m3.runningCount "P" = 11 ∧ m3.availablePermits "P" = 0 :=
  ⟨_, _, _, _, _, rfl, rfl, rfl, rfl, rfl, rfl, by decide, by decide⟩

end session

end BrowserbaseMini
